import Mathlib

/-!
# grivefs: a shallow embedding of the virtual filesystem engine

The Go sources `fetcher.go`, `grivefs.go` and `remote.go` are translated into
pure Lean functions.  Heap objects reached through pointers become values that
are passed in and returned; calls into the operating system, the Go runtime and
the Drive API become explicit inputs (the result such a call returned) and
explicit outputs (the list of calls that were issued).
-/

namespace GriveFS

/-! ## Machine integers and Go values -/

/-- Go `error`: a message; the nil error is `none` in `Option Err`. -/
abbrev Err := String

/-- Two's complement wrap-around of a 64 bit signed integer (`int`, `int64`). -/
def wrapInt64 (x : Int) : Int :=
  (x + 9223372036854775808) % 18446744073709551616 - 9223372036854775808

/-- Wrap-around of a 64 bit unsigned integer (`uint64`). -/
def wrapUint64 (x : Int) : Nat :=
  (x % 18446744073709551616).toNat

/-- Wrap-around of a 32 bit unsigned integer (`uint32`). -/
def wrapUint32 (x : Int) : Nat :=
  (x % 4294967296).toNat

/-! ## remote.go -/

/-- The record `drive.FileLabels`, reduced to the two flags the program reads. -/
structure FileLabels where
  Trashed : Bool
  Hidden : Bool
  deriving DecidableEq, Repr, Inhabited

/-- The record `drive.File`, reduced to the fields the program reads. -/
structure DriveFile where
  Id : String
  Title : String
  MimeType : String
  FileSize : Int
  CreatedDate : String
  ModifiedDate : String
  LastViewedByMeDate : String
  Md5Checksum : String
  DownloadUrl : String
  AlternateLink : String
  Labels : FileLabels
  deriving DecidableEq, Repr, Inhabited

def mimeFolder : String := "application/vnd.google-apps.folder"

def mimeGoogleApps : String := "application/vnd.google-apps."

/-- `RemoteIsDir`: the MIME type is the reserved folder type. -/
def RemoteIsDir (f : DriveFile) : Bool :=
  f.MimeType == mimeFolder

/-- `RemoteIsDesktopFile`: `strings.HasPrefix(f.MimeType, mimeGoogleApps)`. -/
def RemoteIsDesktopFile (f : DriveFile) : Bool :=
  mimeGoogleApps.data.isPrefixOf f.MimeType.data

/-! ## fetcher.go -/

def MinDownloadSize : Int := 65536

/-- An open `*os.File`; the nil pointer is `none` in `Option OsFile`. -/
structure OsFile where
  name : String
  deriving DecidableEq, Repr, Inhabited

/-- The record `fileFetcher`; `opened` is a Go `int`. -/
structure fileFetcher where
  localPath : String
  rf : DriveFile
  lf : Option OsFile
  opened : Int
  inProgress : Int
  deriving DecidableEq, Repr, Inhabited

/-- `path.Join(dir, id)` where `dir` is a cleaned path other than `/` and the empty
path, and `id` is a single path element other than `.` and `..`: there `path.Join`, which
joins with a slash and cleans the result, has nothing to clean.  `dir` is `c.DataDir`,
the absolute path that `filepath.Abs` returns, and `id` is a Drive file id or the name of
a directory entry. -/
def pathJoin (dir id : String) : String :=
  dir ++ "/" ++ id

/-- `MakeFileFetcher`. -/
def MakeFileFetcher (dir : String) (rf : DriveFile) : fileFetcher :=
  { localPath := pathJoin dir rf.Id, rf := rf, lf := none, opened := 0, inProgress := 0 }

/-- What the outside world answers during one call of `fileFetcher.Open`: each
field is the result of one call the function may issue. -/
structure OpenIO where
  /-- `os.IsNotExist(err)` for the error of `os.Stat(f.localPath)` -/
  statNotExist : Bool
  /-- the error returned by `f.makeDesktopFile()` -/
  makeDesktop : Option Err
  /-- the value received from the `ready` channel of `f.download` -/
  ready : Option Err
  /-- the result of `os.Open(f.localPath)` -/
  osOpen : Except Err OsFile

/-- The calls a fetcher operation issued, in order. -/
inductive FetchEvent where
  | makeDesktopFile
  | download
  | osOpen
  | lfClose
  deriving DecidableEq, Repr

/-- `fileFetcher.Open`: the new fetcher, the returned error and the calls issued. -/
def fileFetcher.Open (f : fileFetcher) (io : OpenIO) :
    fileFetcher × Option Err × List FetchEvent :=
  let fetched : Option Err × List FetchEvent :=
    if io.statNotExist then
      if RemoteIsDesktopFile f.rf then (io.makeDesktop, [FetchEvent.makeDesktopFile])
      else (io.ready, [FetchEvent.download])
    else (none, [])
  match fetched with
  | (some err, evs) => (f, some err, evs)
  | (none, evs) =>
    match f.lf with
    | none =>
      match io.osOpen with
      | .error err => ({ f with lf := none }, some err, evs ++ [FetchEvent.osOpen])
      | .ok h =>
        ({ f with lf := some h, opened := wrapInt64 (f.opened + 1) }, none,
          evs ++ [FetchEvent.osOpen])
    | some _ => ({ f with opened := wrapInt64 (f.opened + 1) }, none, evs)

/-- `fileFetcher.Close`: the new fetcher and the calls issued. -/
def fileFetcher.Close (f : fileFetcher) : fileFetcher × List FetchEvent :=
  let f1 : fileFetcher := { f with opened := wrapInt64 (f.opened - 1) }
  if f1.opened = 0 then ({ f1 with lf := none }, [FetchEvent.lfClose]) else (f1, [])

/-- `fileFetcher.IsOpen`. -/
def fileFetcher.IsOpen (f : fileFetcher) : Bool :=
  f.lf.isSome

/-- One call on a fetcher: `Open` with the answers of the outside world, or `Close`. -/
inductive FetchOp where
  | open (io : OpenIO)
  | close

/-- A fetcher together with the number of `Open` calls that returned nil and the
number of `Close` calls made on it so far. -/
structure FetchRun where
  f : fileFetcher
  opens : Nat
  closes : Nat

/-- Perform one call and count it. -/
def FetchRun.step (s : FetchRun) : FetchOp → FetchRun
  | .open io =>
    match s.f.Open io with
    | (f1, none, _) => { f := f1, opens := s.opens + 1, closes := s.closes }
    | (f1, some _, _) => { s with f := f1 }
  | .close => { s with f := s.f.Close.1, closes := s.closes + 1 }

/-- Perform a sequence of calls on a fetcher, from left to right. -/
def fileFetcher.run (f : fileFetcher) (ops : List FetchOp) : FetchRun :=
  ops.foldl FetchRun.step { f := f, opens := 0, closes := 0 }

/-- The calls issued by one operation on a fetcher. -/
def FetchOp.events (f : fileFetcher) : FetchOp → List FetchEvent
  | .open io => (f.Open io).2.2
  | .close => f.Close.2

/-- Whether an operation is an `Open` that returns nil on the given fetcher. -/
def FetchOp.succeeds (f : fileFetcher) : FetchOp → Bool
  | .open io => (f.Open io).2.1.isNone
  | .close => false

/-- Every `Close` is preceded by an `Open` it matches: no prefix of the sequence has
more closes than successful opens. -/
def fileFetcher.Balanced (f : fileFetcher) (ops : List FetchOp) : Prop :=
  ∀ pre, pre <+: ops → (f.run pre).closes ≤ (f.run pre).opens

/-- The invariant of a run: the counter is the number of unmatched opens and the
handle is present exactly when that number is positive. -/
def FetchRun.Inv (s : FetchRun) (n : Nat) : Prop :=
  s.f.opened = (s.opens : Int) - (s.closes : Int) ∧ s.closes ≤ s.opens ∧ s.opens ≤ n ∧
    (s.f.lf.isSome = true ↔ s.closes < s.opens)

/-- `fileFetcher.locFileSize`, given the result of `os.Stat(f.localPath)`: the size of
the cache file, or 0 when the call failed. -/
def fileFetcher.locFileSize (stat : Except Err Int) : Int :=
  match stat with
  | .error _ => 0
  | .ok sz => sz

/-- The polling of `fileFetcher.Read`.  `stats` are the results of the successive calls
of `os.Stat` made through `locFileSize`, the first one before the loop and one more after
every sleep; `limit` is `off+size` and `fileSize` is `f.rf.FileSize`.  The result is the
size observed when the loop condition fails together with the number of observations
made until then, or `none` when the condition holds for every observation given: the
function is then still waiting. -/
def pollSize (limit fileSize : Int) : List (Except Err Int) → Option (Int × Nat)
  | [] => none
  | s :: rest =>
    if fileFetcher.locFileSize s < limit ∧ fileFetcher.locFileSize s < fileSize then
      match pollSize limit fileSize rest with
      | none => none
      | some (cur, polls) => some (cur, polls + 1)
    else some (fileFetcher.locFileSize s, 1)

/-- What the outside world answers during one call of `fileFetcher.Read`. -/
structure ReadIO where
  /-- the results of the successive calls of `os.Stat(f.localPath)` -/
  stats : List (Except Err Int)
  /-- the error of `f.lf.Seek(off, os.SEEK_SET)` -/
  seek : Option Err
  /-- the result of `f.lf.Read(b)` -/
  read : Int × Option Err

/-- The calls on the local handle issued by `fileFetcher.Read`. -/
inductive ReadCall where
  | seek (off : Int)
  | read (size : Int)
  deriving DecidableEq, Repr

/-- A finished call of `fileFetcher.Read`: the number of size observations it made, the
size it observed last, the calls it issued on the handle and the values it returned. -/
structure ReadDone where
  polls : Nat
  cur : Int
  calls : List ReadCall
  n : Int
  err : Option Err
  deriving DecidableEq, Repr

/-- `fileFetcher.Read` for the offset `off` and a buffer of `size` bytes; `none` when the
function is still in its polling loop after all the given observations. -/
def fileFetcher.Read (f : fileFetcher) (off size : Int) (io : ReadIO) : Option ReadDone :=
  match f.lf with
  | none =>
    some { polls := 0, cur := 0, calls := [], n := 0,
           err := some ("File " ++ f.localPath ++ " not opened") }
  | some _ =>
    match pollSize (wrapInt64 (off + size)) f.rf.FileSize io.stats with
    | none => none
    | some (cur, polls) =>
      match io.seek with
      | some e => some { polls := polls, cur := cur, calls := [ReadCall.seek off], n := 0,
                         err := some e }
      | none => some { polls := polls, cur := cur,
                       calls := [ReadCall.seek off, ReadCall.read size],
                       n := io.read.1, err := io.read.2 }

/-! ## grivefs.go: the node tree -/

def BSize : Nat := 512

/-- A `time.Time`, as nanoseconds since the Unix epoch. -/
abbrev Time := Int

/-- The zero `time.Time` (January 1 of year 1, 00:00:00 UTC), which `time.Parse`
returns together with its error. -/
def zeroTime : Time := -62135596800 * 1000000000

/-- The record `fuse.Attr`, reduced to the fields the program sets. -/
structure FuseAttr where
  Inode : Nat
  Size : Nat
  Blocks : Nat
  Atime : Time
  Mtime : Time
  Ctime : Time
  Crtime : Time
  Mode : Nat
  Uid : Nat
  Gid : Nat
  deriving DecidableEq, Repr, Inhabited

/-- The record `grvNode` without its lock and without the pointer `fs` to the session,
which is passed to every operation instead.  `parent` is the pointer to the parent
directory: the model keeps the parent's own `grvNode` record, whose fields no operation
changes after creation. -/
inductive grvNode where
  | mk (attr : FuseAttr) (name : String) (rf : DriveFile) (parent : Option grvNode)
  deriving Repr, Inhabited

def grvNode.attr : grvNode → FuseAttr
  | .mk a _ _ _ => a

def grvNode.name : grvNode → String
  | .mk _ n _ _ => n

def grvNode.rf : grvNode → DriveFile
  | .mk _ _ r _ => r

def grvNode.parent : grvNode → Option grvNode
  | .mk _ _ _ p => p

/-- A Go `map[string]V`: a list of bindings with distinct keys; `len` is its length. -/
abbrev GoMap (V : Type) := List (String × V)

/-- The value of `m[k]`, if the key is present. -/
def GoMap.get {V : Type} (m : GoMap V) (k : String) : Option V :=
  List.lookup k m

/-- The assignment `m[k] = v`: replaces the binding of `k` or adds one. -/
def GoMap.set {V : Type} : GoMap V → String → V → GoMap V
  | [], k, v => [(k, v)]
  | (k1, v1) :: m, k, v => if k1 = k then (k, v) :: m else (k1, v1) :: GoMap.set m k v

/-- An `fs.Node` of the tree: a `*grvDir` with its child mapping or a `*grvFile` with
its fetcher. -/
inductive Node where
  | dir (node : grvNode) (nodes : List (String × Node))
  | file (node : grvNode) (fetcher : fileFetcher)
  deriving Repr, Inhabited

/-- The record `grvDir`. -/
structure grvDir where
  node : grvNode
  nodes : GoMap Node
  deriving Repr, Inhabited

/-- The record `grvFile`. -/
structure grvFile where
  node : grvNode
  fetcher : fileFetcher
  deriving Repr, Inhabited

def grvDir.asNode (d : grvDir) : Node := .dir d.node d.nodes

def grvFile.asNode (f : grvFile) : Node := .file f.node f.fetcher

def Node.grvNode : Node → grvNode
  | .dir n _ => n
  | .file n _ => n

def Node.isDir : Node → Bool
  | .dir _ _ => true
  | .file _ _ => false

/-- The record `Config`. -/
structure Config where
  ClientId : String
  ClientSecret : String
  RefreshToken : String
  CacheTTL : Int
  CacheCleanT : Int
  Path : String
  DataDir : String
  deriving DecidableEq, Repr, Inhabited

/-- The Drive service behind `Remote`: `listing id` is what `ListDir` returns for the
folder `id` (the items of all its pages, or the error of the first failing request),
and `listDirCalls` records, in order, the folders for which `ListDir` was called. -/
structure Remote where
  listing : String → Except Err (List DriveFile)
  listDirCalls : List String

/-- `Remote.ListDir`: one call is recorded and the listing of the folder is returned. -/
def Remote.ListDir (r : Remote) (dir : DriveFile) : Remote × Except Err (List DriveFile) :=
  ({ r with listDirCalls := r.listDirCalls ++ [dir.Id] }, r.listing dir.Id)

/-- The record `griveFS`, the session; `root` is the pointer to the root directory. -/
structure griveFS where
  c : Config
  Uid : Nat
  Gid : Nat
  remote : Remote
  nodeCount : Nat
  nodeId : Nat
  size : Nat
  files : Nat
  dirs : Nat
  root : Option grvDir

/-- `griveFS.nextId`: `atomic.AddUint64(&g.nodeId, 1)`. -/
def griveFS.nextId (g : griveFS) : griveFS × Nat :=
  let n := wrapUint64 ((g.nodeId : Int) + 1)
  ({ g with nodeId := n }, n)

/-- `fileTimes`; `parse s` is the result of `time.Parse(time.RFC3339, s)`, `none` when
it returns an error (and with it the zero time). -/
def fileTimes (parse : String → Option Time) (f : DriveFile) : Time × Time × Time :=
  let mtime := (parse f.ModifiedDate).getD zeroTime
  let ctime := (parse f.CreatedDate).getD zeroTime
  let atime :=
    if f.LastViewedByMeDate ≠ "" then
      match parse f.LastViewedByMeDate with
      | some t => t
      | none => mtime
    else mtime
  (ctime, mtime, atime)

/-- `fileMode`: `0440`, or `0550 | os.ModeDir` for a folder. -/
def fileMode (f : DriveFile) : Nat :=
  if RemoteIsDir f then 360 ||| 2147483648 else 288

/-- `DesktopFileContent`. -/
def DesktopFileContent (f : DriveFile) : String :=
  "[Desktop Entry]\nIcon=" ++ f.MimeType.replace "/" "-" ++ "\nName=" ++ f.Title ++
    "\nType=Link\nURL=" ++ f.AlternateLink ++ "\n"

/-- `griveFS.newFile`; `p` is the parent directory. -/
def griveFS.newFile (g : griveFS) (parse : String → Option Time) (f : DriveFile)
    (p : grvNode) : griveFS × grvFile :=
  let (ctime, mtime, atime) := fileTimes parse f
  let g1 : griveFS := { g with files := wrapUint32 ((g.files : Int) + 1) }
  let (g2, id) := g1.nextId
  let attr : FuseAttr :=
    { Inode := id, Size := wrapUint64 f.FileSize, Blocks := wrapUint64 f.FileSize / BSize,
      Atime := atime, Mtime := mtime, Ctime := ctime, Crtime := ctime,
      Mode := fileMode f, Uid := g.Uid, Gid := g.Gid }
  let attr1 : FuseAttr :=
    if RemoteIsDesktopFile f then
      { attr with Size := (DesktopFileContent f).utf8ByteSize,
                  Blocks := (DesktopFileContent f).utf8ByteSize / BSize }
    else attr
  (g2, { node := .mk attr1 f.Title f (some p), fetcher := MakeFileFetcher g.c.DataDir f })

/-- One round of the loop of `grvDir.loadDirContent` over the listed descriptors;
`mkDir` stands for `griveFS.newDir`, which may not return (`none`). -/
def loadEntry (mkDir : griveFS → DriveFile → Option grvNode → Option (griveFS × grvDir))
    (parse : String → Option Time) (st : griveFS × grvDir) (f : DriveFile) :
    Option (griveFS × grvDir) :=
  if !(f.Labels.Trashed || f.Labels.Hidden) then
    if RemoteIsDir f then
      match mkDir st.1 f (some st.2.node) with
      | none => none
      | some (g1, sub) => some (g1, { st.2 with nodes := GoMap.set st.2.nodes f.Title sub.asNode })
    else
      let r := st.1.newFile parse f st.2.node
      some (r.1, { st.2 with nodes := GoMap.set st.2.nodes f.Title r.2.asNode })
  else some st

/-- The body of `grvDir.loadDirContent`, with `mkDir` standing for `griveFS.newDir`:
the session and directory afterwards and the returned error. -/
def loadDirContentWith
    (mkDir : griveFS → DriveFile → Option grvNode → Option (griveFS × grvDir))
    (parse : String → Option Time) (g : griveFS) (d : grvDir) :
    Option (griveFS × grvDir × Option Err) :=
  if d.nodes.length = 0 then
    let r := g.remote.ListDir d.node.rf
    let g1 : griveFS := { g with remote := r.1 }
    match r.2 with
    | .error e => some (g1, d, some e)
    | .ok fs =>
      match fs.foldlM (loadEntry mkDir parse) (g1, d) with
      | none => none
      | some (g2, d2) => some (g2, d2, none)
  else some (g, d, none)

/-- The first part of `griveFS.newDir`, up to the call of `loadDirContent`: the session
with the identifier and the directory counter advanced, and the new record without
children. -/
def griveFS.newDirRecord (g : griveFS) (parse : String → Option Time) (f : DriveFile)
    (p : Option grvNode) : griveFS × grvDir :=
  let (ctime, mtime, atime) := fileTimes parse f
  let (g1, id) := g.nextId
  let dir : grvDir :=
    { node := .mk
        { Inode := id, Size := BSize, Blocks := 1, Atime := atime, Mtime := mtime,
          Ctime := ctime, Crtime := ctime, Mode := fileMode f, Uid := g.Uid, Gid := g.Gid }
        f.Title f p,
      nodes := [] }
  ({ g1 with dirs := wrapUint32 ((g1.dirs : Int) + 1) }, dir)

/-- `griveFS.newDir`.  The function calls `loadDirContent`, which calls `newDir` for
every listed folder; `fuel` bounds the depth of these calls and the result is `none`
when it does not suffice.  The error of `loadDirContent` is logged and dropped. -/
def griveFS.newDir (parse : String → Option Time) :
    Nat → griveFS → DriveFile → Option grvNode → Option (griveFS × grvDir)
  | 0, _, _, _ => none
  | fuel + 1, g, f, p =>
    match loadDirContentWith (griveFS.newDir parse fuel) parse (g.newDirRecord parse f p).1
        (g.newDirRecord parse f p).2 with
    | none => none
    | some (g3, d3, _) => some (g3, d3)

/-- `grvDir.loadDirContent`, with `fuel` bounding the depth of the calls of `newDir`. -/
def grvDir.loadDirContent (parse : String → Option Time) (fuel : Nat) (g : griveFS)
    (d : grvDir) : Option (griveFS × grvDir × Option Err) :=
  loadDirContentWith (griveFS.newDir parse fuel) parse g d

/-- The error numbers the node tree returns to the kernel layer. -/
inductive Errno where
  | EPERM
  | ENOENT
  deriving DecidableEq, Repr

/-- `grvDir.Lookup`: the session and directory afterwards, and the returned node and
error. -/
def grvDir.Lookup (g : griveFS) (d : grvDir) (name : String) :
    (griveFS × grvDir) × (Option Node × Option Errno) :=
  match GoMap.get d.nodes name with
  | none => ((g, d), (none, some Errno.ENOENT))
  | some n => ((g, d), (some n, none))

inductive DirentType where
  | DT_Unknown
  | DT_File
  | DT_Dir
  deriving DecidableEq, Repr

/-- The record `fuse.Dirent`. -/
structure Dirent where
  Inode : Nat
  /-- the field `Type` -/
  Typ : DirentType
  Name : String
  deriving DecidableEq, Repr

/-- The zero value of `fuse.Dirent`, with which `make` fills a slice. -/
def Dirent.zero : Dirent := { Inode := 0, Typ := DirentType.DT_Unknown, Name := "" }

/-- The assignment `s[i] = v` to a slice; `none` is the run-time panic for an index out
of range. -/
def sliceSet {α : Type} (s : List α) (i : Nat) (v : α) : Option (List α) :=
  if i < s.length then some (s.set i v) else none

/-- One round of the loop of `ReadDirAll` over the child mapping: the entry of the child
is stored at `idx` and `idx` is advanced. -/
def readDirEntry (st : List Dirent × Nat) (kv : String × Node) : Option (List Dirent × Nat) :=
  let ent : Dirent :=
    match kv.2 with
    | .file n _ => { Inode := n.attr.Inode, Typ := DirentType.DT_File, Name := kv.1 }
    | .dir n _ => { Inode := n.attr.Inode, Typ := DirentType.DT_Dir, Name := kv.1 }
  match sliceSet st.1 st.2 ent with
  | none => none
  | some dirs => some (dirs, st.2 + 1)

/-- `grvDir.ReadDirAll`: the session and directory afterwards and the returned slice and
error; `none` is a run-time panic. -/
def grvDir.ReadDirAll (g : griveFS) (d : grvDir) :
    Option ((griveFS × grvDir) × (List Dirent × Option Errno)) :=
  let dirs0 : List Dirent := List.replicate (d.nodes.length + 2) Dirent.zero
  match sliceSet dirs0 0
      { Inode := d.node.attr.Inode, Typ := DirentType.DT_Dir, Name := "." } with
  | none => none
  | some dirs1 =>
    match sliceSet dirs1 1 { Inode := 0, Typ := DirentType.DT_Dir, Name := ".." } with
    | none => none
    | some dirs2 =>
      let up : Nat :=
        match d.node.parent with
        | some p => p.attr.Inode
        | none => d.node.attr.Inode
      match dirs2[1]? with
      | none => none
      | some e1 =>
        match sliceSet dirs2 1 { e1 with Inode := up } with
        | none => none
        | some dirs3 =>
          match d.nodes.foldlM readDirEntry (dirs3, 2) with
          | none => none
          | some (dirs, _) => some ((g, d), (dirs, none))

/-! ### The mutating operations

The request and response records of the kernel layer are reduced to a few fields; the
operations read none of them.  Each operation returns the session, the receiver and the
response record as they are after the call, and then the values the Go method returns
(`fs.Node`, `fs.Handle` and `error`, nil being `none`). -/

structure CreateRequest where
  Name : String
  Flags : Nat
  Mode : Nat

structure CreateResponse where
  Handle : Nat
  Flags : Nat

structure RenameRequest where
  OldName : String
  NewName : String

structure MkdirRequest where
  Name : String
  Mode : Nat

structure RemoveRequest where
  Name : String
  Dir : Bool

structure WriteRequest where
  Offset : Int
  Data : List Nat

structure WriteResponse where
  Size : Int

structure SetattrRequest where
  Size : Nat
  Mode : Nat
  Atime : Time
  Mtime : Time

structure SetattrResponse where
  Attr : FuseAttr

/-- `grvDir.Create`. -/
def grvDir.Create (g : griveFS) (d : grvDir) (_req : CreateRequest) (resp : CreateResponse) :
    (griveFS × grvDir × CreateResponse) × (Option Node × Option Node × Option Errno) :=
  ((g, d, resp), (none, none, some Errno.EPERM))

/-- `grvDir.Rename`. -/
def grvDir.Rename (g : griveFS) (d : grvDir) (_req : RenameRequest) (_newDir : Node) :
    (griveFS × grvDir) × Option Errno :=
  ((g, d), some Errno.EPERM)

/-- `grvDir.Mkdir`. -/
def grvDir.Mkdir (g : griveFS) (d : grvDir) (_req : MkdirRequest) :
    (griveFS × grvDir) × (Option Node × Option Errno) :=
  ((g, d), (none, some Errno.EPERM))

/-- `grvDir.Remove`. -/
def grvDir.Remove (g : griveFS) (d : grvDir) (_req : RemoveRequest) :
    (griveFS × grvDir) × Option Errno :=
  ((g, d), some Errno.EPERM)

/-- `grvFile.Write`. -/
def grvFile.Write (g : griveFS) (f : grvFile) (_req : WriteRequest) (resp : WriteResponse) :
    (griveFS × grvFile × WriteResponse) × Option Errno :=
  ((g, f, resp), some Errno.EPERM)

/-- `grvFile.Setattr`. -/
def grvFile.Setattr (g : griveFS) (f : grvFile) (_req : SetattrRequest)
    (resp : SetattrResponse) : (griveFS × grvFile × SetattrResponse) × Option Errno :=
  ((g, f, resp), some Errno.EPERM)

/-! ## grivefs.go: the cache sweep

`cleanCache` compares `int(time.Since(atm).Hours())` with the TTL.  `Hours` computes in
`float64`; a `float64` is modelled by the rational number it denotes and every
operation rounds its exact result to the nearest number with a 53 bit significand, ties
to even.  The exponent range is not modelled: the numbers that occur lie between
`2 ^ (-42)` and `2 ^ 22` in absolute value. -/

/-- Rounding of a rational number to the nearest integer, ties to the even one. -/
def roundHalfEven (x : ℚ) : Int :=
  if Int.fract x < 1 / 2 then ⌊x⌋
  else if 1 / 2 < Int.fract x then ⌊x⌋ + 1
  else if ⌊x⌋ % 2 = 0 then ⌊x⌋ else ⌊x⌋ + 1

/-- Rounding of a positive rational to the nearest `float64`: with `e` the position of
the leading binary digit, the nearest multiple of `2 ^ (e - 52)`. -/
def roundF64Pos (q : ℚ) : ℚ :=
  (roundHalfEven (q / 2 ^ (Int.log 2 q - 52)) : ℚ) * 2 ^ (Int.log 2 q - 52)

/-- Rounding of a rational to the nearest `float64`. -/
def roundF64 (q : ℚ) : ℚ :=
  if 0 < q then roundF64Pos q else if q < 0 then -roundF64Pos (-q) else 0

/-- The rationals with a 53 bit significand: the values of `float64`. -/
def IsF64 (y : ℚ) : Prop :=
  ∃ M k : ℤ, |M| < 2 ^ 53 ∧ y = (M : ℚ) * 2 ^ k

/-! A `time.Duration` is a number of nanoseconds in an `int64`, a `time.Time` a number of
nanoseconds since the Unix epoch; both are integers here. -/

def Minute : Int := 60000000000

def Hour : Int := 3600000000000

def minDuration : Int := -9223372036854775808

def maxDuration : Int := 9223372036854775807

/-- `t.Sub(u)`: the difference, or the least or greatest duration when it does not fit. -/
def timeSub (t u : Int) : Int :=
  if t - u < minDuration then minDuration
  else if maxDuration < t - u then maxDuration
  else t - u

/-- `time.Since(t)` when `time.Now()` returns `now`. -/
def timeSince (now t : Int) : Int :=
  timeSub now t

/-- `Duration.Hours` of the Go library: `float64(hour) + float64(nsec)/(60*60*1e9)` for
`hour := d / Hour` and `nsec := d % Hour`, the integer operations truncating toward zero.
(Early releases multiply `float64(nsec)` by the constant `1e-9/60/60` instead; the two
agree on whole hours, where `nsec` is 0.) -/
def Duration.Hours (d : Int) : ℚ :=
  roundF64 (roundF64 (Int.tdiv d Hour) + roundF64 (roundF64 (Int.tmod d Hour) /
    roundF64 3600000000000))

/-- The conversion `int(x)` of a `float64`: the fraction is discarded. -/
def floatToInt (x : ℚ) : Int :=
  if 0 ≤ x then ⌊x⌋ else ⌈x⌉

/-- An `os.FileInfo` of a directory entry: `Name()`, `IsDir()` and the field `Atim` (seconds
and nanoseconds) of the `syscall.Stat_t` behind `Sys()`. -/
structure FileInfo where
  Name : String
  IsDir : Bool
  AtimSec : Int
  AtimNsec : Int
  deriving DecidableEq, Repr

/-- `atime`: `time.Unix(stat.Atim.Unix())`. -/
def atime (fi : FileInfo) : Time :=
  fi.AtimSec * 1000000000 + fi.AtimNsec

/-- What one sweep did: the paths passed to `os.Remove`, in order, and whether the sweep
ended in a run-time panic (`fi.Name()[0]` on an empty name). -/
structure SweepResult where
  removes : List String
  panicked : Bool
  deriving DecidableEq, Repr

/-- The loop of `griveFS.cleanCache` over the entries of the cache directory; `i` is the
position of the next entry and `now i` is what `time.Now()` returns in round `i`.  The
first byte of a name is `'.'` exactly when its first character is. -/
def cleanCacheLoop (c : Config) (now : Nat → Time) : Nat → List FileInfo → SweepResult
  | _, [] => { removes := [], panicked := false }
  | i, fi :: rest =>
    match fi.Name.data.head? with
    | none => { removes := [], panicked := true }
    | some ch =>
      if ch = '.' then cleanCacheLoop c now (i + 1) rest
      else if !fi.IsDir &&
          decide (c.CacheTTL < floatToInt (Duration.Hours (timeSince (now i) (atime fi)))) then
        { removes := pathJoin c.DataDir fi.Name :: (cleanCacheLoop c now (i + 1) rest).removes,
          panicked := (cleanCacheLoop c now (i + 1) rest).panicked }
      else cleanCacheLoop c now (i + 1) rest

/-- `griveFS.cleanCache`; `readDir` is the result of `ioutil.ReadDir(g.c.DataDir)`. -/
def griveFS.cleanCache (g : griveFS) (readDir : Except Err (List FileInfo))
    (now : Nat → Time) : SweepResult :=
  match readDir with
  | .error _ => { removes := [], panicked := false }
  | .ok fs => cleanCacheLoop g.c now 0 fs

/-- The entries of the cache directory after a sweep: an entry is gone when `os.Remove`
was called on its path and returned no error; `removeErr p` is the error of
`os.Remove(p)`. -/
def dirAfterSweep (c : Config) (fs : List FileInfo) (r : SweepResult)
    (removeErr : String → Option Err) : List FileInfo :=
  fs.filter (fun fi =>
    !(decide (pathJoin c.DataDir fi.Name ∈ r.removes) &&
      (removeErr (pathJoin c.DataDir fi.Name)).isNone))

/-- Whether the loop of `cleanCache` passes an entry to `os.Remove` when `time.Now()`
returns `now`: its name does not start with a dot, it is not a directory and the whole
hours since its last access exceed the TTL. -/
def removesEntry (c : Config) (now : Time) (fi : FileInfo) : Bool :=
  fi.Name.data.head? != some '.' && !fi.IsDir &&
    decide (c.CacheTTL < floatToInt (Duration.Hours (timeSince now (atime fi))))

/-! ### Specification vocabulary for the population of a directory -/

/-- The test of `loadDirContent` on a listed descriptor: neither trashed nor hidden. -/
def DriveFile.visible (f : DriveFile) : Bool :=
  !(f.Labels.Trashed || f.Labels.Hidden)

/-- The node `n` is the one built from the descriptor `f` as a child of the directory
whose record is `p`: it carries `f`, its title and the parent, it is a directory exactly
when `f` has the folder type, and as a file it has the fetcher of `f` and the size of the
shortcut payload or of the remote content. -/
def Node.BuiltFrom (c : Config) (p : GriveFS.grvNode) (f : DriveFile) (n : Node) : Prop :=
  n.grvNode.rf = f ∧ n.grvNode.name = f.Title ∧ n.grvNode.parent = some p ∧
  n.isDir = RemoteIsDir f ∧
  (∀ node fetcher, n = Node.file node fetcher →
    fetcher = MakeFileFetcher c.DataDir f ∧
    node.attr.Size =
      (if RemoteIsDesktopFile f then (DesktopFileContent f).utf8ByteSize
       else wrapUint64 f.FileSize))

/-- What `newDir` guarantees when it returns: the configuration and the remote listings
are untouched, `ListDir` was called for the new folder first, and the directory carries
the descriptor, its title and the parent. -/
def MkDirSpec (mkDir : griveFS → DriveFile → Option grvNode → Option (griveFS × grvDir)) :
    Prop :=
  ∀ g f p g1 sub, mkDir g f p = some (g1, sub) →
    g1.c = g.c ∧ g1.remote.listing = g.remote.listing ∧
    (∃ more, g1.remote.listDirCalls = g.remote.listDirCalls ++ f.Id :: more) ∧
    sub.node.rf = f ∧ sub.node.name = f.Title ∧ sub.node.parent = p

/-- The folders below `f` are nested less than `n` levels deep in the remote whose
listings are `listing`: then `n` levels of calls of `newDir` suffice for `f`. -/
def finiteDepth (listing : String → Except Err (List DriveFile)) : Nat → DriveFile → Prop
  | 0, _ => False
  | n + 1, f =>
    ∀ fs, listing f.Id = .ok fs →
      ∀ c ∈ fs, c.visible = true → RemoteIsDir c = true → finiteDepth listing n c

/-- A sample descriptor of an ordinary remote file. -/
def sampleFile : DriveFile :=
  { Id := "id1", Title := "a.txt", MimeType := "text/plain", FileSize := 100000,
    CreatedDate := "2015-01-01T00:00:00Z", ModifiedDate := "2015-01-02T00:00:00Z",
    LastViewedByMeDate := "", Md5Checksum := "d41d8cd98f00b204e9800998ecf8427e",
    DownloadUrl := "https://example.org/id1", AlternateLink := "https://example.org/v/id1",
    Labels := { Trashed := false, Hidden := false } }

/-- The answers of a world in which the cache file is missing, the download becomes
ready and the cache file can be opened. -/
def sampleOpenIO : OpenIO :=
  { statNotExist := true, makeDesktop := none, ready := none,
    osOpen := .ok { name := "cache/id1" } }

/-- Two opens followed by two closes, with a third open and close in between. -/
def sampleOps : List FetchOp :=
  [.open sampleOpenIO, .open sampleOpenIO, .close, .open sampleOpenIO, .close, .close]

/-- The fetcher of the sample file after one successful `Open`. -/
def sampleOpened : fileFetcher :=
  { MakeFileFetcher "cache" sampleFile with lf := some { name := "cache/id1" }, opened := 1 }

/-- A sample configuration: a TTL of 24 hours and the cache directory `cache`. -/
def sampleConfig : Config :=
  { ClientId := "id", ClientSecret := "secret", RefreshToken := "token", CacheTTL := 24,
    CacheCleanT := 3600, Path := "cache/.config.json", DataDir := "cache" }

/-- A sample descriptor of the root folder. -/
def sampleRoot : DriveFile :=
  { Id := "root", Title := "My Drive", MimeType := "application/vnd.google-apps.folder",
    FileSize := 0, CreatedDate := "2015-01-01T00:00:00Z",
    ModifiedDate := "2015-01-02T00:00:00Z", LastViewedByMeDate := "", Md5Checksum := "",
    DownloadUrl := "", AlternateLink := "", Labels := { Trashed := false, Hidden := false } }

/-- A remote whose root folder holds the sample file and nothing else. -/
def sampleRemote : Remote :=
  { listing := fun id => if id = "root" then .ok [sampleFile] else .ok [],
    listDirCalls := [] }

/-- A remote all of whose folders are empty. -/
def emptyRemote : Remote :=
  { listing := fun _ => .ok [], listDirCalls := [] }

/-- A fresh session on a remote: all counters at 0 and no root yet. -/
def freshSession (r : Remote) : griveFS :=
  { c := sampleConfig, Uid := 1000, Gid := 1000, remote := r, nodeCount := 0, nodeId := 0,
    size := 0, files := 0, dirs := 0, root := none }

/-- A cache file last accessed at the Unix epoch. -/
def sampleEntry : FileInfo :=
  { Name := "id1", IsDir := false, AtimSec := 0, AtimNsec := 0 }

/-- A clock that shows 24 hours and 30 minutes past the Unix epoch. -/
def clockHalfPast24 : Nat → Time :=
  fun _ => 24 * Hour + 30 * Minute

/-- A clock that shows 25 hours past the Unix epoch. -/
def clock25 : Nat → Time :=
  fun _ => 25 * Hour

/-- A `time.Parse` that rejects every string. -/
def sampleParse : String → Option Time :=
  fun _ => none

/-- The record of the sample root directory as `newDir` builds it on a fresh session,
before any listing: no children. -/
def sampleRootRecord : grvDir :=
  ((freshSession sampleRemote).newDirRecord sampleParse sampleRoot none).2

/-- The sample root directory after `newDir` has built it on a fresh session. -/
def samplePopulatedDir : grvDir :=
  match griveFS.newDir sampleParse 1 (freshSession sampleRemote) sampleRoot none with
  | some (_, d) => d
  | none => sampleRootRecord

/-- A `time.Parse` that accepts the two timestamps of the sample descriptors and rejects
every other string. -/
def sampleParseTime : String → Option Time :=
  fun s =>
    if s = "2015-01-01T00:00:00Z" then some 1420070400000000000
    else if s = "2015-01-02T00:00:00Z" then some 1420156800000000000
    else none

/-- The sample descriptor with a last-viewed string that is not a timestamp. -/
def sampleFileBadViewed : DriveFile :=
  { sampleFile with LastViewedByMeDate := "yesterday" }

/-- A sample descriptor of a folder in the root folder. -/
def sampleFolder : DriveFile :=
  { Id := "d1", Title := "docs", MimeType := "application/vnd.google-apps.folder",
    FileSize := 0, CreatedDate := "2015-01-01T00:00:00Z",
    ModifiedDate := "2015-01-02T00:00:00Z", LastViewedByMeDate := "", Md5Checksum := "",
    DownloadUrl := "", AlternateLink := "https://example.org/v/d1",
    Labels := { Trashed := false, Hidden := false } }

/-- A sample descriptor of a native document with the title of the sample file. -/
def sampleDoc : DriveFile :=
  { Id := "id2", Title := "a.txt", MimeType := "application/vnd.google-apps.document",
    FileSize := 0, CreatedDate := "2015-01-01T00:00:00Z",
    ModifiedDate := "2015-01-02T00:00:00Z", LastViewedByMeDate := "", Md5Checksum := "",
    DownloadUrl := "", AlternateLink := "https://example.org/v/id2",
    Labels := { Trashed := false, Hidden := false } }

/-- A sample descriptor of a file in the trash. -/
def sampleTrashed : DriveFile :=
  { sampleFile with Id := "id3", Title := "old.txt",
                    Labels := { Trashed := true, Hidden := false } }

/-- A sample descriptor of a hidden folder. -/
def sampleHiddenFolder : DriveFile :=
  { sampleFolder with Id := "d2", Title := "secret",
                      Labels := { Trashed := false, Hidden := true } }

/-- The listing of the root folder of `mixedRemote`: an ordinary file, a file in the
trash, a folder, a hidden folder, and a native document with the title of the first
file. -/
def mixedListing : List DriveFile :=
  [sampleFile, sampleTrashed, sampleFolder, sampleHiddenFolder, sampleDoc]

/-- A remote whose root folder holds `mixedListing` and whose folder `docs` holds the
sample file. -/
def mixedRemote : Remote :=
  { listing := fun id =>
      if id = "root" then .ok mixedListing
      else if id = "d1" then .ok [sampleFile] else .ok [],
    listDirCalls := [] }

/-! ## remote.go: the download of a file, and fetcher.go: the background download -/

/-- The result of a Go call: the values it returns, or a run-time panic. -/
inductive Outcome (α : Type) where
  | ret (a : α)
  | panic (msg : String)
  deriving Repr

/-- An `*http.Response` as `Download` reads it: the status code and the body, a stream
given by its bytes. -/
structure HttpResponse where
  StatusCode : Int
  Body : List Nat
  deriving DecidableEq, Repr

/-- `Remote.Download`.  `get` is what `d.c.Get(f.DownloadUrl)` returns: the response
pointer (nil is `none`) and the error.  The result is the returned stream (nil is `none`)
and error; reading a field of the nil response is a panic. -/
def Remote.Download (_r : Remote) (f : DriveFile) (get : Option HttpResponse × Option Err) :
    Outcome (Option (List Nat) × Option Err) :=
  if f.DownloadUrl = "" then .ret (none, some "File is not downloadable")
  else
    match get.2 with
    | some err =>
      match get.1 with
      | none => .panic "invalid memory address or nil pointer dereference"
      | some resp => .ret (some resp.Body, some err)
    | none =>
      match get.1 with
      | none => .panic "invalid memory address or nil pointer dereference"
      | some resp =>
        if resp.StatusCode < 200 ∨ resp.StatusCode > 299 then .ret (some resp.Body, none)
        else .ret (some resp.Body, none)

/-- A run of the goroutine that `download` starts to report readiness: the number of
send statements `ready <- nil` it reached, the number of those that completed, whether
it stays blocked in a send for ever, and the number of progress reports it took from the
channel `ch`. -/
structure ReadyRun where
  sends : Nat
  delivered : Nat
  blocked : Bool
  consumed : Nat
  deriving DecidableEq, Repr

/-- The readiness goroutine of `download`.  The list holds the `Transferred` counts of the
progress reports that arrive on `ch` until it is closed; `recv` is the number of values
the other end is going to receive from the unbuffered channel `ready` (`Open` receives
one), a send beyond that number never completes; `sent` is the local flag. -/
def readyLoop : Nat → Bool → List Int → ReadyRun
  | recv, sent, [] =>
    if !sent then
      match recv with
      | 0 => { sends := 1, delivered := 0, blocked := true, consumed := 0 }
      | _ + 1 => { sends := 1, delivered := 1, blocked := false, consumed := 0 }
    else { sends := 0, delivered := 0, blocked := false, consumed := 0 }
  | recv, sent, p :: rest =>
    if p > MinDownloadSize then
      match recv with
      | 0 => { sends := 1, delivered := 0, blocked := true, consumed := 1 }
      | recv1 + 1 =>
        { sends := (readyLoop recv1 true rest).sends + 1,
          delivered := (readyLoop recv1 true rest).delivered + 1,
          blocked := (readyLoop recv1 true rest).blocked,
          consumed := (readyLoop recv1 true rest).consumed + 1 }
    else
      { sends := (readyLoop recv sent rest).sends,
        delivered := (readyLoop recv sent rest).delivered,
        blocked := (readyLoop recv sent rest).blocked,
        consumed := (readyLoop recv sent rest).consumed + 1 }

/-- What the outside world answers during one call of `fileFetcher.download`. -/
structure DownloadIO where
  /-- the result of `d.c.Get(f.rf.DownloadUrl)` inside `r.Download(f.rf)` -/
  get : Option HttpResponse × Option Err
  /-- the error of `os.OpenFile(f.localPath, ...)` -/
  openFile : Option Err
  /-- the `Transferred` counts of the progress reports on `ch`, until it is closed -/
  reports : List Int
  /-- the number of values the opener receives from `ready` -/
  recv : Nat
  /-- the error of `io.Copy(w, resp)` -/
  copy : Option Err
  /-- the bytes of `hasher.Sum(nil)`, the MD5 digest of the bytes copied -/
  sum : List Nat

/-- The bytes of a Go string given as a Lean string: its UTF-8 encoding. -/
def utf8Bytes (s : String) : List Nat :=
  s.data.flatMap (fun c => (String.utf8EncodeChar c).map UInt8.toNat)

/-- What one call of `fileFetcher.download` did: the messages logged at level warning
during the call (`Remote.Download` logs its error itself when the descriptor has no
download URL, and `download` logs it again), the values the function itself sent on
`ready`, the run of the readiness goroutine when it was
started, and whether the call ended in a panic. -/
structure DownloadRun where
  warnings : List String
  sent : List Err
  goroutine : Option ReadyRun
  panicked : Bool
  deriving DecidableEq, Repr

/-- `fileFetcher.download`.  `equalFold s t` is `strings.EqualFold` on two strings given
by their bytes; `chksum` is `string(hasher.Sum(nil))`, the digest bytes themselves. -/
def fileFetcher.download (f : fileFetcher) (r : Remote)
    (equalFold : List Nat → List Nat → Bool) (io : DownloadIO) : DownloadRun :=
  match r.Download f.rf io.get with
  | .panic _ => { warnings := [], sent := [], goroutine := none, panicked := true }
  | .ret (_, some err) =>
    { warnings := if f.rf.DownloadUrl = "" then [err, err] else [err], sent := [err],
      goroutine := none, panicked := false }
  | .ret (_, none) =>
    match io.openFile with
    | some err => { warnings := [err], sent := [err], goroutine := none, panicked := false }
    | none =>
      match io.copy with
      | some err =>
        { warnings := [err], sent := [],
          goroutine := some (readyLoop io.recv false io.reports), panicked := false }
      | none =>
        if equalFold io.sum (utf8Bytes f.rf.Md5Checksum) then
          { warnings := ["Checksums don't match"], sent := [],
            goroutine := some (readyLoop io.recv false io.reports), panicked := false }
        else
          { warnings := [], sent := [],
            goroutine := some (readyLoop io.recv false io.reports), panicked := false }

/-- The lower-case hexadecimal digits of a list of bytes: the form in which the remote
descriptor carries its MD5 digest. -/
def hexDigest (bytes : List Nat) : String :=
  String.mk (bytes.flatMap (fun b =>
    [Nat.digitChar (b / 16 % 16), Nat.digitChar (b % 16)]))

/-- The letter `A`..`Z` of a byte in lower case, any other byte as it is. -/
def asciiLower (b : Nat) : Nat :=
  if 65 ≤ b ∧ b ≤ 90 then b + 32 else b

/-- `strings.EqualFold` for the sample runs: equality of the bytes up to the case of
ASCII letters.  It agrees with the library function on ASCII strings, and on two strings
of which one has more bytes than the other has characters both are false. -/
def sampleEqualFold (s t : List Nat) : Bool :=
  s.map asciiLower == t.map asciiLower

/-- The MD5 digest of the five bytes `hello`. -/
def digestHello : List Nat :=
  [0x5d, 0x41, 0x40, 0x2a, 0xbc, 0x4b, 0x2a, 0x76, 0xb9, 0x71, 0x9d, 0x91, 0x10, 0x17,
    0xc5, 0x92]

/-- A download of the sample file in which the server answers 200, the cache file opens,
one progress report arrives, the copy succeeds and the bytes copied are `hello`. -/
def sampleDownloadIO : DownloadIO :=
  { get := (some { StatusCode := 200, Body := [104, 101, 108, 108, 111] }, none),
    openFile := none, reports := [5], recv := 1, copy := none, sum := digestHello }

/-- A digest whose sixteen bytes are the ASCII characters `0123456789abcdef`. -/
def digestAscii : List Nat :=
  [48, 49, 50, 51, 52, 53, 54, 55, 56, 57, 97, 98, 99, 100, 101, 102]

/-- A descriptor whose checksum string is the sixteen characters `0123456789ABCDEF`. -/
def sampleFileRawChecksum : DriveFile :=
  { sampleFile with Md5Checksum := "0123456789ABCDEF" }

/-- A download of a file larger than the readiness threshold: three progress reports
above `MinDownloadSize`, and an opener that receives once from `ready`. -/
def largeDownloadIO : DownloadIO :=
  { get := (some { StatusCode := 200, Body := [] }, none), openFile := none,
    reports := [70000, 140000, 200000], recv := 1, copy := none, sum := digestHello }

/-! ## grivefs.go: the session -/

/-- `MakeGriveFS` up to the start of the cache cleaner.  `makeRemote` is the result of
`MakeRemote(c)` and `getRootFile` that of `r.GetRootFile()`; `fuel` bounds the depth of the
calls of `newDir`, and the result is `none` when it does not suffice.  `newDir` returns a
non-nil pointer whenever it returns, so the test `g.root == nil` never holds. -/
def MakeGriveFS (parse : String → Option Time) (fuel : Nat) (c : Config) (uid gid : Nat)
    (makeRemote : Except Err Remote) (getRootFile : Except Err DriveFile) :
    Option (Except Err griveFS) :=
  match makeRemote with
  | .error err => some (.error err)
  | .ok r =>
    let g : griveFS :=
      { c := c, Uid := uid, Gid := gid, remote := r, nodeCount := 0, nodeId := 0, size := 0,
        files := 0, dirs := 0, root := none }
    match getRootFile with
    | .error err => some (.error err)
    | .ok f =>
      match griveFS.newDir parse fuel g f none with
      | none => none
      | some (g1, root) => some (.ok { g1 with root := some root })

/-- A remote whose listing call fails for every folder. -/
def failingRemote : Remote :=
  { listing := fun _ => .error "googleapi: Error 500", listDirCalls := [] }

/-! ### Specification vocabulary for the identifiers of the nodes -/

/-- `grvNode.Attr`: the attributes are copied out; the node is as it was. -/
def grvNode.Attr (n : grvNode) (_o : FuseAttr) : grvNode × FuseAttr :=
  (n, n.attr)

mutual
/-- The identifiers (`attr.Inode`) of a node and of all the nodes below it. -/
def Node.inodes : Node → List Nat
  | .dir n nodes => n.attr.Inode :: inodesOf nodes
  | .file n _ => [n.attr.Inode]
/-- The identifiers of all the nodes in and below a child mapping. -/
def inodesOf : List (String × Node) → List Nat
  | [] => []
  | kv :: rest => kv.2.inodes ++ inodesOf rest
end

/-- The number of nodes that the loop of `loadDirContent` creates for one listed
descriptor, when `newDir` creates `cnt c` nodes for a folder `c`. -/
def entryCount (cnt : DriveFile → Nat) (c : DriveFile) : Nat :=
  if c.visible then (if RemoteIsDir c then cnt c else 1) else 0

/-- The number of nodes that `newDir` creates for a descriptor within `n` levels of
calls: the directory itself and the nodes of its listed visible entries. -/
def createdCount (listing : String → Except Err (List DriveFile)) : Nat → DriveFile → Nat
  | 0, _ => 0
  | n + 1, f =>
    match listing f.Id with
    | .error _ => 1
    | .ok fs => 1 + (fs.map (entryCount (createdCount listing n))).sum

/-- What `newDir` guarantees about identifiers on a remote with the listings `L`, when it
returns and the counter does not wrap around: the counter has advanced by the number of
nodes created, the new directory has the first identifier handed out, and the identifiers
in the new tree are distinct, were handed out during the call, and below the directory
are greater than its own. -/
def InodeSpec (mkDir : griveFS → DriveFile → Option grvNode → Option (griveFS × grvDir))
    (L : String → Except Err (List DriveFile)) (cnt : DriveFile → Nat) : Prop :=
  ∀ g f p g1 sub, g.remote.listing = L → mkDir g f p = some (g1, sub) →
    g.nodeId + cnt f < 18446744073709551616 →
    g1.nodeId = g.nodeId + cnt f ∧ sub.node.attr.Inode = g.nodeId + 1 ∧
    (inodesOf sub.nodes).Nodup ∧
    (∀ x ∈ inodesOf sub.nodes, g.nodeId + 1 < x ∧ x ≤ g1.nodeId) ∧ 1 ≤ cnt f

/-! # Theorems -/

/-! ## The reference-counted handle of a fetcher -/

theorem wrapInt64_of_range (x : Int) (h1 : -9223372036854775808 ≤ x)
    (h2 : x < 9223372036854775808) : wrapInt64 x = x := by
  unfold wrapInt64
  omega

theorem fileFetcher.run_snoc (f : fileFetcher) (pre : List FetchOp) (op : FetchOp) :
    f.run (pre ++ [op]) = (f.run pre).step op := by
  simp [fileFetcher.run, List.foldl_append]

/-- The two ways `Open` can end: it returns nil, the counter went up by one and the
handle is present (and `os.Open` was called exactly when there was no handle); or it
returns an error and neither the counter nor the handle changed. -/
theorem fileFetcher.Open_cases (f : fileFetcher) (io : OpenIO) :
    ((f.Open io).2.1 = none ∧ (f.Open io).1.opened = wrapInt64 (f.opened + 1) ∧
        (f.Open io).1.lf.isSome = true ∧
        (FetchEvent.osOpen ∈ (f.Open io).2.2 ↔ f.lf = none)) ∨
    (∃ e, (f.Open io).2.1 = some e ∧ (f.Open io).1.opened = f.opened ∧
        (f.Open io).1.lf = f.lf) := by
  obtain ⟨st, mk, rd, oo⟩ := io
  obtain ⟨lp, rf, lf, opened, inProgress⟩ := f
  unfold fileFetcher.Open
  cases st <;> cases hd : RemoteIsDesktopFile rf <;> cases mk <;> cases rd <;>
    cases lf <;> cases oo <;> simp [hd]

/-- What `Close` does: the counter goes down by one, and the handle is dropped (with a
call of `lf.Close`) exactly when the counter reaches zero. -/
theorem fileFetcher.Close_cases (f : fileFetcher) :
    f.Close.1.opened = wrapInt64 (f.opened - 1) ∧
    (wrapInt64 (f.opened - 1) = 0 → f.Close.1.lf = none ∧ f.Close.2 = [FetchEvent.lfClose]) ∧
    (wrapInt64 (f.opened - 1) ≠ 0 → f.Close.1.lf = f.lf ∧ f.Close.2 = []) := by
  unfold fileFetcher.Close
  by_cases h : wrapInt64 (f.opened - 1) = 0 <;> simp [h]

theorem FetchRun.step_inv (s : FetchRun) (n : Nat) (op : FetchOp)
    (hn : n + 1 < 9223372036854775808) (hs : s.Inv n)
    (hb : (s.step op).closes ≤ (s.step op).opens) :
    (s.step op).Inv (n + 1) := by
  obtain ⟨h1, h2, h3, h4⟩ := hs
  cases op with
  | «open» io =>
    rcases fileFetcher.Open_cases s.f io with ⟨e1, e2, e3, -⟩ | ⟨e, e1, e2, e3⟩
    · have hst : s.step (FetchOp.open io) =
          { f := (s.f.Open io).1, opens := s.opens + 1, closes := s.closes } := by
        simp only [FetchRun.step]
        generalize s.f.Open io = r at e1
        obtain ⟨a, b, c⟩ := r
        simp only at e1
        subst e1
        rfl
      rw [hst]
      refine ⟨?_, by simp only; omega, by simp only; omega, ?_⟩
      · simp only
        rw [e2, wrapInt64_of_range _ (by omega) (by omega)]
        push_cast; omega
      · simp only [e3, true_iff]; omega
    · have hst : s.step (FetchOp.open io) = { s with f := (s.f.Open io).1 } := by
        simp only [FetchRun.step]
        generalize s.f.Open io = r at e1
        obtain ⟨a, b, c⟩ := r
        simp only at e1
        subst e1
        rfl
      rw [hst]
      exact ⟨by simp only; rw [e2]; exact h1, h2, by simp only; omega,
        by simp only; rw [e3]; exact h4⟩
  | close =>
    obtain ⟨c1, c2, c3⟩ := fileFetcher.Close_cases s.f
    have hb2 : s.closes + 1 ≤ s.opens := hb
    have hw : wrapInt64 (s.f.opened - 1) = s.f.opened - 1 :=
      wrapInt64_of_range _ (by omega) (by omega)
    refine ⟨?_, hb, ?_, ?_⟩
    · show s.f.Close.1.opened = (s.opens : Int) - ((s.closes + 1 : Nat) : Int)
      rw [c1, hw]; push_cast; omega
    · show s.opens ≤ n + 1
      omega
    · show s.f.Close.1.lf.isSome = true ↔ s.closes + 1 < s.opens
      by_cases h0 : wrapInt64 (s.f.opened - 1) = 0
      · rw [(c2 h0).1]
        simp only [Option.isSome_none]
        constructor
        · intro h; cases h
        · intro h; omega
      · rw [(c3 h0).1, h4]
        omega

theorem fileFetcher.run_inv (f : fileFetcher) (hf : f.opened = 0) (hl : f.lf = none)
    (ops : List FetchOp) (hlen : ops.length < 9223372036854775808)
    (hbal : f.Balanced ops) : (f.run ops).Inv ops.length := by
  induction ops using List.reverseRecOn with
  | nil =>
    simp [fileFetcher.run, FetchRun.Inv, hf, hl]
  | append_singleton pre op ih =>
    have hlen3 : pre.length + 1 < 9223372036854775808 := by
      simpa only [List.length_append, List.length_singleton] using hlen
    have hlen2 : pre.length < 9223372036854775808 := by omega
    have hb2 : f.Balanced pre := fun q hq => hbal q (hq.trans (List.prefix_append pre [op]))
    have := ih hlen2 hb2
    have hb3 := hbal (pre ++ [op]) (List.prefix_refl _)
    rw [fileFetcher.run_snoc] at hb3 ⊢
    simpa using FetchRun.step_inv _ _ op hlen3 this hb3

theorem fileFetcher.Open_no_lfClose (f : fileFetcher) (io : OpenIO) :
    FetchEvent.lfClose ∉ (f.Open io).2.2 := by
  obtain ⟨st, mk, rd, oo⟩ := io
  obtain ⟨lp, rf, lf, opened, inProgress⟩ := f
  unfold fileFetcher.Open
  cases st <;> cases hd : RemoteIsDesktopFile rf <;> cases mk <;> cases rd <;>
    cases lf <;> cases oo <;> simp [hd]

/-- A sequence is balanced when each of its initial segments, given by its length, has
no more closes than successful opens. -/
theorem fileFetcher.balanced_of_take (f : fileFetcher) (ops : List FetchOp)
    (h : ∀ n, n ≤ ops.length → (f.run (ops.take n)).closes ≤ (f.run (ops.take n)).opens) :
    f.Balanced ops := by
  intro pre hpre
  have := h pre.length hpre.length_le
  rwa [← List.prefix_iff_eq_take.mp hpre] at this

/-- C1: on a fresh fetcher (`opened = 0`, no handle), for every sequence of `Open` and
`Close` calls in which every `Close` is preceded by a successful `Open` it matches
(the sequence being shorter than 2^63 calls, so that the Go `int` counter cannot
wrap), after every prefix: the handle is open iff the successful opens so far
outnumber the closes; in particular it is closed whenever N >= 1 opens have been
matched by N closes; `os.Open` is called only when the counter is 0 and is called by
every successful `Open` that finds the counter at 0; and the handle is closed
(`lf.Close`) exactly by a `Close` that finds the counter at 1. -/
theorem fetcher_handle_open_iff_unmatched_open (dir : String) (rf : DriveFile)
    (ops : List FetchOp) (hlen : ops.length < 9223372036854775808)
    (hbal : (MakeFileFetcher dir rf).Balanced ops) :
    (∀ pre, pre <+: ops →
      (((MakeFileFetcher dir rf).run pre).f.IsOpen = true ↔
        ((MakeFileFetcher dir rf).run pre).closes < ((MakeFileFetcher dir rf).run pre).opens)) ∧
    (∀ pre, pre <+: ops → 1 ≤ ((MakeFileFetcher dir rf).run pre).opens →
      ((MakeFileFetcher dir rf).run pre).opens = ((MakeFileFetcher dir rf).run pre).closes →
      ((MakeFileFetcher dir rf).run pre).f.IsOpen = false) ∧
    (∀ pre op, pre ++ [op] <+: ops →
      (FetchEvent.osOpen ∈ op.events ((MakeFileFetcher dir rf).run pre).f →
        ((MakeFileFetcher dir rf).run pre).f.opened = 0) ∧
      (op.succeeds ((MakeFileFetcher dir rf).run pre).f = true →
        ((MakeFileFetcher dir rf).run pre).f.opened = 0 →
        FetchEvent.osOpen ∈ op.events ((MakeFileFetcher dir rf).run pre).f) ∧
      (FetchEvent.lfClose ∈ op.events ((MakeFileFetcher dir rf).run pre).f ↔
        op = FetchOp.close ∧ ((MakeFileFetcher dir rf).run pre).f.opened = 1)) := by
  have hinv : ∀ pre, pre <+: ops →
      ((MakeFileFetcher dir rf).run pre).Inv pre.length := by
    intro pre hpre
    exact fileFetcher.run_inv _ rfl rfl pre (lt_of_le_of_lt hpre.length_le hlen)
      (fun q hq => hbal q (hq.trans hpre))
  refine ⟨?_, ?_, ?_⟩
  · intro pre hpre
    exact (hinv pre hpre).2.2.2
  · intro pre hpre _ heq
    have h := (hinv pre hpre).2.2.2
    unfold fileFetcher.IsOpen
    cases hlf : ((MakeFileFetcher dir rf).run pre).f.lf.isSome
    · rfl
    · have := h.mp hlf
      omega
  · intro pre op hpre
    have hp : pre <+: ops := (List.prefix_append pre [op]).trans hpre
    obtain ⟨h1, h2, h3, h4⟩ := hinv pre hp
    have hb := hbal _ hpre
    rw [fileFetcher.run_snoc] at hb
    have hpl : pre.length + 1 ≤ ops.length := by
      simpa using hpre.length_le
    generalize (MakeFileFetcher dir rf).run pre = s at h1 h2 h3 h4 hb
    cases op with
    | «open» io =>
      simp only [FetchOp.events, FetchOp.succeeds]
      refine ⟨?_, ?_, ?_⟩
      · intro hev
        rcases fileFetcher.Open_cases s.f io with ⟨-, -, -, e4⟩ | ⟨e, e1, -, -⟩
        · have hlf := e4.mp hev
          rw [hlf] at h4
          have h5 : ¬ s.closes < s.opens := fun hlt => by
            have := h4.mpr hlt
            simp at this
          omega
        · by_contra hne
          have hlt : s.closes < s.opens := by omega
          have hsome := h4.mpr hlt
          revert hev
          obtain ⟨st, mk, rd, oo⟩ := io
          obtain ⟨⟨lp, rf2, lf, opened, inProgress⟩, so, sc⟩ := s
          simp only at hsome
          cases lf with
          | none => simp at hsome
          | some v =>
            unfold fileFetcher.Open
            cases st <;> cases hd : RemoteIsDesktopFile rf2 <;> cases mk <;> cases rd <;>
              cases oo <;> simp [hd]
      · intro hsucc h0
        rcases fileFetcher.Open_cases s.f io with ⟨-, -, -, e4⟩ | ⟨e, e1, -, -⟩
        · apply e4.mpr
          have hnot : ¬ s.closes < s.opens := by omega
          cases hlf : s.f.lf with
          | none => rfl
          | some v => rw [hlf] at h4; simp at h4; omega
        · rw [e1] at hsucc; simp at hsucc
      · constructor
        · intro hev; exact absurd hev (fileFetcher.Open_no_lfClose s.f io)
        · rintro ⟨h, -⟩; cases h
    | close =>
      have hb2 : s.closes + 1 ≤ s.opens := hb
      obtain ⟨c1, c2, c3⟩ := fileFetcher.Close_cases s.f
      have hw : wrapInt64 (s.f.opened - 1) = s.f.opened - 1 :=
        wrapInt64_of_range _ (by omega) (by omega)
      simp only [FetchOp.events, FetchOp.succeeds]
      refine ⟨?_, ?_, ?_⟩
      · intro hev
        by_cases h0 : wrapInt64 (s.f.opened - 1) = 0
        · rw [(c2 h0).2] at hev; simp at hev
        · rw [(c3 h0).2] at hev; simp at hev
      · intro h; cases h
      · by_cases h0 : wrapInt64 (s.f.opened - 1) = 0
        · rw [(c2 h0).2]
          simp only [List.mem_singleton, true_and, true_iff]
          omega
        · rw [(c3 h0).2]
          simp only [List.not_mem_nil, true_and, false_iff]
          omega

theorem fetcher_handle_open_iff_unmatched_open_witness :
    sampleOps.length < 9223372036854775808 ∧
    (MakeFileFetcher "cache" sampleFile).Balanced sampleOps ∧
    ((∀ pre, pre <+: sampleOps →
      (((MakeFileFetcher "cache" sampleFile).run pre).f.IsOpen = true ↔
        ((MakeFileFetcher "cache" sampleFile).run pre).closes <
          ((MakeFileFetcher "cache" sampleFile).run pre).opens)) ∧
    (∀ pre, pre <+: sampleOps → 1 ≤ ((MakeFileFetcher "cache" sampleFile).run pre).opens →
      ((MakeFileFetcher "cache" sampleFile).run pre).opens =
        ((MakeFileFetcher "cache" sampleFile).run pre).closes →
      ((MakeFileFetcher "cache" sampleFile).run pre).f.IsOpen = false) ∧
    (∀ pre op, pre ++ [op] <+: sampleOps →
      (FetchEvent.osOpen ∈ op.events ((MakeFileFetcher "cache" sampleFile).run pre).f →
        ((MakeFileFetcher "cache" sampleFile).run pre).f.opened = 0) ∧
      (op.succeeds ((MakeFileFetcher "cache" sampleFile).run pre).f = true →
        ((MakeFileFetcher "cache" sampleFile).run pre).f.opened = 0 →
        FetchEvent.osOpen ∈ op.events ((MakeFileFetcher "cache" sampleFile).run pre).f) ∧
      (FetchEvent.lfClose ∈ op.events ((MakeFileFetcher "cache" sampleFile).run pre).f ↔
        op = FetchOp.close ∧ ((MakeFileFetcher "cache" sampleFile).run pre).f.opened = 1))) :=
  have hlen : sampleOps.length < 9223372036854775808 := by decide
  have hbal : (MakeFileFetcher "cache" sampleFile).Balanced sampleOps :=
    fileFetcher.balanced_of_take _ _ (by decide)
  ⟨hlen, hbal, fetcher_handle_open_iff_unmatched_open "cache" sampleFile sampleOps hlen hbal⟩

/-! ## The node tree: read-only operations and directory listings -/

/-- C2: for every session, node and request, each of `grvDir.Create`, `grvDir.Mkdir`,
`grvDir.Rename`, `grvDir.Remove`, `grvFile.Write` and `grvFile.Setattr` returns
`fuse.EPERM`, returns no node and no handle, and leaves the session, the receiver (its
attributes, child mapping or fetcher) and the response record as they were. -/
theorem mutating_operations_return_eperm_and_change_nothing (g : griveFS) (d : grvDir)
    (f : grvFile) (creq : CreateRequest) (cresp : CreateResponse) (rreq : RenameRequest)
    (newDir : Node) (mreq : MkdirRequest) (dreq : RemoveRequest) (wreq : WriteRequest)
    (wresp : WriteResponse) (sreq : SetattrRequest) (sresp : SetattrResponse) :
    d.Create g creq cresp = ((g, d, cresp), (none, none, some Errno.EPERM)) ∧
    d.Mkdir g mreq = ((g, d), (none, some Errno.EPERM)) ∧
    d.Rename g rreq newDir = ((g, d), some Errno.EPERM) ∧
    d.Remove g dreq = ((g, d), some Errno.EPERM) ∧
    f.Write g wreq wresp = ((g, f, wresp), some Errno.EPERM) ∧
    f.Setattr g sreq sresp = ((g, f, sresp), some Errno.EPERM) :=
  ⟨rfl, rfl, rfl, rfl, rfl, rfl⟩

theorem sliceSet_eq_some {α : Type} (s : List α) (i : Nat) (v : α) (h : i < s.length) :
    sliceSet s i v = some (s.set i v) := by
  simp [sliceSet, h]

/-- The loop of `ReadDirAll` does not panic when the slice has room for every child; it
keeps the length of the slice and every entry below the start index. -/
theorem foldlM_readDirEntry (l : List (String × Node)) :
    ∀ (dirs : List Dirent) (idx : Nat), idx + l.length ≤ dirs.length →
      ∃ out, l.foldlM readDirEntry (dirs, idx) = some (out, idx + l.length) ∧
        out.length = dirs.length ∧ ∀ i, i < idx → out[i]? = dirs[i]? := by
  induction l with
  | nil =>
    intro dirs idx _
    exact ⟨dirs, by simp, rfl, fun _ _ => rfl⟩
  | cons kv l ih =>
    intro dirs idx h
    simp only [List.length_cons] at h
    have hlt : idx < dirs.length := by omega
    simp only [List.foldlM_cons, readDirEntry, sliceSet_eq_some _ _ _ hlt]
    obtain ⟨out, h1, h2, h3⟩ := ih (dirs.set idx
      (match kv.2 with
        | .file n _ => { Inode := n.attr.Inode, Typ := DirentType.DT_File, Name := kv.1 }
        | .dir n _ => { Inode := n.attr.Inode, Typ := DirentType.DT_Dir, Name := kv.1 }))
      (idx + 1) (by simp only [List.length_set]; omega)
    refine ⟨out, ?_, by simpa using h2, ?_⟩
    · simp only [Option.bind_eq_bind, Option.some_bind, List.length_cons]
      rw [h1]
      congr 2
      omega
    · intro i hi
      rw [h3 i (by omega)]
      rw [List.getElem?_set_ne (by omega)]

/-- `grvDir.ReadDirAll` returns a slice and no error, and leaves the session and the
directory as they are. -/
theorem readDirAll_returns (g : griveFS) (d : grvDir) :
    ∃ dirs, d.ReadDirAll g = some ((g, d), (dirs, none)) := by
  unfold grvDir.ReadDirAll
  simp only [sliceSet_eq_some _ _ _ (show 0 < (List.replicate (d.nodes.length + 2)
    Dirent.zero).length by simp)]
  simp only [sliceSet_eq_some _ _ _ (show 1 < ((List.replicate (d.nodes.length + 2)
    Dirent.zero).set 0 _).length by simp)]
  simp only [List.getElem?_set_self (show 1 < ((List.replicate (d.nodes.length + 2)
    Dirent.zero).set 0 _).length by simp)]
  simp only [sliceSet_eq_some _ _ _ (show 1 < (((List.replicate (d.nodes.length + 2)
    Dirent.zero).set 0 _).set 1 _).length by simp)]
  obtain ⟨out, h1, -, -⟩ := foldlM_readDirEntry d.nodes
    ((((List.replicate (d.nodes.length + 2) Dirent.zero).set 0
      { Inode := d.node.attr.Inode, Typ := DirentType.DT_Dir, Name := "." }).set 1
      { Inode := 0, Typ := DirentType.DT_Dir, Name := ".." }).set 1
      { Inode := (match d.node.parent with
                  | some p => p.attr.Inode
                  | none => d.node.attr.Inode),
        Typ := DirentType.DT_Dir, Name := ".." }) 2 (by simp; omega)
  exact ⟨out, by rw [h1]⟩

/-- C3: for every directory, `grvDir.ReadDirAll` succeeds without error and returns
`len(d.nodes) + 2` entries; entry 0 is named "." and carries the directory's own inode,
entry 1 is named ".." and carries the inode of the parent, or the directory's own when
it has no parent; both are of type directory.  The session and directory are unchanged. -/
theorem readDirAll_shape (g : griveFS) (d : grvDir) :
    ∃ dirs, d.ReadDirAll g = some ((g, d), (dirs, none)) ∧
      dirs.length = d.nodes.length + 2 ∧
      dirs[0]? = some { Inode := d.node.attr.Inode, Typ := DirentType.DT_Dir, Name := "." } ∧
      dirs[1]? = some
        { Inode := (match d.node.parent with
                    | some p => p.attr.Inode
                    | none => d.node.attr.Inode),
          Typ := DirentType.DT_Dir, Name := ".." } := by
  unfold grvDir.ReadDirAll
  simp only [sliceSet_eq_some _ _ _ (show 0 < (List.replicate (d.nodes.length + 2)
    Dirent.zero).length by simp)]
  simp only [sliceSet_eq_some _ _ _ (show 1 < ((List.replicate (d.nodes.length + 2)
    Dirent.zero).set 0 _).length by simp)]
  simp only [List.getElem?_set_self (show 1 < ((List.replicate (d.nodes.length + 2)
    Dirent.zero).set 0 _).length by simp)]
  simp only [sliceSet_eq_some _ _ _ (show 1 < (((List.replicate (d.nodes.length + 2)
    Dirent.zero).set 0 _).set 1 _).length by simp)]
  obtain ⟨out, h1, h2, h3⟩ := foldlM_readDirEntry d.nodes
    ((((List.replicate (d.nodes.length + 2) Dirent.zero).set 0
      { Inode := d.node.attr.Inode, Typ := DirentType.DT_Dir, Name := "." }).set 1
      { Inode := 0, Typ := DirentType.DT_Dir, Name := ".." }).set 1
      { Inode := (match d.node.parent with
                  | some p => p.attr.Inode
                  | none => d.node.attr.Inode),
        Typ := DirentType.DT_Dir, Name := ".." }) 2 (by simp; omega)
  refine ⟨out, ?_, by simpa using h2, ?_, ?_⟩
  · rw [h1]
  · rw [h3 0 (by omega)]
    simp
  · rw [h3 1 (by omega)]
    simp

/-! ## The range-blocking read -/

theorem pollSize_all_waiting (limit fileSize : Int) (stats : List (Except Err Int))
    (h : ∀ s ∈ stats, fileFetcher.locFileSize s < limit ∧ fileFetcher.locFileSize s < fileSize) :
    pollSize limit fileSize stats = none := by
  induction stats with
  | nil => rfl
  | cons s rest ih =>
    have hs := h s (List.mem_cons_self _ _)
    have hr := ih (fun t ht => h t (List.mem_cons_of_mem _ ht))
    simp only [pollSize, hs, and_self, if_true, hr]

theorem pollSize_first_exit (limit fileSize : Int) (pre : List (Except Err Int))
    (o : Except Err Int) (post : List (Except Err Int))
    (h : ∀ s ∈ pre, fileFetcher.locFileSize s < limit ∧ fileFetcher.locFileSize s < fileSize)
    (ho : limit ≤ fileFetcher.locFileSize o ∨ fileSize ≤ fileFetcher.locFileSize o) :
    pollSize limit fileSize (pre ++ o :: post) =
      some (fileFetcher.locFileSize o, pre.length + 1) := by
  induction pre with
  | nil =>
    have : ¬ (fileFetcher.locFileSize o < limit ∧ fileFetcher.locFileSize o < fileSize) := by
      omega
    simp only [List.nil_append, pollSize, this, if_false, List.length_nil, Nat.zero_add]
  | cons s rest ih =>
    have hs := h s (List.mem_cons_self _ _)
    have hr := ih (fun t ht => h t (List.mem_cons_of_mem _ ht))
    rw [List.cons_append]
    simp only [pollSize, hs, and_self, if_true, List.length_cons]
    rw [hr]

/-- C4: for an opened fetcher, an offset `off >= 0` and a buffer of `k` bytes whose range
end `off + k` is representable as an `int64`, and for every sequence of observed sizes of
the cache file: as long as every observation `cur` satisfies `cur < off + k` and
`cur < S` (the remote size), `Read` is still waiting and has issued no call on the handle;
and at the first observation with `cur >= off + k` or `cur >= S` it leaves the loop, having
made exactly the observations up to that one, and goes on to the positioned read (`Seek`
to `off`, then `Read` when the seek succeeded), whatever would have been observed later. -/
theorem read_waits_until_range_or_file_materialized (f : fileFetcher) (h : OsFile)
    (hf : f.lf = some h) (off k : Int) (hoff : 0 ≤ off) (hk : 0 ≤ k)
    (hend : off + k < 9223372036854775808) (seek : Option Err) (read : Int × Option Err) :
    (∀ stats : List (Except Err Int),
      (∀ s ∈ stats, fileFetcher.locFileSize s < off + k ∧
        fileFetcher.locFileSize s < f.rf.FileSize) →
      f.Read off k { stats := stats, seek := seek, read := read } = none) ∧
    (∀ (pre : List (Except Err Int)) (o : Except Err Int) (post : List (Except Err Int)),
      (∀ s ∈ pre, fileFetcher.locFileSize s < off + k ∧
        fileFetcher.locFileSize s < f.rf.FileSize) →
      (off + k ≤ fileFetcher.locFileSize o ∨ f.rf.FileSize ≤ fileFetcher.locFileSize o) →
      ∃ done, f.Read off k { stats := pre ++ o :: post, seek := seek, read := read } = some done ∧
        done.polls = pre.length + 1 ∧ done.cur = fileFetcher.locFileSize o ∧
        (seek = none → done.calls = [ReadCall.seek off, ReadCall.read k] ∧
          done.n = read.1 ∧ done.err = read.2) ∧
        (∀ e, seek = some e → done.calls = [ReadCall.seek off] ∧ done.n = 0 ∧
          done.err = some e)) := by
  have hw : wrapInt64 (off + k) = off + k := wrapInt64_of_range _ (by omega) hend
  constructor
  · intro stats hs
    simp only [fileFetcher.Read, hf, hw, pollSize_all_waiting _ _ stats hs]
  · intro pre o post hs ho
    simp only [fileFetcher.Read, hf, hw, pollSize_first_exit _ _ pre o post hs ho]
    cases seek with
    | none => exact ⟨_, rfl, rfl, rfl, fun _ => ⟨rfl, rfl, rfl⟩, fun e he => by cases he⟩
    | some e =>
      refine ⟨_, rfl, rfl, rfl, ?_, ?_⟩
      · intro he; cases he
      · intro e2 he
        cases he
        exact ⟨rfl, rfl, rfl⟩

theorem read_waits_until_range_or_file_materialized_witness :
    sampleOpened.lf = some { name := "cache/id1" } ∧ (0 : Int) ≤ 0 ∧ (0 : Int) ≤ 4096 ∧
    (0 : Int) + 4096 < 9223372036854775808 ∧
    ((∀ stats : List (Except Err Int),
      (∀ s ∈ stats, fileFetcher.locFileSize s < 0 + 4096 ∧
        fileFetcher.locFileSize s < sampleOpened.rf.FileSize) →
      sampleOpened.Read 0 4096 { stats := stats, seek := none, read := (4096, none) } = none) ∧
    (∀ (pre : List (Except Err Int)) (o : Except Err Int) (post : List (Except Err Int)),
      (∀ s ∈ pre, fileFetcher.locFileSize s < 0 + 4096 ∧
        fileFetcher.locFileSize s < sampleOpened.rf.FileSize) →
      (0 + 4096 ≤ fileFetcher.locFileSize o ∨
        sampleOpened.rf.FileSize ≤ fileFetcher.locFileSize o) →
      ∃ done, sampleOpened.Read 0 4096
          { stats := pre ++ o :: post, seek := none, read := (4096, none) } = some done ∧
        done.polls = pre.length + 1 ∧ done.cur = fileFetcher.locFileSize o ∧
        ((none : Option Err) = none →
          done.calls = [ReadCall.seek 0, ReadCall.read 4096] ∧
          done.n = ((4096, none) : Int × Option Err).1 ∧
          done.err = ((4096, none) : Int × Option Err).2) ∧
        (∀ e, (none : Option Err) = some e → done.calls = [ReadCall.seek 0] ∧ done.n = 0 ∧
          done.err = some e))) :=
  ⟨rfl, by decide, by decide, by decide,
    read_waits_until_range_or_file_materialized sampleOpened { name := "cache/id1" } rfl 0 4096
      (by decide) (by decide) (by decide) none (4096, none)⟩

/-! ## Rounding to `float64` -/

theorem floor_le_roundHalfEven (x : ℚ) : ⌊x⌋ ≤ roundHalfEven x := by
  unfold roundHalfEven
  split_ifs <;> omega

theorem roundHalfEven_ge (x : ℚ) (N : ℤ) (h : (N : ℚ) ≤ x) : N ≤ roundHalfEven x :=
  le_trans (Int.le_floor.mpr h) (floor_le_roundHalfEven x)

theorem roundHalfEven_le (x : ℚ) (N : ℤ) (h : x ≤ (N : ℚ)) : roundHalfEven x ≤ N := by
  have hfl : ⌊x⌋ ≤ N := by
    have := Int.floor_le x
    exact_mod_cast le_trans this h
  unfold roundHalfEven
  by_cases h1 : Int.fract x < 1 / 2
  · simp only [h1, if_true]; exact hfl
  · have hpos : 0 < Int.fract x := by
      have : (1 : ℚ) / 2 ≤ Int.fract x := not_lt.mp h1
      linarith
    have hlt : ⌊x⌋ < N := by
      have h2 : (⌊x⌋ : ℚ) < x := by
        have := Int.self_sub_floor x
        linarith
      exact_mod_cast lt_of_lt_of_le h2 h
    simp only [h1, if_false]
    split_ifs <;> omega

theorem two_zpow_pos (k : ℤ) : (0 : ℚ) < 2 ^ k := zpow_pos (by norm_num) k

theorem two_zpow_mul_ulp (e : ℤ) (n : ℕ) (hn : (n : ℤ) = 52 + j) :
    (2 : ℚ) ^ n * 2 ^ (e - 52) = 2 ^ (e + j) := by
  rw [← zpow_natCast, ← zpow_add₀ (by norm_num : (2 : ℚ) ≠ 0)]
  congr 1
  omega

/-- The facts about the exponent of a positive rational. -/
theorem roundF64Pos_bounds (q : ℚ) (hq : 0 < q) :
    (2 : ℚ) ^ (Int.log 2 q) ≤ roundF64Pos q ∧ roundF64Pos q ≤ 2 ^ (Int.log 2 q + 1) := by
  have hlo : (2 : ℚ) ^ (Int.log 2 q) ≤ q := by
    have := Int.zpow_log_le_self (b := 2) (by norm_num) hq
    simpa using this
  have hhi : q < (2 : ℚ) ^ (Int.log 2 q + 1) := by
    have := Int.lt_zpow_succ_log_self (b := 2) (by norm_num) q
    simpa using this
  have hu := two_zpow_pos (Int.log 2 q - 52)
  have e52 : (2 : ℚ) ^ 52 * 2 ^ (Int.log 2 q - 52) = 2 ^ (Int.log 2 q) := by
    have := two_zpow_mul_ulp (j := 0) (Int.log 2 q) 52 (by norm_num)
    simpa using this
  have e53 : (2 : ℚ) ^ 53 * 2 ^ (Int.log 2 q - 52) = 2 ^ (Int.log 2 q + 1) :=
    two_zpow_mul_ulp (j := 1) (Int.log 2 q) 53 (by norm_num)
  have c52 : ((2 ^ 52 : ℤ) : ℚ) = 2 ^ 52 := by norm_num
  have c53 : ((2 ^ 53 : ℤ) : ℚ) = 2 ^ 53 := by norm_num
  unfold roundF64Pos
  constructor
  · have h1 : ((2 ^ 52 : ℤ) : ℚ) ≤ q / 2 ^ (Int.log 2 q - 52) := by
      rw [le_div_iff₀ hu, c52, e52]; exact hlo
    have h2 := roundHalfEven_ge _ _ h1
    have h3 : ((2 ^ 52 : ℤ) : ℚ) ≤ (roundHalfEven (q / 2 ^ (Int.log 2 q - 52)) : ℚ) := by
      exact_mod_cast h2
    calc (2 : ℚ) ^ (Int.log 2 q) = ((2 ^ 52 : ℤ) : ℚ) * 2 ^ (Int.log 2 q - 52) := by
          rw [c52, e52]
      _ ≤ _ := mul_le_mul_of_nonneg_right h3 hu.le
  · have h1 : q / 2 ^ (Int.log 2 q - 52) ≤ ((2 ^ 53 : ℤ) : ℚ) := by
      rw [div_le_iff₀ hu, c53, e53]; exact hhi.le
    have h2 := roundHalfEven_le _ _ h1
    have h3 : (roundHalfEven (q / 2 ^ (Int.log 2 q - 52)) : ℚ) ≤ ((2 ^ 53 : ℤ) : ℚ) := by
      exact_mod_cast h2
    calc _ ≤ ((2 ^ 53 : ℤ) : ℚ) * 2 ^ (Int.log 2 q - 52) :=
          mul_le_mul_of_nonneg_right h3 hu.le
      _ = _ := by rw [c53, e53]

/-- A representable value that is at least `2 ^ e` is a whole multiple of `2 ^ (e - 52)`. -/
theorem isF64_multiple_of_ulp (y : ℚ) (hy : IsF64 y) (e : ℤ) (h : (2 : ℚ) ^ e ≤ y) :
    ∃ N : ℤ, y = (N : ℚ) * 2 ^ (e - 52) := by
  obtain ⟨M, k, hM, rfl⟩ := hy
  have hMpos : 0 < M := by
    by_contra hneg
    have : (M : ℚ) ≤ 0 := by exact_mod_cast not_lt.mp hneg
    have := mul_nonpos_of_nonpos_of_nonneg this (two_zpow_pos k).le
    have := two_zpow_pos e
    linarith
  have hM2 : (M : ℚ) < 2 ^ 53 := by
    have : M < 2 ^ 53 := lt_of_le_of_lt (le_abs_self M) hM
    exact_mod_cast this
  have hk : e - 52 ≤ k := by
    by_contra hlt
    have hk2 : 53 + k ≤ e := by omega
    have h1 : (M : ℚ) * 2 ^ k < 2 ^ 53 * 2 ^ k :=
      mul_lt_mul_of_pos_right hM2 (two_zpow_pos k)
    have h2 : (2 : ℚ) ^ 53 * 2 ^ k = 2 ^ (53 + k) := by
      rw [zpow_add₀ (by norm_num : (2 : ℚ) ≠ 0)]
      norm_num
    have h3 : (2 : ℚ) ^ (53 + k) ≤ 2 ^ e := zpow_le_zpow_right₀ (by norm_num) hk2
    linarith
  obtain ⟨j, hj⟩ := Int.eq_ofNat_of_zero_le (show 0 ≤ k - (e - 52) by omega)
  refine ⟨M * 2 ^ j, ?_⟩
  have hk3 : k = (j : ℤ) + (e - 52) := by omega
  rw [hk3, zpow_add₀ (by norm_num : (2 : ℚ) ≠ 0), zpow_natCast]
  push_cast
  ring

theorem roundF64Pos_ge (q y : ℚ) (hq : 0 < q) (hy : IsF64 y) (h : y ≤ q) :
    y ≤ roundF64Pos q := by
  by_cases hc : y ≤ 2 ^ (Int.log 2 q)
  · exact le_trans hc (roundF64Pos_bounds q hq).1
  · obtain ⟨N, hN⟩ := isF64_multiple_of_ulp y hy (Int.log 2 q) (not_le.mp hc).le
    have hu := two_zpow_pos (Int.log 2 q - 52)
    have h1 : (N : ℚ) ≤ q / 2 ^ (Int.log 2 q - 52) := by
      rw [le_div_iff₀ hu, ← hN]; exact h
    have h2 : (N : ℚ) ≤ (roundHalfEven (q / 2 ^ (Int.log 2 q - 52)) : ℚ) := by
      exact_mod_cast roundHalfEven_ge _ _ h1
    rw [hN]
    exact mul_le_mul_of_nonneg_right h2 hu.le

theorem roundF64Pos_le (q y : ℚ) (hq : 0 < q) (hy : IsF64 y) (h : q ≤ y) :
    roundF64Pos q ≤ y := by
  have hlo : (2 : ℚ) ^ (Int.log 2 q) ≤ q := by
    have := Int.zpow_log_le_self (b := 2) (by norm_num) hq
    simpa using this
  by_cases hc : 2 ^ (Int.log 2 q + 1) ≤ y
  · exact le_trans (roundF64Pos_bounds q hq).2 hc
  · obtain ⟨N, hN⟩ := isF64_multiple_of_ulp y hy (Int.log 2 q) (le_trans hlo h)
    have hu := two_zpow_pos (Int.log 2 q - 52)
    have h1 : q / 2 ^ (Int.log 2 q - 52) ≤ (N : ℚ) := by
      rw [div_le_iff₀ hu, ← hN]; exact h
    have h2 : (roundHalfEven (q / 2 ^ (Int.log 2 q - 52)) : ℚ) ≤ (N : ℚ) := by
      exact_mod_cast roundHalfEven_le _ _ h1
    rw [hN]
    exact mul_le_mul_of_nonneg_right h2 hu.le

theorem IsF64.neg {y : ℚ} (hy : IsF64 y) : IsF64 (-y) := by
  obtain ⟨M, k, hM, rfl⟩ := hy
  exact ⟨-M, k, by simpa using hM, by push_cast; ring⟩

theorem roundF64Pos_pos (q : ℚ) (hq : 0 < q) : 0 < roundF64Pos q :=
  lt_of_lt_of_le (two_zpow_pos _) (roundF64Pos_bounds q hq).1

/-- Rounding never crosses a representable value: from below. -/
theorem roundF64_ge (q y : ℚ) (hy : IsF64 y) (h : y ≤ q) : y ≤ roundF64 q := by
  unfold roundF64
  split_ifs with h1 h2
  · exact roundF64Pos_ge q y h1 hy h
  · have := roundF64Pos_le (-q) (-y) (by linarith) hy.neg (by linarith)
    linarith
  · linarith

/-- Rounding never crosses a representable value: from above. -/
theorem roundF64_le (q y : ℚ) (hy : IsF64 y) (h : q ≤ y) : roundF64 q ≤ y := by
  unfold roundF64
  split_ifs with h1 h2
  · exact roundF64Pos_le q y h1 hy h
  · have := roundF64Pos_ge (-q) (-y) (by linarith) hy.neg (by linarith)
    linarith
  · linarith

theorem roundF64_of_isF64 (y : ℚ) (hy : IsF64 y) : roundF64 y = y :=
  le_antisymm (roundF64_le y y hy le_rfl) (roundF64_ge y y hy le_rfl)

theorem isF64_intCast (n : ℤ) (h : |n| < 2 ^ 53) : IsF64 (n : ℚ) :=
  ⟨n, 0, h, by simp⟩

theorem isF64_one : IsF64 1 := ⟨1, 0, by norm_num, by simp⟩

theorem isF64_hourConst : IsF64 3600000000000 :=
  ⟨3600000000000, 0, by norm_num, by simp⟩

theorem floatToInt_ge (v : ℚ) (n : ℤ) (h : (n : ℚ) ≤ v) : n ≤ floatToInt v := by
  unfold floatToInt
  split_ifs
  · exact Int.le_floor.mpr h
  · have := Int.le_ceil v
    exact_mod_cast le_trans h this

theorem floatToInt_le (v : ℚ) (n : ℤ) (hn : 0 ≤ n) (h : v < (n : ℚ) + 1) :
    floatToInt v ≤ n := by
  unfold floatToInt
  split_ifs with h0
  · have : ⌊v⌋ < n + 1 := Int.floor_lt.mpr (by push_cast; exact h)
    omega
  · have : ⌈v⌉ ≤ 0 := Int.ceil_le.mpr (by push_cast; linarith)
    omega

/-! ## Whole hours of a duration -/

/-- Truncated division of a duration by `Hour`: quotient and remainder. -/
theorem tdiv_tmod_Hour (d : Int) :
    d = 3600000000000 * Int.tdiv d Hour + Int.tmod d Hour ∧
    (0 ≤ d → 0 ≤ Int.tmod d Hour ∧ Int.tmod d Hour < 3600000000000) ∧
    (d ≤ 0 → -3600000000000 < Int.tmod d Hour ∧ Int.tmod d Hour ≤ 0) := by
  have hH : (0 : Int) < Hour := by decide
  have hH2 : Hour = 3600000000000 := rfl
  refine ⟨?_, ?_, ?_⟩
  · have := Int.tdiv_add_tmod d Hour
    rw [hH2] at this ⊢
    omega
  · intro hd
    have h1 := Int.tmod_nonneg Hour hd
    have h2 := Int.tmod_lt_of_pos d hH
    rw [hH2] at h1 h2 ⊢
    exact ⟨h1, h2⟩
  · intro hd
    have h1 : Int.tmod (-d) Hour = -Int.tmod d Hour := by
      rw [Int.tmod_def, Int.tmod_def, Int.neg_tdiv]
      ring
    have h2 := Int.tmod_nonneg Hour (show 0 ≤ -d by omega)
    have h3 := Int.tmod_lt_of_pos (-d) hH
    rw [h1] at h2 h3
    rw [hH2] at h2 h3 ⊢
    omega

/-- The value of `Hours` lies between any two representable bounds of its exact
quotient: rounding the fraction and rounding the sum cross no representable number. -/
theorem hours_between (d : Int) (hmin : minDuration ≤ d) (hmax : d ≤ maxDuration) :
    (∀ y1 y2 : ℚ, IsF64 y1 → IsF64 y2 → y1 ≤ (Int.tmod d Hour : ℚ) / 3600000000000 →
        y2 ≤ (Int.tdiv d Hour : ℚ) + y1 → y2 ≤ Duration.Hours d) ∧
    (∀ y1 y2 : ℚ, IsF64 y1 → IsF64 y2 → (Int.tmod d Hour : ℚ) / 3600000000000 ≤ y1 →
        (Int.tdiv d Hour : ℚ) + y1 ≤ y2 → Duration.Hours d ≤ y2) := by
  obtain ⟨h1, h2, h3⟩ := tdiv_tmod_Hour d
  have hmin2 : -9223372036854775808 ≤ d := hmin
  have hmax2 : d ≤ 9223372036854775807 := hmax
  have hr : |Int.tmod d Hour| < 2 ^ 53 := by
    rw [abs_lt]
    rcases le_total 0 d with hd | hd
    · have := h2 hd; constructor <;> omega
    · have := h3 hd; constructor <;> omega
  have hh : |Int.tdiv d Hour| < 2 ^ 53 := by
    rw [abs_lt]
    rcases le_total 0 d with hd | hd
    · have := h2 hd; constructor <;> omega
    · have := h3 hd; constructor <;> omega
  have e1 : roundF64 (Int.tdiv d Hour : ℚ) = (Int.tdiv d Hour : ℚ) :=
    roundF64_of_isF64 _ (isF64_intCast _ hh)
  have e2 : roundF64 (Int.tmod d Hour : ℚ) = (Int.tmod d Hour : ℚ) :=
    roundF64_of_isF64 _ (isF64_intCast _ hr)
  have e3 : roundF64 3600000000000 = 3600000000000 := roundF64_of_isF64 _ isF64_hourConst
  unfold Duration.Hours
  rw [e1, e2, e3]
  constructor
  · intro y1 y2 hy1 hy2 ha hb
    have := roundF64_ge _ y1 hy1 ha
    exact roundF64_ge _ y2 hy2 (by linarith)
  · intro y1 y2 hy1 hy2 ha hb
    have := roundF64_le _ y1 hy1 ha
    exact roundF64_le _ y2 hy2 (by linarith)

theorem isF64_dyadic10 (m : ℤ) (h : |m| < 2 ^ 53) : IsF64 ((m : ℚ) / 1024) :=
  ⟨m, -10, h, by rw [zpow_neg, div_eq_mul_inv]; norm_num⟩

/-- A duration of at least `n` hours has `Hours` at least `n`. -/
theorem hours_ge_of_le (d n : Int) (hmin : minDuration ≤ d) (hmax : d ≤ maxDuration)
    (hn1 : -2562048 ≤ n) (hn2 : n ≤ 2562048) (h : n * 3600000000000 ≤ d) :
    (n : ℚ) ≤ Duration.Hours d := by
  obtain ⟨h1, h2, h3⟩ := tdiv_tmod_Hour d
  have hmin2 : -9223372036854775808 ≤ d := hmin
  have hmax2 : d ≤ 9223372036854775807 := hmax
  have hh : -2562048 ≤ Int.tdiv d Hour ∧ Int.tdiv d Hour ≤ 2562048 := by
    rcases le_total 0 d with hd | hd
    · have := h2 hd; constructor <;> omega
    · have := h3 hd; constructor <;> omega
  refine (hours_between d hmin hmax).1 ((n - Int.tdiv d Hour : ℤ) : ℚ) (n : ℚ)
    (isF64_intCast _ ?_) (isF64_intCast _ ?_) ?_ ?_
  · rw [abs_lt]; constructor <;> omega
  · rw [abs_lt]; constructor <;> omega
  · rw [le_div_iff₀ (by norm_num)]
    have : (n - Int.tdiv d Hour) * 3600000000000 ≤ Int.tmod d Hour := by omega
    exact_mod_cast this
  · push_cast; linarith

/-- A duration of at most `n` hours and 59 minutes, `n >= 0`, has `Hours` below `n + 1`. -/
theorem hours_lt_of_le (d n : Int) (hmin : minDuration ≤ d) (hmax : d ≤ maxDuration)
    (hn : 0 ≤ n) (h : d ≤ n * 3600000000000 + 59 * 60000000000) :
    Duration.Hours d < (n : ℚ) + 1 := by
  obtain ⟨h1, h2, h3⟩ := tdiv_tmod_Hour d
  have hmin2 : -9223372036854775808 ≤ d := hmin
  have hmax2 : d ≤ 9223372036854775807 := hmax
  have hh : -2562048 ≤ Int.tdiv d Hour ∧ Int.tdiv d Hour ≤ 2562048 ∧ Int.tdiv d Hour ≤ n := by
    rcases le_total 0 d with hd | hd
    · have := h2 hd; refine ⟨?_, ?_, ?_⟩ <;> omega
    · have := h3 hd; refine ⟨?_, ?_, ?_⟩ <;> omega
  have hr1 : Int.tmod d Hour ≤ 3600000000000 := by
    rcases le_total 0 d with hd | hd
    · have := h2 hd; omega
    · have := h3 hd; omega
  by_cases hc : Int.tdiv d Hour = n
  · have hle : Duration.Hours d ≤ ((1024 * n + 1023 : ℤ) : ℚ) / 1024 := by
      refine (hours_between d hmin hmax).2 (((1023 : ℤ) : ℚ) / 1024) _
        (isF64_dyadic10 _ (by norm_num)) (isF64_dyadic10 _ ?_) ?_ ?_
      · rw [abs_lt]; constructor <;> omega
      · rw [div_le_div_iff₀ (by norm_num) (by norm_num)]
        have : Int.tmod d Hour * 1024 ≤ 1023 * 3600000000000 := by omega
        exact_mod_cast this
      · rw [hc]; push_cast
        linarith
    have : ((1024 * n + 1023 : ℤ) : ℚ) / 1024 < (n : ℚ) + 1 := by
      rw [div_lt_iff₀ (by norm_num)]
      push_cast
      linarith
    linarith
  · have hlt : Int.tdiv d Hour + 1 ≤ n := by omega
    have hle : Duration.Hours d ≤ ((Int.tdiv d Hour + 1 : ℤ) : ℚ) := by
      refine (hours_between d hmin hmax).2 1 _ isF64_one (isF64_intCast _ ?_) ?_ ?_
      · rw [abs_lt]; constructor <;> omega
      · rw [div_le_iff₀ (by norm_num)]
        have : Int.tmod d Hour ≤ 1 * 3600000000000 := by omega
        exact_mod_cast this
      · push_cast; linarith
    have : ((Int.tdiv d Hour + 1 : ℤ) : ℚ) ≤ (n : ℚ) := by exact_mod_cast hlt
    linarith

theorem timeSince_bounds (now t : Int) :
    minDuration ≤ timeSince now t ∧ timeSince now t ≤ maxDuration ∧
    (timeSince now t ≤ now - t ∨ timeSince now t = minDuration) ∧
    (now - t ≤ timeSince now t ∨ timeSince now t = maxDuration) := by
  unfold timeSince timeSub minDuration maxDuration
  split_ifs <;> omega

/-- An entry last accessed at least `ttl + 1` hours ago has more than `ttl` whole hours
elapsed, provided `ttl + 1` hours fit a duration. -/
theorem wholeHours_gt_of_elapsed (ttl now t : Int) (hrep : ttl + 1 ≤ 2562047)
    (h : (ttl + 1) * 3600000000000 ≤ now - t) :
    ttl < floatToInt (Duration.Hours (timeSince now t)) := by
  obtain ⟨b1, b2, b3, b4⟩ := timeSince_bounds now t
  have b1n : -9223372036854775808 ≤ timeSince now t := b1
  have b2n : timeSince now t ≤ 9223372036854775807 := b2
  by_cases hc : -2562047 ≤ ttl + 1
  · have hd : (ttl + 1) * 3600000000000 ≤ timeSince now t := by
      rcases b4 with b4 | b4
      · omega
      · rw [b4]; unfold maxDuration; omega
    have := floatToInt_ge _ _ (hours_ge_of_le _ (ttl + 1) b1 b2 (by omega) (by omega) hd)
    omega
  · have hd : (-2562048 : Int) * 3600000000000 ≤ timeSince now t := by omega
    have := floatToInt_ge _ _ (hours_ge_of_le _ (-2562048) b1 b2 (by omega) (by omega) hd)
    omega

/-- An entry last accessed at most `ttl` hours and 59 minutes ago, `ttl >= 0`, has no
more than `ttl` whole hours elapsed. -/
theorem wholeHours_le_of_elapsed (ttl now t : Int) (httl : 0 ≤ ttl)
    (h : now - t ≤ ttl * 3600000000000 + 59 * 60000000000) :
    floatToInt (Duration.Hours (timeSince now t)) ≤ ttl := by
  obtain ⟨b1, b2, b3, b4⟩ := timeSince_bounds now t
  have hd : timeSince now t ≤ ttl * 3600000000000 + 59 * 60000000000 := by
    rcases b3 with b3 | b3
    · omega
    · rw [b3]; unfold minDuration; omega
  exact floatToInt_le _ _ httl (hours_lt_of_le _ ttl b1 b2 httl hd)

/-! ## The cache sweep -/

theorem name_head_of_ne_empty (s : String) (h : s ≠ "") : ∃ ch, s.data.head? = some ch := by
  obtain ⟨data⟩ := s
  cases data with
  | nil => exact absurd rfl h
  | cons a l => exact ⟨a, rfl⟩

theorem pathJoin_injective (dir a b : String) (h : pathJoin dir a = pathJoin dir b) :
    a = b := by
  unfold pathJoin at h
  have h2 := congrArg String.data h
  simp only [String.data_append, List.append_assoc] at h2
  have h3 := List.append_cancel_left (List.append_cancel_left h2)
  exact String.ext h3

/-- One round of the loop on an entry with a non-empty name. -/
theorem cleanCacheLoop_cons (c : Config) (now : Nat → Time) (i : Nat) (fi : FileInfo)
    (rest : List FileInfo) (h : fi.Name ≠ "") :
    cleanCacheLoop c now i (fi :: rest) =
      if removesEntry c (now i) fi = true then
        { removes := pathJoin c.DataDir fi.Name :: (cleanCacheLoop c now (i + 1) rest).removes,
          panicked := (cleanCacheLoop c now (i + 1) rest).panicked }
      else cleanCacheLoop c now (i + 1) rest := by
  obtain ⟨ch, hch⟩ := name_head_of_ne_empty _ h
  simp only [cleanCacheLoop, removesEntry, hch]
  by_cases hd : ch = '.'
  · simp [hd]
  · simp [hd]

theorem cleanCacheLoop_not_panicked (c : Config) (now : Nat → Time) (fs : List FileInfo) :
    ∀ i, (∀ x ∈ fs, x.Name ≠ "") → (cleanCacheLoop c now i fs).panicked = false := by
  induction fs with
  | nil => intro i _; rfl
  | cons fi rest ih =>
    intro i h
    rw [cleanCacheLoop_cons c now i fi rest (h fi (List.mem_cons_self _ _))]
    have := ih (i + 1) (fun x hx => h x (List.mem_cons_of_mem _ hx))
    split_ifs <;> simp [this]

theorem cleanCacheLoop_removes_sub (c : Config) (now : Nat → Time) (fs : List FileInfo) :
    ∀ i p, (∀ x ∈ fs, x.Name ≠ "") → p ∈ (cleanCacheLoop c now i fs).removes →
      ∃ fi ∈ fs, p = pathJoin c.DataDir fi.Name := by
  induction fs with
  | nil => intro i p _ hp; simp [cleanCacheLoop] at hp
  | cons fi rest ih =>
    intro i p h hp
    rw [cleanCacheLoop_cons c now i fi rest (h fi (List.mem_cons_self _ _))] at hp
    have hrest := ih (i + 1) p (fun x hx => h x (List.mem_cons_of_mem _ hx))
    split_ifs at hp
    · simp only [List.mem_cons] at hp
      rcases hp with hp | hp
      · exact ⟨fi, List.mem_cons_self _ _, hp⟩
      · obtain ⟨x, hx, hxp⟩ := hrest hp
        exact ⟨x, List.mem_cons_of_mem _ hx, hxp⟩
    · obtain ⟨x, hx, hxp⟩ := hrest hp
      exact ⟨x, List.mem_cons_of_mem _ hx, hxp⟩

/-- In a directory listing (names non-empty and distinct) the sweep passes the path of
the entry at position `j` to `os.Remove` exactly when the test of the loop holds for it
at the time of its round. -/
theorem cleanCacheLoop_mem_iff (c : Config) (now : Nat → Time) (fs : List FileInfo) :
    ∀ (i j : Nat) (e : FileInfo), (∀ x ∈ fs, x.Name ≠ "") → (fs.map FileInfo.Name).Nodup →
      fs[j]? = some e →
      (pathJoin c.DataDir e.Name ∈ (cleanCacheLoop c now i fs).removes ↔
        removesEntry c (now (i + j)) e = true) := by
  induction fs with
  | nil => intro i j e _ _ he; simp at he
  | cons fi rest ih =>
    intro i j e h hnd he
    rw [cleanCacheLoop_cons c now i fi rest (h fi (List.mem_cons_self _ _))]
    have hne : ∀ x ∈ rest, x.Name ≠ "" := fun x hx => h x (List.mem_cons_of_mem _ hx)
    simp only [List.map_cons, List.nodup_cons] at hnd
    cases j with
    | zero =>
      simp only [List.getElem?_cons_zero, Option.some.injEq] at he
      subst he
      have hnot : pathJoin c.DataDir fi.Name ∉ (cleanCacheLoop c now (i + 1) rest).removes := by
        intro hp
        obtain ⟨x, hx, hxp⟩ := cleanCacheLoop_removes_sub c now rest (i + 1) _ hne hp
        have := pathJoin_injective _ _ _ hxp
        exact hnd.1 (List.mem_map.mpr ⟨x, hx, this.symm⟩)
      simp only [Nat.add_zero]
      split_ifs with hr
      · simp [hr]
      · simp [hr, hnot]
    | succ j =>
      simp only [List.getElem?_cons_succ] at he
      have hmem : e ∈ rest := List.getElem?_mem he
      have hneq : pathJoin c.DataDir e.Name ≠ pathJoin c.DataDir fi.Name := by
        intro hp
        have := pathJoin_injective _ _ _ hp
        exact hnd.1 (List.mem_map.mpr ⟨e, hmem, this⟩)
      have hrec := ih (i + 1) j e hne hnd.2 he
      have harith : i + 1 + j = i + (j + 1) := by omega
      rw [harith] at hrec
      split_ifs with hr
      · simp only [List.mem_cons, hneq, false_or]
        exact hrec
      · exact hrec

theorem removesEntry_eq (c : Config) (now : Time) (e : FileInfo) (hdir : e.IsDir = false)
    (hdot : e.Name.data.head? ≠ some '.') :
    removesEntry c now e = true ↔
      c.CacheTTL < floatToInt (Duration.Hours (timeSince now (atime e))) := by
  simp [removesEntry, hdir, hdot]

theorem mem_dirAfterSweep (c : Config) (fs : List FileInfo) (r : SweepResult)
    (removeErr : String → Option Err) (e : FileInfo) :
    e ∈ dirAfterSweep c fs r removeErr ↔
      e ∈ fs ∧ ¬ (pathJoin c.DataDir e.Name ∈ r.removes ∧
        removeErr (pathJoin c.DataDir e.Name) = none) := by
  simp only [dirAfterSweep, List.mem_filter, Bool.not_eq_true', Bool.and_eq_false_iff,
    decide_eq_false_iff_not, not_and, and_congr_right_iff]
  intro _
  cases removeErr (pathJoin c.DataDir e.Name) <;> simp

/-- C5: for a TTL of at least one hour (with `TTL + 1` hours a representable duration)
and an entry of the cache directory listing that is not a directory and whose name does
not start with a dot: when its last access is `TTL + 1` hours in the past at the time of
its round, the sweep calls `os.Remove` on it, and the entry is gone after the sweep when
that call succeeds; when its last access is `TTL - 1` hours in the past, the sweep does
not call `os.Remove` on it and the entry is still in the directory. -/
theorem sweep_removes_at_ttl_plus_one_keeps_at_ttl_minus_one (g : griveFS)
    (fs : List FileInfo) (now : Nat → Time) (removeErr : String → Option Err) (i : Nat)
    (e : FileInfo) (hne : ∀ x ∈ fs, x.Name ≠ "") (hnd : (fs.map FileInfo.Name).Nodup)
    (hi : fs[i]? = some e) (hdir : e.IsDir = false) (hdot : e.Name.data.head? ≠ some '.')
    (httl : 1 ≤ g.c.CacheTTL) (hrep : g.c.CacheTTL + 1 ≤ 2562047) :
    (now i - atime e = (g.c.CacheTTL + 1) * Hour →
      pathJoin g.c.DataDir e.Name ∈ (g.cleanCache (.ok fs) now).removes ∧
      (removeErr (pathJoin g.c.DataDir e.Name) = none →
        e ∉ dirAfterSweep g.c fs (g.cleanCache (.ok fs) now) removeErr)) ∧
    (now i - atime e = (g.c.CacheTTL - 1) * Hour →
      pathJoin g.c.DataDir e.Name ∉ (g.cleanCache (.ok fs) now).removes ∧
      e ∈ dirAfterSweep g.c fs (g.cleanCache (.ok fs) now) removeErr) := by
  have hiff := cleanCacheLoop_mem_iff g.c now fs 0 i e hne hnd hi
  rw [Nat.zero_add, removesEntry_eq g.c (now i) e hdir hdot] at hiff
  have hH : Hour = 3600000000000 := rfl
  constructor
  · intro hel
    have hmem : pathJoin g.c.DataDir e.Name ∈ (g.cleanCache (.ok fs) now).removes := by
      apply hiff.mpr
      apply wholeHours_gt_of_elapsed _ _ _ hrep
      rw [hel, hH]
    refine ⟨hmem, fun hrm hin => ?_⟩
    exact ((mem_dirAfterSweep _ _ _ _ _).mp hin).2 ⟨hmem, hrm⟩
  · intro hel
    have hnot : pathJoin g.c.DataDir e.Name ∉ (g.cleanCache (.ok fs) now).removes := by
      intro hmem
      have h1 := hiff.mp hmem
      have h2 := wholeHours_le_of_elapsed (g.c.CacheTTL - 1) (now i) (atime e) (by omega)
        (by rw [hel, hH]; omega)
      omega
    exact ⟨hnot, (mem_dirAfterSweep _ _ _ _ _).mpr ⟨List.getElem?_mem hi, fun h => hnot h.1⟩⟩

theorem sweep_removes_at_ttl_plus_one_keeps_at_ttl_minus_one_witness :
    (∀ x ∈ [sampleEntry], x.Name ≠ "") ∧ (([sampleEntry]).map FileInfo.Name).Nodup ∧
    [sampleEntry][0]? = some sampleEntry ∧ sampleEntry.IsDir = false ∧
    sampleEntry.Name.data.head? ≠ some '.' ∧ 1 ≤ (freshSession emptyRemote).c.CacheTTL ∧
    (freshSession emptyRemote).c.CacheTTL + 1 ≤ 2562047 ∧
    ((clock25 0 - atime sampleEntry = ((freshSession emptyRemote).c.CacheTTL + 1) * Hour →
      pathJoin (freshSession emptyRemote).c.DataDir sampleEntry.Name ∈
        ((freshSession emptyRemote).cleanCache (.ok [sampleEntry]) clock25).removes ∧
      ((fun _ => none : String → Option Err)
          (pathJoin (freshSession emptyRemote).c.DataDir sampleEntry.Name) = none →
        sampleEntry ∉ dirAfterSweep (freshSession emptyRemote).c [sampleEntry]
          ((freshSession emptyRemote).cleanCache (.ok [sampleEntry]) clock25)
          (fun _ => none))) ∧
    (clock25 0 - atime sampleEntry = ((freshSession emptyRemote).c.CacheTTL - 1) * Hour →
      pathJoin (freshSession emptyRemote).c.DataDir sampleEntry.Name ∉
        ((freshSession emptyRemote).cleanCache (.ok [sampleEntry]) clock25).removes ∧
      sampleEntry ∈ dirAfterSweep (freshSession emptyRemote).c [sampleEntry]
        ((freshSession emptyRemote).cleanCache (.ok [sampleEntry]) clock25)
        (fun _ => none))) :=
  ⟨by decide, by decide, rfl, rfl, by decide, by decide, by decide,
    sweep_removes_at_ttl_plus_one_keeps_at_ttl_minus_one (freshSession emptyRemote)
      [sampleEntry] clock25 (fun _ => none) 0 sampleEntry (by decide) (by decide) rfl rfl
      (by decide) (by decide) (by decide)⟩

/-- C10, as stated, fails: with a TTL of 24 hours, an entry last accessed 24 hours and 30
minutes ago has an elapsed time above the TTL, and the sweep does not call `os.Remove`
on it. -/
theorem sweep_keeps_entry_half_an_hour_past_ttl :
    sampleEntry.IsDir = false ∧ sampleEntry.Name.data.head? ≠ some '.' ∧
    (freshSession emptyRemote).c.CacheTTL * Hour < clockHalfPast24 0 - atime sampleEntry ∧
    pathJoin (freshSession emptyRemote).c.DataDir sampleEntry.Name ∉
      ((freshSession emptyRemote).cleanCache (.ok [sampleEntry]) clockHalfPast24).removes := by
  refine ⟨rfl, by decide, by decide, ?_⟩
  intro hmem
  have hiff := cleanCacheLoop_mem_iff (freshSession emptyRemote).c clockHalfPast24
    [sampleEntry] 0 0 sampleEntry (by decide) (by decide) rfl
  rw [removesEntry_eq _ _ _ rfl (by decide)] at hiff
  have h1 := hiff.mp hmem
  have h2 := wholeHours_le_of_elapsed 24 (clockHalfPast24 (0 + 0)) (atime sampleEntry)
    (by decide) (by decide)
  have h3 : (freshSession emptyRemote).c.CacheTTL = 24 := rfl
  omega

/-- C10, amended: for an entry of the cache directory listing that is not a directory
and whose name does not start with a dot, the sweep calls `os.Remove` on it iff the whole
hours elapsed since its last access, `int(time.Since(atm).Hours())`, exceed the TTL.  So
it does whenever at least `TTL + 1` hours have elapsed (`TTL + 1` hours being a
representable duration), and for `TTL >= 0` it does not whenever at most `TTL` hours and
59 minutes have elapsed. -/
theorem sweep_removes_iff_whole_hours_exceed_ttl (g : griveFS) (fs : List FileInfo)
    (now : Nat → Time) (i : Nat) (e : FileInfo) (hne : ∀ x ∈ fs, x.Name ≠ "")
    (hnd : (fs.map FileInfo.Name).Nodup) (hi : fs[i]? = some e) (hdir : e.IsDir = false)
    (hdot : e.Name.data.head? ≠ some '.') :
    (pathJoin g.c.DataDir e.Name ∈ (g.cleanCache (.ok fs) now).removes ↔
      g.c.CacheTTL < floatToInt (Duration.Hours (timeSince (now i) (atime e)))) ∧
    (g.c.CacheTTL + 1 ≤ 2562047 → (g.c.CacheTTL + 1) * Hour ≤ now i - atime e →
      pathJoin g.c.DataDir e.Name ∈ (g.cleanCache (.ok fs) now).removes) ∧
    (0 ≤ g.c.CacheTTL → now i - atime e ≤ g.c.CacheTTL * Hour + 59 * Minute →
      pathJoin g.c.DataDir e.Name ∉ (g.cleanCache (.ok fs) now).removes) := by
  have hiff := cleanCacheLoop_mem_iff g.c now fs 0 i e hne hnd hi
  rw [Nat.zero_add, removesEntry_eq g.c (now i) e hdir hdot] at hiff
  have hH : Hour = 3600000000000 := rfl
  have hM : Minute = 60000000000 := rfl
  refine ⟨hiff, ?_, ?_⟩
  · intro hrep hel
    exact hiff.mpr (wholeHours_gt_of_elapsed _ _ _ hrep (by rw [← hH]; exact hel))
  · intro httl hel hmem
    have h1 := hiff.mp hmem
    have h2 := wholeHours_le_of_elapsed g.c.CacheTTL (now i) (atime e) httl
      (by rw [← hH, ← hM]; exact hel)
    omega

theorem sweep_removes_iff_whole_hours_exceed_ttl_witness :
    (∀ x ∈ [sampleEntry], x.Name ≠ "") ∧ (([sampleEntry]).map FileInfo.Name).Nodup ∧
    [sampleEntry][0]? = some sampleEntry ∧ sampleEntry.IsDir = false ∧
    sampleEntry.Name.data.head? ≠ some '.' ∧
    ((pathJoin (freshSession emptyRemote).c.DataDir sampleEntry.Name ∈
        ((freshSession emptyRemote).cleanCache (.ok [sampleEntry]) clockHalfPast24).removes ↔
      (freshSession emptyRemote).c.CacheTTL <
        floatToInt (Duration.Hours (timeSince (clockHalfPast24 0) (atime sampleEntry)))) ∧
    ((freshSession emptyRemote).c.CacheTTL + 1 ≤ 2562047 →
      ((freshSession emptyRemote).c.CacheTTL + 1) * Hour ≤
        clockHalfPast24 0 - atime sampleEntry →
      pathJoin (freshSession emptyRemote).c.DataDir sampleEntry.Name ∈
        ((freshSession emptyRemote).cleanCache (.ok [sampleEntry]) clockHalfPast24).removes) ∧
    (0 ≤ (freshSession emptyRemote).c.CacheTTL →
      clockHalfPast24 0 - atime sampleEntry ≤
        (freshSession emptyRemote).c.CacheTTL * Hour + 59 * Minute →
      pathJoin (freshSession emptyRemote).c.DataDir sampleEntry.Name ∉
        ((freshSession emptyRemote).cleanCache (.ok [sampleEntry]) clockHalfPast24).removes)) :=
  ⟨by decide, by decide, rfl, rfl, by decide,
    sweep_removes_iff_whole_hours_exceed_ttl (freshSession emptyRemote) [sampleEntry]
      clockHalfPast24 0 sampleEntry (by decide) (by decide) rfl rfl (by decide)⟩

/-! ## The population of a directory -/

theorem GoMap.get_set_self {V : Type} (m : GoMap V) (k : String) (v : V) :
    GoMap.get (GoMap.set m k v) k = some v := by
  induction m with
  | nil => simp [GoMap.set, GoMap.get, List.lookup]
  | cons kv m ih =>
    obtain ⟨k1, v1⟩ := kv
    by_cases h : k1 = k
    · simp [GoMap.set, GoMap.get, List.lookup, h]
    · have h2 : (k == k1) = false := by
        simpa using fun hh => h hh.symm
      simp only [GoMap.set, h, if_false, GoMap.get, List.lookup, h2]
      exact ih

theorem GoMap.get_set_ne {V : Type} (m : GoMap V) (k t : String) (v : V) (h : k ≠ t) :
    GoMap.get (GoMap.set m k v) t = GoMap.get m t := by
  induction m with
  | nil =>
    have h2 : (t == k) = false := by simpa using fun hh => h hh.symm
    simp [GoMap.set, GoMap.get, List.lookup, h2]
  | cons kv m ih =>
    obtain ⟨k1, v1⟩ := kv
    by_cases h1 : k1 = k
    · subst h1
      have h2 : (t == k1) = false := by simpa using fun hh => h hh.symm
      simp [GoMap.set, GoMap.get, List.lookup, h2]
    · simp only [GoMap.set, h1, if_false, GoMap.get, List.lookup]
      cases hc : (t == k1)
      · exact ih
      · rfl

theorem newFile_spec (g : griveFS) (parse : String → Option Time) (f : DriveFile)
    (p : grvNode) (hf : RemoteIsDir f = false) :
    (g.newFile parse f p).1.c = g.c ∧ (g.newFile parse f p).1.remote = g.remote ∧
    Node.BuiltFrom g.c p f (g.newFile parse f p).2.asNode := by
  refine ⟨rfl, rfl, rfl, rfl, rfl, ?_, ?_⟩
  · rw [hf]; rfl
  · intro node fetcher h
    simp only [grvFile.asNode, Node.file.injEq] at h
    obtain ⟨h1, h2⟩ := h
    subst h1 h2
    refine ⟨rfl, ?_⟩
    simp only [griveFS.newFile, grvNode.attr]
    split_ifs <;> rfl

/-- What one round of the loop of `loadDirContent` does to the session and directory. -/
theorem loadEntry_spec
    (mkDir : griveFS → DriveFile → Option grvNode → Option (griveFS × grvDir))
    (hmk : MkDirSpec mkDir) (parse : String → Option Time) (g : griveFS) (d : grvDir)
    (f : DriveFile) (g1 : griveFS) (d1 : grvDir)
    (h : loadEntry mkDir parse (g, d) f = some (g1, d1)) :
    g1.c = g.c ∧ g1.remote.listing = g.remote.listing ∧
    (∃ more, g1.remote.listDirCalls = g.remote.listDirCalls ++ more) ∧
    d1.node = d.node ∧
    (f.visible = false → d1.nodes = d.nodes ∧ g1.remote.listDirCalls = g.remote.listDirCalls) ∧
    (f.visible = true →
      ∃ n, d1.nodes = GoMap.set d.nodes f.Title n ∧ Node.BuiltFrom g.c d.node f n) := by
  unfold loadEntry at h
  by_cases hv : f.visible = true
  · have hv2 : (!(f.Labels.Trashed || f.Labels.Hidden)) = true := hv
    simp only [hv2, if_true] at h
    by_cases hd : RemoteIsDir f = true
    · simp only [hd, if_true] at h
      cases hm : mkDir g f (some d.node) with
      | none => rw [hm] at h; cases h
      | some r =>
        obtain ⟨g2, sub⟩ := r
        rw [hm] at h
        simp only [Option.some.injEq, Prod.mk.injEq] at h
        obtain ⟨rfl, rfl⟩ := h
        obtain ⟨s1, s2, ⟨more, s3⟩, s4, s5, s6⟩ := hmk g f (some d.node) g2 sub hm
        refine ⟨s1, s2, ⟨_, s3⟩, rfl, fun hx => (by rw [hv] at hx; cases hx), fun _ => ?_⟩
        refine ⟨sub.asNode, rfl, s4, s5, s6, by rw [hd]; rfl, ?_⟩
        intro node fetcher hn
        cases hn
    · have hd2 : RemoteIsDir f = false := by simpa using hd
      simp only [hd2, Bool.false_eq_true, if_false, Option.some.injEq, Prod.mk.injEq] at h
      obtain ⟨rfl, rfl⟩ := h
      obtain ⟨s1, s2, s3⟩ := newFile_spec g parse f d.node hd2
      refine ⟨s1, by rw [s2], ⟨[], by rw [s2]; simp⟩, rfl,
        fun hx => (by rw [hv] at hx; cases hx), fun _ => ⟨_, rfl, s3⟩⟩
  · have hv1 : f.visible = false := by simpa using hv
    have hv2 : (!(f.Labels.Trashed || f.Labels.Hidden)) = false := hv1
    simp only [hv2, Bool.false_eq_true, if_false, Option.some.injEq, Prod.mk.injEq] at h
    obtain ⟨rfl, rfl⟩ := h
    exact ⟨rfl, rfl, ⟨[], by simp⟩, rfl, fun _ => ⟨rfl, rfl⟩,
      fun hx => by rw [hv1] at hx; cases hx⟩

/-- What the loop of `loadDirContent` over a listing does: for every title, either no
listed visible descriptor has it and its binding is as before, or the binding is the node
built from the last listed visible descriptor with that title. -/
theorem foldlM_loadEntry_spec
    (mkDir : griveFS → DriveFile → Option grvNode → Option (griveFS × grvDir))
    (hmk : MkDirSpec mkDir) (parse : String → Option Time) (fs : List DriveFile) :
    ∀ (g : griveFS) (d : grvDir) (g1 : griveFS) (d1 : grvDir),
      fs.foldlM (loadEntry mkDir parse) (g, d) = some (g1, d1) →
      g1.c = g.c ∧ g1.remote.listing = g.remote.listing ∧
      (∃ more, g1.remote.listDirCalls = g.remote.listDirCalls ++ more) ∧
      d1.node = d.node ∧
      ((∀ x ∈ fs, x.visible = false) →
        d1.nodes = d.nodes ∧ g1.remote.listDirCalls = g.remote.listDirCalls) ∧
      ∀ t, (GoMap.get d1.nodes t = GoMap.get d.nodes t ∧
              ∀ x ∈ fs, ¬ (x.visible = true ∧ x.Title = t)) ∨
           (∃ pre f post n, fs = pre ++ f :: post ∧ f.visible = true ∧ f.Title = t ∧
              (∀ x ∈ post, ¬ (x.visible = true ∧ x.Title = t)) ∧
              GoMap.get d1.nodes t = some n ∧ Node.BuiltFrom g.c d.node f n) := by
  induction fs with
  | nil =>
    intro g d g1 d1 h
    simp only [List.foldlM_nil, Option.pure_def, Option.some.injEq, Prod.mk.injEq] at h
    obtain ⟨rfl, rfl⟩ := h
    exact ⟨rfl, rfl, ⟨[], by simp⟩, rfl, fun _ => ⟨rfl, rfl⟩,
      fun t => Or.inl ⟨rfl, fun x hx => by simp at hx⟩⟩
  | cons f rest ih =>
    intro g d g1 d1 h
    simp only [List.foldlM_cons, Option.bind_eq_bind] at h
    cases h0 : loadEntry mkDir parse (g, d) f with
    | none => rw [h0] at h; cases h
    | some r =>
      obtain ⟨g0, d0⟩ := r
      rw [h0] at h
      simp only [Option.some_bind] at h
      obtain ⟨a1, a2, ⟨m1, a3⟩, a4, a5, a6⟩ := loadEntry_spec mkDir hmk parse g d f g0 d0 h0
      obtain ⟨b1, b2, ⟨m2, b3⟩, b4, b5, b6⟩ := ih g0 d0 g1 d1 h
      refine ⟨b1.trans a1, b2.trans a2, ⟨m1 ++ m2, by rw [b3, a3, List.append_assoc]⟩,
        b4.trans a4, ?_, ?_⟩
      · intro hall
        have h1 := a5 (hall f (List.mem_cons_self _ _))
        have h2 := b5 (fun x hx => hall x (List.mem_cons_of_mem _ hx))
        exact ⟨h2.1.trans h1.1, h2.2.trans h1.2⟩
      · intro t
        rcases b6 t with ⟨c1, c2⟩ | ⟨pre, x, post, n, c1, c2, c3, c4, c5, c6⟩
        · by_cases hv : f.visible = true ∧ f.Title = t
          · obtain ⟨n, e1, e2⟩ := a6 hv.1
            right
            refine ⟨[], f, rest, n, rfl, hv.1, hv.2, c2, ?_, e2⟩
            rw [c1, e1, hv.2]
            exact GoMap.get_set_self _ _ _
          · left
            constructor
            · rw [c1]
              by_cases hvis : f.visible = true
              · obtain ⟨n, e1, _⟩ := a6 hvis
                rw [e1]
                exact GoMap.get_set_ne _ _ _ _ (fun hh => hv ⟨hvis, hh⟩)
              · rw [(a5 (by simpa using hvis)).1]
            · intro y hy
              rcases List.mem_cons.mp hy with rfl | hy
              · exact hv
              · exact c2 y hy
        · right
          refine ⟨f :: pre, x, post, n, by rw [c1]; rfl, c2, c3, c4, c5, ?_⟩
          rw [a1, a4] at c6
          exact c6

theorem loadDirContentWith_nonempty
    (mkDir : griveFS → DriveFile → Option grvNode → Option (griveFS × grvDir))
    (parse : String → Option Time) (g : griveFS) (d : grvDir) (hd : d.nodes ≠ []) :
    loadDirContentWith mkDir parse g d = some (g, d, none) := by
  have : ¬ d.nodes.length = 0 := fun h => hd (List.length_eq_zero.mp h)
  simp only [loadDirContentWith, this, if_false]

theorem loadDirContentWith_error
    (mkDir : griveFS → DriveFile → Option grvNode → Option (griveFS × grvDir))
    (parse : String → Option Time) (g : griveFS) (d : grvDir) (hd : d.nodes = []) (e : Err)
    (hls : g.remote.listing d.node.rf.Id = .error e) :
    loadDirContentWith mkDir parse g d =
      some ({ g with remote := { g.remote with
                listDirCalls := g.remote.listDirCalls ++ [d.node.rf.Id] } }, d, some e) := by
  simp only [loadDirContentWith, hd, List.length_nil, if_true, Remote.ListDir, hls]

theorem loadDirContentWith_ok
    (mkDir : griveFS → DriveFile → Option grvNode → Option (griveFS × grvDir))
    (parse : String → Option Time) (g : griveFS) (d : grvDir) (hd : d.nodes = [])
    (fs : List DriveFile) (hls : g.remote.listing d.node.rf.Id = .ok fs) :
    loadDirContentWith mkDir parse g d =
      match fs.foldlM (loadEntry mkDir parse)
          ({ g with remote := { g.remote with
               listDirCalls := g.remote.listDirCalls ++ [d.node.rf.Id] } }, d) with
      | none => none
      | some (g2, d2) => some (g2, d2, none) := by
  simp only [loadDirContentWith, hd, List.length_nil, if_true, Remote.ListDir, hls]

/-- What `loadDirContent` does on a directory without children whose listing succeeds. -/
theorem loadDirContentWith_spec
    (mkDir : griveFS → DriveFile → Option grvNode → Option (griveFS × grvDir))
    (hmk : MkDirSpec mkDir) (parse : String → Option Time) (g : griveFS) (d : grvDir)
    (hd : d.nodes = []) (fs : List DriveFile)
    (hls : g.remote.listing d.node.rf.Id = .ok fs) (g2 : griveFS) (d2 : grvDir)
    (err : Option Err) (h : loadDirContentWith mkDir parse g d = some (g2, d2, err)) :
    err = none ∧ g2.c = g.c ∧ g2.remote.listing = g.remote.listing ∧
    (∃ more, g2.remote.listDirCalls = g.remote.listDirCalls ++ d.node.rf.Id :: more) ∧
    d2.node = d.node ∧
    ((∀ x ∈ fs, x.visible = false) →
      d2.nodes = [] ∧ g2.remote.listDirCalls = g.remote.listDirCalls ++ [d.node.rf.Id]) ∧
    ∀ t, (GoMap.get d2.nodes t = none ∧ ∀ x ∈ fs, ¬ (x.visible = true ∧ x.Title = t)) ∨
         (∃ pre f post n, fs = pre ++ f :: post ∧ f.visible = true ∧ f.Title = t ∧
            (∀ x ∈ post, ¬ (x.visible = true ∧ x.Title = t)) ∧
            GoMap.get d2.nodes t = some n ∧ Node.BuiltFrom g.c d.node f n) := by
  rw [loadDirContentWith_ok mkDir parse g d hd fs hls] at h
  cases hf : fs.foldlM (loadEntry mkDir parse)
      ({ g with remote := { g.remote with
           listDirCalls := g.remote.listDirCalls ++ [d.node.rf.Id] } }, d) with
  | none => rw [hf] at h; cases h
  | some r =>
    obtain ⟨g3, d3⟩ := r
    rw [hf] at h
    simp only [Option.some.injEq, Prod.mk.injEq] at h
    obtain ⟨rfl, rfl, rfl⟩ := h
    obtain ⟨a1, a2, ⟨more, a3⟩, a4, a5, a6⟩ :=
      foldlM_loadEntry_spec mkDir hmk parse fs _ _ _ _ hf
    refine ⟨rfl, a1, a2, ⟨more, by rw [a3]; simp⟩, a4, ?_, ?_⟩
    · intro hall
      obtain ⟨b1, b2⟩ := a5 hall
      exact ⟨b1.trans hd, b2⟩
    · intro t
      rcases a6 t with ⟨c1, c2⟩ | hex
      · left
        refine ⟨?_, c2⟩
        rw [c1, hd]; rfl
      · right
        exact hex

theorem newDirRecord_spec (g : griveFS) (parse : String → Option Time) (f : DriveFile)
    (p : Option grvNode) :
    (g.newDirRecord parse f p).1.c = g.c ∧ (g.newDirRecord parse f p).1.remote = g.remote ∧
    (g.newDirRecord parse f p).2.nodes = [] ∧ (g.newDirRecord parse f p).2.node.rf = f ∧
    (g.newDirRecord parse f p).2.node.name = f.Title ∧
    (g.newDirRecord parse f p).2.node.parent = p :=
  ⟨rfl, rfl, rfl, rfl, rfl, rfl⟩

/-- `newDir` keeps its promises for every bound on the depth of its calls. -/
theorem newDir_spec (parse : String → Option Time) :
    ∀ fuel, MkDirSpec (griveFS.newDir parse fuel) := by
  intro fuel
  induction fuel with
  | zero =>
    intro g f p g1 sub h
    simp [griveFS.newDir] at h
  | succ fuel ih =>
    intro g f p g1 sub h
    obtain ⟨hc, hr, hdn, hrf, hnm, hpa⟩ := newDirRecord_spec g parse f p
    simp only [griveFS.newDir] at h
    generalize (g.newDirRecord parse f p).1 = g2 at h hc hr
    generalize (g.newDirRecord parse f p).2 = dir at h hdn hrf hnm hpa
    cases heq : loadDirContentWith (griveFS.newDir parse fuel) parse g2 dir with
    | none => rw [heq] at h; cases h
    | some r =>
      obtain ⟨g3, d3, err⟩ := r
      rw [heq] at h
      simp only [Option.some.injEq, Prod.mk.injEq] at h
      obtain ⟨rfl, rfl⟩ := h
      cases hls : g2.remote.listing dir.node.rf.Id with
      | error e =>
        rw [loadDirContentWith_error _ parse g2 dir hdn e hls] at heq
        simp only [Option.some.injEq, Prod.mk.injEq] at heq
        obtain ⟨rfl, rfl, -⟩ := heq
        exact ⟨hc, by rw [← hr], ⟨[], by rw [← hr, hrf]⟩, hrf, hnm, hpa⟩
      | ok fs =>
        obtain ⟨-, a1, a2, ⟨more, a3⟩, a4, -, -⟩ :=
          loadDirContentWith_spec _ ih parse g2 dir hdn fs hls g3 d3 err heq
        refine ⟨a1.trans hc, by rw [a2, hr], ⟨more, by rw [a3, hr, hrf]⟩, ?_, ?_, ?_⟩
        · rw [a4]; exact hrf
        · rw [a4]; exact hnm
        · rw [a4]; exact hpa

theorem GoMap.set_keys_nodup {V : Type} (m : GoMap V) (k : String) (v : V)
    (h : (m.map Prod.fst).Nodup) : ((GoMap.set m k v).map Prod.fst).Nodup ∧
      ∀ t, t ∈ (GoMap.set m k v).map Prod.fst → t = k ∨ t ∈ m.map Prod.fst := by
  induction m with
  | nil => simp [GoMap.set]
  | cons kv m ih =>
    obtain ⟨k1, v1⟩ := kv
    simp only [List.map_cons, List.nodup_cons] at h
    by_cases hk : k1 = k
    · subst hk
      simp only [GoMap.set, if_true, List.map_cons, List.nodup_cons]
      exact ⟨h, fun t ht => Or.inr ht⟩
    · obtain ⟨i1, i2⟩ := ih h.2
      simp only [GoMap.set, hk, if_false, List.map_cons, List.nodup_cons, List.mem_cons]
      refine ⟨⟨fun hin => ?_, i1⟩, fun t ht => ?_⟩
      · rcases i2 k1 hin with h1 | h1
        · exact hk h1
        · exact h.1 h1
      · rcases ht with ht | ht
        · exact Or.inr (Or.inl ht)
        · rcases i2 t ht with h1 | h1
          · exact Or.inl h1
          · exact Or.inr (Or.inr h1)

/-- The loop of `loadDirContent` keeps the keys of the child mapping distinct. -/
theorem foldlM_loadEntry_keys
    (mkDir : griveFS → DriveFile → Option grvNode → Option (griveFS × grvDir))
    (hmk : MkDirSpec mkDir) (parse : String → Option Time) (fs : List DriveFile) :
    ∀ (g : griveFS) (d : grvDir) (g1 : griveFS) (d1 : grvDir),
      fs.foldlM (loadEntry mkDir parse) (g, d) = some (g1, d1) →
      (d.nodes.map Prod.fst).Nodup → (d1.nodes.map Prod.fst).Nodup := by
  induction fs with
  | nil =>
    intro g d g1 d1 h hn
    simp only [List.foldlM_nil, Option.pure_def, Option.some.injEq, Prod.mk.injEq] at h
    obtain ⟨rfl, rfl⟩ := h
    exact hn
  | cons f rest ih =>
    intro g d g1 d1 h hn
    simp only [List.foldlM_cons, Option.bind_eq_bind] at h
    cases h0 : loadEntry mkDir parse (g, d) f with
    | none => rw [h0] at h; cases h
    | some r =>
      obtain ⟨g0, d0⟩ := r
      rw [h0] at h
      simp only [Option.some_bind] at h
      obtain ⟨-, -, -, -, a5, a6⟩ := loadEntry_spec mkDir hmk parse g d f g0 d0 h0
      apply ih g0 d0 g1 d1 h
      by_cases hv : f.visible = true
      · obtain ⟨n, e1, -⟩ := a6 hv
        rw [e1]
        exact (GoMap.set_keys_nodup _ _ _ hn).1
      · rw [(a5 (by simpa using hv)).1]
        exact hn

/-- The loop of `loadDirContent` runs to its end when `newDir` returns for every listed
visible folder. -/
theorem foldlM_loadEntry_total
    (mkDir : griveFS → DriveFile → Option grvNode → Option (griveFS × grvDir))
    (hmk : MkDirSpec mkDir) (parse : String → Option Time)
    (L : String → Except Err (List DriveFile)) (fs : List DriveFile) :
    (∀ c ∈ fs, c.visible = true → RemoteIsDir c = true →
        ∀ g p, g.remote.listing = L → ∃ r, mkDir g c p = some r) →
    ∀ (g : griveFS) (d : grvDir), g.remote.listing = L →
      ∃ r, fs.foldlM (loadEntry mkDir parse) (g, d) = some r := by
  induction fs with
  | nil => intro _ g d _; exact ⟨(g, d), rfl⟩
  | cons f rest ih =>
    intro htot g d hL
    have hstep : ∃ r, loadEntry mkDir parse (g, d) f = some r := by
      unfold loadEntry
      by_cases hv : f.visible = true
      · have hv2 : (!(f.Labels.Trashed || f.Labels.Hidden)) = true := hv
        simp only [hv2, if_true]
        by_cases hd : RemoteIsDir f = true
        · obtain ⟨r, hr⟩ := htot f (List.mem_cons_self _ _) hv hd g (some d.node) hL
          simp only [hd, if_true, hr]
          exact ⟨_, rfl⟩
        · simp only [hd, if_false]
          exact ⟨_, rfl⟩
      · have hv1 : f.visible = false := by simpa using hv
        have hv2 : (!(f.Labels.Trashed || f.Labels.Hidden)) = false := hv1
        simp only [hv2, Bool.false_eq_true, if_false]
        exact ⟨_, rfl⟩
    obtain ⟨⟨g0, d0⟩, h0⟩ := hstep
    obtain ⟨-, a2, -, -, -, -⟩ := loadEntry_spec mkDir hmk parse g d f g0 d0 h0
    obtain ⟨r, hr⟩ := ih (fun c hc => htot c (List.mem_cons_of_mem _ hc)) g0 d0 (a2.trans hL)
    exact ⟨r, by simp only [List.foldlM_cons, Option.bind_eq_bind, h0, Option.some_bind, hr]⟩

/-- `newDir` returns when the folders below the descriptor are nested less deep than the
bound. -/
theorem newDir_total (parse : String → Option Time)
    (L : String → Except Err (List DriveFile)) :
    ∀ (fuel : Nat) (f : DriveFile), finiteDepth L fuel f →
      ∀ (g : griveFS) (p : Option grvNode), g.remote.listing = L →
        ∃ r, griveFS.newDir parse fuel g f p = some r := by
  intro fuel
  induction fuel with
  | zero => intro f h; exact absurd h (by simp [finiteDepth])
  | succ fuel ih =>
    intro f hfin g p hL
    obtain ⟨hc, hr, hdn, hrf, hnm, hpa⟩ := newDirRecord_spec g parse f p
    simp only [griveFS.newDir]
    generalize (g.newDirRecord parse f p).1 = g2 at hc hr
    generalize (g.newDirRecord parse f p).2 = dir at hdn hrf hnm hpa
    cases hls : g2.remote.listing dir.node.rf.Id with
    | error e =>
      rw [loadDirContentWith_error _ parse g2 dir hdn e hls]
      exact ⟨_, rfl⟩
    | ok fs =>
      rw [loadDirContentWith_ok _ parse g2 dir hdn fs hls]
      have hls2 : L f.Id = .ok fs := by rw [← hL, ← hr, ← hrf]; exact hls
      obtain ⟨⟨g3, d3⟩, h3⟩ := foldlM_loadEntry_total _ (newDir_spec parse fuel) parse L fs
        (fun c hc hv hd g0 p0 hg0 => ih c (hfin fs hls2 c hc hv hd) g0 p0 hg0)
        { g2 with remote := { g2.remote with
            listDirCalls := g2.remote.listDirCalls ++ [dir.node.rf.Id] } } dir
        (by simp only; rw [hr]; exact hL)
      rw [h3]
      exact ⟨_, rfl⟩

theorem foldlM_loadEntry_invisible
    (mkDir : griveFS → DriveFile → Option grvNode → Option (griveFS × grvDir))
    (parse : String → Option Time) (fs : List DriveFile) (h : ∀ x ∈ fs, x.visible = false)
    (st : griveFS × grvDir) : fs.foldlM (loadEntry mkDir parse) st = some st := by
  induction fs with
  | nil => rfl
  | cons f rest ih =>
    have hv : (!(f.Labels.Trashed || f.Labels.Hidden)) = false := h f (List.mem_cons_self _ _)
    have h1 : loadEntry mkDir parse st f = some st := by
      simp only [loadEntry, hv, Bool.false_eq_true, if_false]
    simp only [List.foldlM_cons, Option.bind_eq_bind, h1, Option.some_bind]
    exact ih (fun x hx => h x (List.mem_cons_of_mem _ hx))

/-- `RemoteIsDir` holds exactly of the descriptors whose MIME type is the folder type. -/
theorem remoteIsDir_iff (f : DriveFile) :
    RemoteIsDir f = true ↔ f.MimeType = "application/vnd.google-apps.folder" := by
  simp [RemoteIsDir, mimeFolder]

/-- `RemoteIsDesktopFile` holds exactly of the descriptors whose MIME type starts with the
apps prefix. -/
theorem remoteIsDesktopFile_iff (f : DriveFile) :
    RemoteIsDesktopFile f = true ↔
      ∃ rest : String, f.MimeType = "application/vnd.google-apps." ++ rest := by
  unfold RemoteIsDesktopFile mimeGoogleApps
  rw [List.isPrefixOf_iff_prefix]
  constructor
  · rintro ⟨t, ht⟩
    refine ⟨String.mk t, String.ext ?_⟩
    rw [String.data_append]
    exact ht.symm
  · rintro ⟨rest, h⟩
    exact ⟨rest.data, by rw [h, String.data_append]⟩

/-- The test of the loop of `loadDirContent`, on the two labels. -/
theorem visible_iff (f : DriveFile) :
    f.visible = true ↔ f.Labels.Trashed = false ∧ f.Labels.Hidden = false := by
  unfold DriveFile.visible
  cases f.Labels.Trashed <;> cases f.Labels.Hidden <;> simp

theorem isDir_iff (n : Node) : n.isDir = true ↔ ∃ node nodes, n = Node.dir node nodes := by
  cases n with
  | dir node nodes => exact ⟨fun _ => ⟨node, nodes, rfl⟩, fun _ => rfl⟩
  | file node fetcher =>
    exact ⟨fun h => (by cases h), fun h => (by obtain ⟨_, _, h⟩ := h; cases h)⟩

theorem isDir_false_iff (n : Node) :
    n.isDir = false ↔ ∃ node fetcher, n = Node.file node fetcher := by
  cases n with
  | dir node nodes =>
    exact ⟨fun h => (by cases h), fun h => (by obtain ⟨_, _, h⟩ := h; cases h)⟩
  | file node fetcher => exact ⟨fun _ => ⟨node, fetcher, rfl⟩, fun _ => rfl⟩

/-- The first `Open` of the fetcher of a new file node, when the cache file is missing:
it writes the shortcut file exactly for a descriptor of a native document, and starts the
download exactly for any other. -/
theorem open_makeFileFetcher_events (dir : String) (f : DriveFile) (io : OpenIO)
    (h : io.statNotExist = true) :
    (FetchEvent.makeDesktopFile ∈ ((MakeFileFetcher dir f).Open io).2.2 ↔
      RemoteIsDesktopFile f = true) ∧
    (FetchEvent.download ∈ ((MakeFileFetcher dir f).Open io).2.2 ↔
      RemoteIsDesktopFile f = false) := by
  unfold fileFetcher.Open MakeFileFetcher
  simp only [h, if_true]
  cases hdf : RemoteIsDesktopFile f
  · simp only [Bool.false_eq_true, if_false]
    cases io.ready <;> cases io.osOpen <;> simp
  · simp only [if_true]
    cases io.makeDesktop <;> cases io.osOpen <;> simp

/-- C9: when `loadDirContent` runs on a directory without children, the listing of its
folder succeeds with the descriptors `fs`, and the folders below are nested less deep than
the bound on the calls of `newDir`, it returns without error and afterwards: the keys of
the child mapping are distinct; a title is a key iff some listed descriptor that is
neither trashed nor hidden has it; and the node under a title is the one built from the
last such descriptor of the listing.  That node is a Directory node exactly when the MIME
type of the descriptor is `application/vnd.google-apps.folder`, and a File node exactly
when it is not; the File node carries the fetcher of the descriptor and is the shortcut
variant exactly when the MIME type starts with `application/vnd.google-apps.`: then its
size is that of the shortcut payload and the first `Open` writes the shortcut file,
otherwise its size is the remote size and the first `Open` starts the download. -/
theorem loadDirContent_builds_child_mapping (parse : String → Option Time) (fuel : Nat)
    (g : griveFS) (d : grvDir) (fs : List DriveFile) (hd : d.nodes = [])
    (hls : g.remote.listing d.node.rf.Id = .ok fs)
    (hfin : finiteDepth g.remote.listing (fuel + 1) d.node.rf) :
    ∃ g1 d1, d.loadDirContent parse fuel g = some (g1, d1, none) ∧
      (d1.nodes.map Prod.fst).Nodup ∧
      (∀ t, (∃ n, GoMap.get d1.nodes t = some n) ↔
        ∃ f ∈ fs, f.Labels.Trashed = false ∧ f.Labels.Hidden = false ∧ f.Title = t) ∧
      (∀ t n, GoMap.get d1.nodes t = some n →
        ∃ pre f post, fs = pre ++ f :: post ∧
          f.Labels.Trashed = false ∧ f.Labels.Hidden = false ∧ f.Title = t ∧
          (∀ x ∈ post,
            ¬ (x.Labels.Trashed = false ∧ x.Labels.Hidden = false ∧ x.Title = t)) ∧
          n.grvNode.rf = f ∧ n.grvNode.name = f.Title ∧ n.grvNode.parent = some d.node ∧
          ((∃ node nodes, n = Node.dir node nodes) ↔
            f.MimeType = "application/vnd.google-apps.folder") ∧
          ((∃ node fetcher, n = Node.file node fetcher) ↔
            f.MimeType ≠ "application/vnd.google-apps.folder") ∧
          (∀ node fetcher, n = Node.file node fetcher →
            fetcher = MakeFileFetcher g.c.DataDir f ∧
            ((∃ rest : String, f.MimeType = "application/vnd.google-apps." ++ rest) →
              node.attr.Size = (DesktopFileContent f).utf8ByteSize) ∧
            ((¬ ∃ rest : String, f.MimeType = "application/vnd.google-apps." ++ rest) →
              node.attr.Size = wrapUint64 f.FileSize) ∧
            (∀ io : OpenIO, io.statNotExist = true →
              (FetchEvent.makeDesktopFile ∈ (fetcher.Open io).2.2 ↔
                ∃ rest : String, f.MimeType = "application/vnd.google-apps." ++ rest) ∧
              (FetchEvent.download ∈ (fetcher.Open io).2.2 ↔
                ¬ ∃ rest : String, f.MimeType = "application/vnd.google-apps." ++ rest)))) := by
  have hmk := newDir_spec parse fuel
  obtain ⟨⟨g1, d1⟩, hfold⟩ := foldlM_loadEntry_total _ hmk parse g.remote.listing fs
    (fun c hc hv hdir g0 p0 hg0 =>
      newDir_total parse g.remote.listing fuel c (hfin fs hls c hc hv hdir) g0 p0 hg0)
    { g with remote := { g.remote with
        listDirCalls := g.remote.listDirCalls ++ [d.node.rf.Id] } } d rfl
  have hres : d.loadDirContent parse fuel g = some (g1, d1, none) := by
    unfold grvDir.loadDirContent
    rw [loadDirContentWith_ok _ parse g d hd fs hls, hfold]
  obtain ⟨-, -, -, -, -, -, hmap⟩ :=
    loadDirContentWith_spec _ hmk parse g d hd fs hls g1 d1 none hres
  have hkeys := foldlM_loadEntry_keys _ hmk parse fs _ _ _ _ hfold (by rw [hd]; simp)
  refine ⟨g1, d1, hres, hkeys, ?_, ?_⟩
  · intro t
    rcases hmap t with ⟨c1, c2⟩ | ⟨pre, f, post, n, c1, c2, c3, c4, c5, c6⟩
    · constructor
      · rintro ⟨n, hn⟩; rw [c1] at hn; cases hn
      · rintro ⟨f, hf, ht1, ht2, ht⟩
        exact absurd ⟨(visible_iff f).2 ⟨ht1, ht2⟩, ht⟩ (c2 f hf)
    · constructor
      · intro _
        exact ⟨f, by rw [c1]; simp, ((visible_iff f).1 c2).1, ((visible_iff f).1 c2).2, c3⟩
      · intro _
        exact ⟨n, c5⟩
  · intro t n hn
    rcases hmap t with ⟨c1, c2⟩ | ⟨pre, f, post, n2, c1, c2, c3, c4, c5, c6⟩
    · rw [c1] at hn; cases hn
    · rw [c5] at hn
      cases hn
      obtain ⟨b1, b2, b3, b4, b5⟩ := c6
      refine ⟨pre, f, post, c1, ((visible_iff f).1 c2).1, ((visible_iff f).1 c2).2, c3,
        ?_, b1, b2, b3, ?_, ?_, ?_⟩
      · rintro x hx ⟨x1, x2, x3⟩
        exact c4 x hx ⟨(visible_iff x).2 ⟨x1, x2⟩, x3⟩
      · rw [← isDir_iff, b4]
        exact remoteIsDir_iff f
      · rw [← isDir_false_iff, b4]
        constructor
        · intro h hm
          rw [(remoteIsDir_iff f).2 hm] at h
          cases h
        · intro h
          cases hr : RemoteIsDir f
          · rfl
          · exact absurd ((remoteIsDir_iff f).1 hr) h
      · intro node fetcher hnode
        obtain ⟨e1, e2⟩ := b5 node fetcher hnode
        have hopen := open_makeFileFetcher_events g.c.DataDir f
        rw [← remoteIsDesktopFile_iff]
        refine ⟨e1, fun hp => ?_, fun hp => ?_, fun io hio => ?_⟩
        · rw [e2, if_pos hp]
        · rw [e2, if_neg hp]
        · rw [e1]
          refine ⟨(hopen io hio).1, ?_⟩
          rw [(hopen io hio).2]
          cases RemoteIsDesktopFile f <;> simp

theorem sampleRoot_finiteDepth : finiteDepth sampleRemote.listing (0 + 1) sampleRoot := by
  intro fs h c hc hv hd
  have h2 : fs = [sampleFile] := by
    have h3 : sampleRemote.listing sampleRoot.Id = .ok [sampleFile] := rfl
    rw [h3] at h
    cases h
    rfl
  subst h2
  simp only [List.mem_singleton] at hc
  subst hc
  exact absurd hd (by decide)

theorem mixedRoot_finiteDepth : finiteDepth mixedRemote.listing (1 + 1) sampleRoot := by
  intro fs h c hc hv hd
  have h2 : fs = mixedListing := by
    have h3 : mixedRemote.listing sampleRoot.Id = .ok mixedListing := rfl
    rw [h3] at h
    cases h
    rfl
  subst h2
  have hc2 : c = sampleFolder := by
    simp only [mixedListing, List.mem_cons, List.mem_singleton, List.not_mem_nil,
      or_false] at hc
    rcases hc with rfl | rfl | rfl | rfl | rfl
    · exact absurd hd (by decide)
    · exact absurd hv (by decide)
    · rfl
    · exact absurd hv (by decide)
    · exact absurd hd (by decide)
  subst hc2
  intro fs2 h4 c2 hc3 hv2 hd2
  have h5 : fs2 = [sampleFile] := by
    have h6 : mixedRemote.listing sampleFolder.Id = .ok [sampleFile] := rfl
    rw [h6] at h4
    cases h4
    rfl
  subst h5
  simp only [List.mem_singleton] at hc3
  subst hc3
  exact absurd hd2 (by decide)

theorem loadDirContent_builds_child_mapping_witness :
    sampleRootRecord.nodes = [] ∧
    (freshSession mixedRemote).remote.listing sampleRootRecord.node.rf.Id = .ok mixedListing ∧
    finiteDepth (freshSession mixedRemote).remote.listing (1 + 1) sampleRootRecord.node.rf ∧
    (∃ g1 d1, sampleRootRecord.loadDirContent sampleParse 1 (freshSession mixedRemote) =
        some (g1, d1, none) ∧
      (d1.nodes.map Prod.fst).Nodup ∧
      (∀ t, (∃ n, GoMap.get d1.nodes t = some n) ↔
        ∃ f ∈ mixedListing, f.Labels.Trashed = false ∧ f.Labels.Hidden = false ∧
          f.Title = t) ∧
      (∀ t n, GoMap.get d1.nodes t = some n →
        ∃ pre f post, mixedListing = pre ++ f :: post ∧
          f.Labels.Trashed = false ∧ f.Labels.Hidden = false ∧ f.Title = t ∧
          (∀ x ∈ post,
            ¬ (x.Labels.Trashed = false ∧ x.Labels.Hidden = false ∧ x.Title = t)) ∧
          n.grvNode.rf = f ∧ n.grvNode.name = f.Title ∧
          n.grvNode.parent = some sampleRootRecord.node ∧
          ((∃ node nodes, n = Node.dir node nodes) ↔
            f.MimeType = "application/vnd.google-apps.folder") ∧
          ((∃ node fetcher, n = Node.file node fetcher) ↔
            f.MimeType ≠ "application/vnd.google-apps.folder") ∧
          (∀ node fetcher, n = Node.file node fetcher →
            fetcher = MakeFileFetcher (freshSession mixedRemote).c.DataDir f ∧
            ((∃ rest : String, f.MimeType = "application/vnd.google-apps." ++ rest) →
              node.attr.Size = (DesktopFileContent f).utf8ByteSize) ∧
            ((¬ ∃ rest : String, f.MimeType = "application/vnd.google-apps." ++ rest) →
              node.attr.Size = wrapUint64 f.FileSize) ∧
            (∀ io : OpenIO, io.statNotExist = true →
              (FetchEvent.makeDesktopFile ∈ (fetcher.Open io).2.2 ↔
                ∃ rest : String, f.MimeType = "application/vnd.google-apps." ++ rest) ∧
              (FetchEvent.download ∈ (fetcher.Open io).2.2 ↔
                ¬ ∃ rest : String,
                  f.MimeType = "application/vnd.google-apps." ++ rest))))) ∧
    (sampleRootRecord.loadDirContent sampleParse 1 (freshSession mixedRemote)).map
        (fun r => r.2.1.nodes.map
          (fun kv => (kv.1, kv.2.isDir, kv.2.grvNode.rf.Id))) =
      some [("a.txt", false, "id2"), ("docs", true, "d1")] :=
  ⟨rfl, rfl, mixedRoot_finiteDepth,
    loadDirContent_builds_child_mapping sampleParse 1 (freshSession mixedRemote)
      sampleRootRecord mixedListing rfl rfl mixedRoot_finiteDepth, by rfl⟩

/-- C6, as stated, fails: the root folder of a remote without files is populated by
`newDir`, which calls `ListDir` once and leaves the child mapping empty; invoking
`loadDirContent` on that directory again calls `ListDir` a second time. -/
theorem loadDirContent_lists_empty_directory_again :
    ∃ g1 d1 g2 d2,
      griveFS.newDir sampleParse 1 (freshSession emptyRemote) sampleRoot none = some (g1, d1) ∧
      d1.loadDirContent sampleParse 1 g1 = some (g2, d2, none) ∧
      g1.remote.listDirCalls = ["root"] ∧ d1.nodes = [] ∧
      g2.remote.listDirCalls = ["root", "root"] :=
  ⟨_, _, _, _, rfl, rfl, rfl, rfl, rfl⟩

/-- C6, amended: `ReadDirAll` leaves the session and the directory as they are, so a
second listing answers from the same child mapping without a remote call; invoking
`loadDirContent` on a directory whose child mapping is not empty issues no `ListDir` call
and changes nothing; on a directory whose child mapping is empty it calls `ListDir` once
more, and when the listing is again empty or holds only trashed or hidden entries the
child mapping stays empty. -/
theorem loadDirContent_again (parse : String → Option Time) (fuel : Nat) (g : griveFS)
    (d : grvDir) :
    (∃ dirs, d.ReadDirAll g = some ((g, d), (dirs, none))) ∧
    (d.nodes ≠ [] → d.loadDirContent parse fuel g = some (g, d, none)) ∧
    (d.nodes = [] → ∀ fs, g.remote.listing d.node.rf.Id = .ok fs →
      (∀ x ∈ fs, x.visible = false) →
      d.loadDirContent parse fuel g =
        some ({ g with remote := { g.remote with
                  listDirCalls := g.remote.listDirCalls ++ [d.node.rf.Id] } }, d, none)) := by
  refine ⟨readDirAll_returns g d, ?_, ?_⟩
  · intro hd
    exact loadDirContentWith_nonempty _ parse g d hd
  · intro hd fs hls hall
    unfold grvDir.loadDirContent
    rw [loadDirContentWith_ok _ parse g d hd fs hls,
      foldlM_loadEntry_invisible _ parse fs hall]

theorem loadDirContent_again_witness :
    samplePopulatedDir.nodes ≠ [] ∧ sampleRootRecord.nodes = [] ∧
    emptyRemote.listing sampleRootRecord.node.rf.Id = .ok [] ∧
    ((∃ dirs, samplePopulatedDir.ReadDirAll (freshSession emptyRemote) =
        some ((freshSession emptyRemote, samplePopulatedDir), (dirs, none))) ∧
    (samplePopulatedDir.nodes ≠ [] →
      samplePopulatedDir.loadDirContent sampleParse 1 (freshSession emptyRemote) =
        some (freshSession emptyRemote, samplePopulatedDir, none)) ∧
    (samplePopulatedDir.nodes = [] → ∀ fs,
      (freshSession emptyRemote).remote.listing samplePopulatedDir.node.rf.Id = .ok fs →
      (∀ x ∈ fs, x.visible = false) →
      samplePopulatedDir.loadDirContent sampleParse 1 (freshSession emptyRemote) =
        some ({ freshSession emptyRemote with remote := { (freshSession emptyRemote).remote with
                  listDirCalls := (freshSession emptyRemote).remote.listDirCalls ++
                    [samplePopulatedDir.node.rf.Id] } }, samplePopulatedDir, none))) :=
  ⟨List.ne_nil_of_length_pos (by decide), rfl, rfl,
    loadDirContent_again sampleParse 1 (freshSession emptyRemote) samplePopulatedDir⟩

/-- The child mapping of the directory returned by `newDir`, title by title. -/
theorem newDir_nodes (parse : String → Option Time) (fuel : Nat) (g : griveFS)
    (f : DriveFile) (p : Option grvNode) (g1 : griveFS) (d1 : grvDir)
    (h : griveFS.newDir parse fuel g f p = some (g1, d1)) :
    (∀ e, g.remote.listing f.Id = .error e → d1.nodes = []) ∧
    (∀ fs, g.remote.listing f.Id = .ok fs →
      ∀ t, (GoMap.get d1.nodes t = none ∧ ∀ x ∈ fs, ¬ (x.visible = true ∧ x.Title = t)) ∨
           (∃ pre x post n, fs = pre ++ x :: post ∧ x.visible = true ∧ x.Title = t ∧
              (∀ y ∈ post, ¬ (y.visible = true ∧ y.Title = t)) ∧
              GoMap.get d1.nodes t = some n ∧ Node.BuiltFrom g.c d1.node x n)) := by
  cases fuel with
  | zero => simp [griveFS.newDir] at h
  | succ fuel =>
    obtain ⟨hc, hr, hdn, hrf, hnm, hpa⟩ := newDirRecord_spec g parse f p
    simp only [griveFS.newDir] at h
    generalize (g.newDirRecord parse f p).1 = g2 at h hc hr
    generalize (g.newDirRecord parse f p).2 = dir at h hdn hrf hnm hpa
    cases heq : loadDirContentWith (griveFS.newDir parse fuel) parse g2 dir with
    | none => rw [heq] at h; cases h
    | some r =>
      obtain ⟨g3, d3, err⟩ := r
      rw [heq] at h
      simp only [Option.some.injEq, Prod.mk.injEq] at h
      obtain ⟨rfl, rfl⟩ := h
      constructor
      · intro e he
        have hls : g2.remote.listing dir.node.rf.Id = .error e := by rw [hr, hrf]; exact he
        rw [loadDirContentWith_error _ parse g2 dir hdn e hls] at heq
        simp only [Option.some.injEq, Prod.mk.injEq] at heq
        obtain ⟨-, rfl, -⟩ := heq
        exact hdn
      · intro fs hfs
        have hls : g2.remote.listing dir.node.rf.Id = .ok fs := by rw [hr, hrf]; exact hfs
        obtain ⟨-, -, -, -, a4, -, a6⟩ :=
          loadDirContentWith_spec _ (newDir_spec parse fuel) parse g2 dir hdn fs hls g3 d3 err heq
        intro t
        rw [a4, ← hc]
        exact a6 t

/-- C7, as stated, fails: on a fresh session whose remote root holds one file, the
directory returned by `newDir` already has a child and `ListDir` has been called for it,
before any `Lookup` or `ReadDirAll`; and `Lookup` on a directory record that was never
populated answers not found for a name of the remote listing, without calling `ListDir`. -/
theorem newDir_lists_before_first_access :
    (∃ g1 d1,
      griveFS.newDir sampleParse 1 (freshSession sampleRemote) sampleRoot none = some (g1, d1) ∧
      g1.remote.listDirCalls = ["root"] ∧ d1.nodes.length = 1) ∧
    sampleRootRecord.nodes = [] ∧
    (freshSession sampleRemote).remote.listing sampleRootRecord.node.rf.Id = .ok [sampleFile] ∧
    sampleFile.visible = true ∧ sampleFile.Title = "a.txt" ∧
    (sampleRootRecord.Lookup (freshSession sampleRemote) "a.txt").2 =
      (none, some Errno.ENOENT) ∧
    (sampleRootRecord.Lookup (freshSession sampleRemote) "a.txt").1.1.remote.listDirCalls = [] ∧
    (sampleRootRecord.Lookup (freshSession sampleRemote) "a.txt").1.2.nodes = [] :=
  ⟨⟨_, _, rfl, rfl, rfl⟩, rfl, rfl, rfl, rfl, rfl, rfl, rfl⟩

/-- C7, amended: a directory is populated when it is created.  When the folders below
the descriptor are nested less deep than the bound on its calls, `newDir` returns a
directory for which `ListDir` has been called, whose child mapping has a title as key iff
a listed descriptor that is neither trashed nor hidden has it, and is empty when the
listing failed.  `Lookup` and `ReadDirAll` on any directory leave the session and the
directory as they are, calling no `ListDir`: `Lookup` returns the node under the name in
the child mapping as it is, and `ENOENT` when there is none. -/
theorem newDir_populates_and_lookup_reads (parse : String → Option Time) (fuel : Nat)
    (g : griveFS) (f : DriveFile) (p : Option grvNode)
    (hfin : finiteDepth g.remote.listing fuel f) :
    (∃ g1 d1, griveFS.newDir parse fuel g f p = some (g1, d1) ∧
      (∃ more, g1.remote.listDirCalls = g.remote.listDirCalls ++ f.Id :: more) ∧
      (∀ fs, g.remote.listing f.Id = .ok fs →
        ∀ t, (∃ n, GoMap.get d1.nodes t = some n) ↔
          ∃ x ∈ fs, x.visible = true ∧ x.Title = t) ∧
      (∀ e, g.remote.listing f.Id = .error e → d1.nodes = [])) ∧
    (∀ (g0 : griveFS) (d0 : grvDir) (name : String),
      (d0.Lookup g0 name).1 = (g0, d0) ∧
      (∀ n, GoMap.get d0.nodes name = some n → (d0.Lookup g0 name).2 = (some n, none)) ∧
      (GoMap.get d0.nodes name = none → (d0.Lookup g0 name).2 = (none, some Errno.ENOENT)) ∧
      ∃ dirs, d0.ReadDirAll g0 = some ((g0, d0), (dirs, none))) := by
  constructor
  · obtain ⟨⟨g1, d1⟩, h⟩ := newDir_total parse g.remote.listing fuel f hfin g p rfl
    obtain ⟨-, -, hcalls, -, -, -⟩ := newDir_spec parse fuel g f p g1 d1 h
    obtain ⟨herr, hok⟩ := newDir_nodes parse fuel g f p g1 d1 h
    refine ⟨g1, d1, h, hcalls, ?_, herr⟩
    intro fs hfs t
    rcases hok fs hfs t with ⟨c1, c2⟩ | ⟨pre, x, post, n, c1, c2, c3, c4, c5, c6⟩
    · constructor
      · rintro ⟨n, hn⟩; rw [c1] at hn; cases hn
      · rintro ⟨x, hx, hv, ht⟩; exact absurd ⟨hv, ht⟩ (c2 x hx)
    · constructor
      · intro _; exact ⟨x, by rw [c1]; simp, c2, c3⟩
      · intro _; exact ⟨n, c5⟩
  · intro g0 d0 name
    refine ⟨?_, ?_, ?_, readDirAll_returns g0 d0⟩
    · unfold grvDir.Lookup
      cases GoMap.get d0.nodes name <;> rfl
    · intro n hn
      unfold grvDir.Lookup
      rw [hn]
    · intro hn
      unfold grvDir.Lookup
      rw [hn]

theorem newDir_populates_and_lookup_reads_witness :
    finiteDepth (freshSession sampleRemote).remote.listing (0 + 1) sampleRoot ∧
    ((∃ g1 d1, griveFS.newDir sampleParse (0 + 1) (freshSession sampleRemote) sampleRoot none =
        some (g1, d1) ∧
      (∃ more, g1.remote.listDirCalls =
        (freshSession sampleRemote).remote.listDirCalls ++ sampleRoot.Id :: more) ∧
      (∀ fs, (freshSession sampleRemote).remote.listing sampleRoot.Id = .ok fs →
        ∀ t, (∃ n, GoMap.get d1.nodes t = some n) ↔
          ∃ x ∈ fs, x.visible = true ∧ x.Title = t) ∧
      (∀ e, (freshSession sampleRemote).remote.listing sampleRoot.Id = .error e →
        d1.nodes = [])) ∧
    (∀ (g0 : griveFS) (d0 : grvDir) (name : String),
      (d0.Lookup g0 name).1 = (g0, d0) ∧
      (∀ n, GoMap.get d0.nodes name = some n → (d0.Lookup g0 name).2 = (some n, none)) ∧
      (GoMap.get d0.nodes name = none → (d0.Lookup g0 name).2 = (none, some Errno.ENOENT)) ∧
      ∃ dirs, d0.ReadDirAll g0 = some ((g0, d0), (dirs, none)))) :=
  ⟨sampleRoot_finiteDepth,
    newDir_populates_and_lookup_reads sampleParse (0 + 1) (freshSession sampleRemote)
      sampleRoot none sampleRoot_finiteDepth⟩

/-! ## Timestamps of a node -/

/-- C11, as stated, fails: for a descriptor whose last-viewed string is not empty and
does not parse, while its modified string parses, `fileTimes` returns the modification
time as access time, not the zero time. -/
theorem fileTimes_malformed_viewed_is_mtime :
    sampleFileBadViewed.LastViewedByMeDate ≠ "" ∧
    sampleParseTime sampleFileBadViewed.LastViewedByMeDate = none ∧
    (fileTimes sampleParseTime sampleFileBadViewed).2.2 = 1420156800000000000 ∧
    (fileTimes sampleParseTime sampleFileBadViewed).2.2 =
      (fileTimes sampleParseTime sampleFileBadViewed).2.1 ∧
    (fileTimes sampleParseTime sampleFileBadViewed).2.2 ≠ zeroTime := by
  refine ⟨by decide, by decide, by decide, by decide, by decide⟩

/-- C11, amended: for every descriptor, `fileTimes` returns (it is a total function) the
triple (ctime, mtime, atime) in which ctime and mtime are the parsed created and modified
timestamps, or the zero time when the string does not parse, and atime is mtime when the
last-viewed string is empty, the parsed last-viewed timestamp when it parses, and mtime
again when it is not empty and does not parse. -/
theorem fileTimes_spec (parse : String → Option Time) (f : DriveFile) :
    (fileTimes parse f).1 = (parse f.CreatedDate).getD zeroTime ∧
    (fileTimes parse f).2.1 = (parse f.ModifiedDate).getD zeroTime ∧
    (∀ t, parse f.CreatedDate = some t → (fileTimes parse f).1 = t) ∧
    (parse f.CreatedDate = none → (fileTimes parse f).1 = zeroTime) ∧
    (∀ t, parse f.ModifiedDate = some t → (fileTimes parse f).2.1 = t) ∧
    (parse f.ModifiedDate = none → (fileTimes parse f).2.1 = zeroTime) ∧
    (f.LastViewedByMeDate = "" → (fileTimes parse f).2.2 = (fileTimes parse f).2.1) ∧
    (∀ t, f.LastViewedByMeDate ≠ "" → parse f.LastViewedByMeDate = some t →
      (fileTimes parse f).2.2 = t) ∧
    (f.LastViewedByMeDate ≠ "" → parse f.LastViewedByMeDate = none →
      (fileTimes parse f).2.2 = (fileTimes parse f).2.1) := by
  refine ⟨rfl, rfl, ?_, ?_, ?_, ?_, ?_, ?_, ?_⟩
  · intro t h; simp [fileTimes, h]
  · intro h; simp [fileTimes, h]
  · intro t h; simp [fileTimes, h]
  · intro h; simp [fileTimes, h]
  · intro h; simp [fileTimes, h]
  · intro t h1 h2; simp [fileTimes, h1, h2]
  · intro h1 h2; simp [fileTimes, h1, h2]

theorem fileTimes_spec_witness :
    (fileTimes sampleParseTime sampleFileBadViewed).1 =
      (sampleParseTime sampleFileBadViewed.CreatedDate).getD zeroTime ∧
    (fileTimes sampleParseTime sampleFileBadViewed).2.1 =
      (sampleParseTime sampleFileBadViewed.ModifiedDate).getD zeroTime ∧
    (∀ t, sampleParseTime sampleFileBadViewed.CreatedDate = some t →
      (fileTimes sampleParseTime sampleFileBadViewed).1 = t) ∧
    (sampleParseTime sampleFileBadViewed.CreatedDate = none →
      (fileTimes sampleParseTime sampleFileBadViewed).1 = zeroTime) ∧
    (∀ t, sampleParseTime sampleFileBadViewed.ModifiedDate = some t →
      (fileTimes sampleParseTime sampleFileBadViewed).2.1 = t) ∧
    (sampleParseTime sampleFileBadViewed.ModifiedDate = none →
      (fileTimes sampleParseTime sampleFileBadViewed).2.1 = zeroTime) ∧
    (sampleFileBadViewed.LastViewedByMeDate = "" →
      (fileTimes sampleParseTime sampleFileBadViewed).2.2 =
        (fileTimes sampleParseTime sampleFileBadViewed).2.1) ∧
    (∀ t, sampleFileBadViewed.LastViewedByMeDate ≠ "" →
      sampleParseTime sampleFileBadViewed.LastViewedByMeDate = some t →
      (fileTimes sampleParseTime sampleFileBadViewed).2.2 = t) ∧
    (sampleFileBadViewed.LastViewedByMeDate ≠ "" →
      sampleParseTime sampleFileBadViewed.LastViewedByMeDate = none →
      (fileTimes sampleParseTime sampleFileBadViewed).2.2 =
        (fileTimes sampleParseTime sampleFileBadViewed).2.1) :=
  fileTimes_spec sampleParseTime sampleFileBadViewed

/-! ## The download -/

/-- C16 fails on the code at two inputs: for a descriptor with a download URL, when the
server answers with status 404 and there is no transport error, `Remote.Download` returns
the body with a nil error; and when the request fails at the transport level and there is
no response, it reads the body of the nil response, a panic.  With status 200 it returns
the body and a nil error. -/
theorem remote_download_at_status_404_and_at_transport_error :
    sampleFile.DownloadUrl ≠ "" ∧
    Remote.Download sampleRemote sampleFile (some { StatusCode := 404, Body := [] }, none) =
      .ret (some [], none) ∧
    Remote.Download sampleRemote sampleFile (none, some "dial tcp: i/o timeout") =
      .panic "invalid memory address or nil pointer dereference" ∧
    Remote.Download sampleRemote sampleFile (some { StatusCode := 200, Body := [104] }, none) =
      .ret (some [104], none) :=
  ⟨by decide, rfl, rfl, rfl⟩

/-- The rule of the code: when the copy ends without error, `download` logs
"Checksums don't match" exactly when `strings.EqualFold` holds of the digest bytes and the
expected checksum string. -/
theorem download_warns_iff_equalFold (f : fileFetcher) (r : Remote)
    (equalFold : List Nat → List Nat → Bool) (io : DownloadIO) (body : Option (List Nat))
    (hd : r.Download f.rf io.get = .ret (body, none)) (ho : io.openFile = none)
    (hc : io.copy = none) :
    ("Checksums don't match" ∈ (f.download r equalFold io).warnings ↔
      equalFold io.sum (utf8Bytes f.rf.Md5Checksum) = true) := by
  unfold fileFetcher.download
  rw [hd]
  simp only [ho, hc]
  split_ifs with h <;> simp [h]

/-- C12 fails on the code: the bytes copied are `hello`, whose MD5 digest differs from the
checksum of the descriptor, the copy ends without error, and `download` logs no warning.
The test compares the sixteen digest bytes themselves, not their hexadecimal digits, and
logs when `strings.EqualFold` holds, not when it fails: it does log for a descriptor whose
checksum string is, up to case, the digest bytes. -/
theorem download_logs_no_warning_at_checksum_mismatch :
    sampleDownloadIO.copy = none ∧
    hexDigest sampleDownloadIO.sum = "5d41402abc4b2a76b9719d911017c592" ∧
    sampleFile.Md5Checksum = "d41d8cd98f00b204e9800998ecf8427e" ∧
    hexDigest sampleDownloadIO.sum ≠ sampleFile.Md5Checksum ∧
    ((MakeFileFetcher "cache" sampleFile).download sampleRemote sampleEqualFold
      sampleDownloadIO).warnings = [] ∧
    hexDigest digestAscii ≠ sampleFileRawChecksum.Md5Checksum ∧
    ((MakeFileFetcher "cache" sampleFileRawChecksum).download sampleRemote sampleEqualFold
      { sampleDownloadIO with sum := digestAscii }).warnings = ["Checksums don't match"] :=
  ⟨rfl, by decide, rfl, by decide, by decide, by decide, by decide⟩

/-- C15 fails on the code: with three progress reports above the threshold and an opener
that receives once from `ready`, the readiness goroutine reaches the send statement a
second time, at the second report, and stays blocked in it, the third report never taken
from the channel; with a second receive a second readiness message is delivered.  With
one report above the threshold, or none, exactly one message is sent. -/
theorem readiness_send_repeated_at_second_report :
    largeDownloadIO.reports = [70000, 140000, 200000] ∧
    ((MakeFileFetcher "cache" sampleFile).download sampleRemote sampleEqualFold
      largeDownloadIO).goroutine =
      some { sends := 2, delivered := 1, blocked := true, consumed := 2 } ∧
    readyLoop 2 false [70000, 140000] =
      { sends := 2, delivered := 2, blocked := false, consumed := 2 } ∧
    readyLoop 1 false [1000, 70000] =
      { sends := 1, delivered := 1, blocked := false, consumed := 2 } ∧
    readyLoop 1 false [1000, 5000] =
      { sends := 1, delivered := 1, blocked := false, consumed := 2 } :=
  ⟨rfl, by decide, by decide, by decide, by decide⟩

/-! ## Failure of the remote listing -/

/-- C13, as stated, fails: on a remote whose listing call fails, `newDir` returns a
directory with an empty child mapping for the root descriptor, `MakeGriveFS` returns the
session with that root and no error, and `Lookup` on the root answers. -/
theorem newDir_returns_empty_directory_when_listing_fails :
    failingRemote.listing sampleRoot.Id = .error "googleapi: Error 500" ∧
    (∃ g1 d1, griveFS.newDir sampleParse 1 (freshSession failingRemote) sampleRoot none =
        some (g1, d1) ∧
      d1.nodes = [] ∧ d1.node.rf = sampleRoot ∧ g1.remote.listDirCalls = ["root"] ∧
      (d1.Lookup g1 "a.txt").2 = (none, some Errno.ENOENT)) ∧
    (∃ g, MakeGriveFS sampleParse 1 sampleConfig 1000 1000 (.ok failingRemote)
        (.ok sampleRoot) = some (.ok g) ∧
      (g.root.map (fun d => d.nodes.length)) = some 0) :=
  ⟨rfl, ⟨_, _, rfl, rfl, rfl, rfl, rfl⟩, ⟨_, rfl, rfl⟩⟩

/-- C13, amended: when the listing call fails for the folder of a new directory,
`loadDirContent` returns the error to `newDir`, and `newDir` does not report it: it
returns the directory, with an empty child mapping, after the one `ListDir` call.  And
`loadDirContent` on a directory whose own listing succeeds returns no error, whatever
happened to the listings of the folders below it. -/
theorem listing_failure_stops_at_newDir (parse : String → Option Time) (fuel : Nat)
    (g : griveFS) (f : DriveFile) (p : Option grvNode) (e : Err)
    (hls : g.remote.listing f.Id = .error e) :
    (g.newDirRecord parse f p).2.loadDirContent parse fuel (g.newDirRecord parse f p).1 =
      some ({ (g.newDirRecord parse f p).1 with remote := { g.remote with
                listDirCalls := g.remote.listDirCalls ++ [f.Id] } },
            (g.newDirRecord parse f p).2, some e) ∧
    griveFS.newDir parse (fuel + 1) g f p =
      some ({ (g.newDirRecord parse f p).1 with remote := { g.remote with
                listDirCalls := g.remote.listDirCalls ++ [f.Id] } },
            (g.newDirRecord parse f p).2) ∧
    (g.newDirRecord parse f p).2.nodes = [] ∧ (g.newDirRecord parse f p).2.node.rf = f ∧
    (∀ (g0 : griveFS) (d0 : grvDir) (fs : List DriveFile) (r : griveFS × grvDir × Option Err),
      d0.nodes = [] → g0.remote.listing d0.node.rf.Id = .ok fs →
      d0.loadDirContent parse fuel g0 = some r → r.2.2 = none) := by
  obtain ⟨hc, hr, hdn, hrf, hnm, hpa⟩ := newDirRecord_spec g parse f p
  have hls2 : (g.newDirRecord parse f p).1.remote.listing
      (g.newDirRecord parse f p).2.node.rf.Id = .error e := by
    rw [hr, hrf]; exact hls
  have h1 := loadDirContentWith_error (griveFS.newDir parse fuel) parse
    (g.newDirRecord parse f p).1 (g.newDirRecord parse f p).2 hdn e hls2
  rw [hr, hrf] at h1
  refine ⟨h1, ?_, hdn, hrf, ?_⟩
  · simp only [griveFS.newDir]
    rw [h1]
  · intro g0 d0 fs r hd0 hfs hres
    obtain ⟨g2, d2, err⟩ := r
    exact (loadDirContentWith_spec _ (newDir_spec parse fuel) parse g0 d0 hd0 fs hfs
      g2 d2 err hres).1

theorem listing_failure_stops_at_newDir_witness :
    (freshSession failingRemote).remote.listing sampleRoot.Id = .error "googleapi: Error 500" ∧
    (((freshSession failingRemote).newDirRecord sampleParse sampleRoot none).2.loadDirContent
        sampleParse 0 ((freshSession failingRemote).newDirRecord sampleParse sampleRoot none).1 =
      some ({ ((freshSession failingRemote).newDirRecord sampleParse sampleRoot none).1 with
                remote := { (freshSession failingRemote).remote with
                  listDirCalls := (freshSession failingRemote).remote.listDirCalls ++
                    [sampleRoot.Id] } },
            ((freshSession failingRemote).newDirRecord sampleParse sampleRoot none).2,
            some "googleapi: Error 500") ∧
    griveFS.newDir sampleParse (0 + 1) (freshSession failingRemote) sampleRoot none =
      some ({ ((freshSession failingRemote).newDirRecord sampleParse sampleRoot none).1 with
                remote := { (freshSession failingRemote).remote with
                  listDirCalls := (freshSession failingRemote).remote.listDirCalls ++
                    [sampleRoot.Id] } },
            ((freshSession failingRemote).newDirRecord sampleParse sampleRoot none).2) ∧
    ((freshSession failingRemote).newDirRecord sampleParse sampleRoot none).2.nodes = [] ∧
    ((freshSession failingRemote).newDirRecord sampleParse sampleRoot none).2.node.rf =
      sampleRoot ∧
    (∀ (g0 : griveFS) (d0 : grvDir) (fs : List DriveFile) (r : griveFS × grvDir × Option Err),
      d0.nodes = [] → g0.remote.listing d0.node.rf.Id = .ok fs →
      d0.loadDirContent sampleParse 0 g0 = some r → r.2.2 = none)) :=
  ⟨rfl, listing_failure_stops_at_newDir sampleParse 0 (freshSession failingRemote) sampleRoot
    none "googleapi: Error 500" rfl⟩

/-! ## The identifiers of the nodes -/

theorem wrapUint64_succ (n : Nat) (h : n + 1 < 18446744073709551616) :
    wrapUint64 ((n : Int) + 1) = n + 1 := by
  unfold wrapUint64
  have : ((n : Int) + 1) % 18446744073709551616 = (n : Int) + 1 :=
    Int.emod_eq_of_lt (by omega) (by omega)
  rw [this]
  omega

theorem inodesOf_set_mem (m : List (String × Node)) (k : String) (n : Node) :
    ∀ x, x ∈ inodesOf (GoMap.set m k n) → x ∈ inodesOf m ∨ x ∈ n.inodes := by
  induction m with
  | nil =>
    intro x hx
    simp only [GoMap.set, inodesOf, List.append_nil] at hx
    exact Or.inr hx
  | cons kv m ih =>
    obtain ⟨k1, v1⟩ := kv
    intro x hx
    by_cases hk : k1 = k
    · simp only [GoMap.set, hk, if_true, inodesOf, List.mem_append] at hx ⊢
      rcases hx with hx | hx
      · exact Or.inr hx
      · exact Or.inl (Or.inr hx)
    · simp only [GoMap.set, hk, if_false, inodesOf, List.mem_append] at hx ⊢
      rcases hx with hx | hx
      · exact Or.inl (Or.inl hx)
      · rcases ih x hx with h | h
        · exact Or.inl (Or.inr h)
        · exact Or.inr h

/-- Storing a node whose identifiers are fresh keeps the identifiers of a child mapping
distinct. -/
theorem inodesOf_set_nodup (m : List (String × Node)) (k : String) (n : Node)
    (hm : (inodesOf m).Nodup) (hn : n.inodes.Nodup)
    (hdis : ∀ x ∈ inodesOf m, x ∉ n.inodes) : (inodesOf (GoMap.set m k n)).Nodup := by
  induction m with
  | nil => simpa [GoMap.set, inodesOf] using hn
  | cons kv m ih =>
    obtain ⟨k1, v1⟩ := kv
    simp only [inodesOf, List.nodup_append] at hm
    obtain ⟨h1, h2, h3⟩ := hm
    have hdis2 : ∀ x ∈ inodesOf m, x ∉ n.inodes := fun x hx =>
      hdis x (by simp only [inodesOf, List.mem_append]; exact Or.inr hx)
    by_cases hk : k1 = k
    · simp only [GoMap.set, hk, if_true, inodesOf, List.nodup_append]
      refine ⟨hn, h2, ?_⟩
      intro x hx1 hx2
      exact hdis2 x hx2 hx1
    · simp only [GoMap.set, hk, if_false, inodesOf, List.nodup_append]
      refine ⟨h1, ih h2 hdis2, ?_⟩
      intro x hx1 hx2
      rcases inodesOf_set_mem m k n x hx2 with h | h
      · exact h3 hx1 h
      · exact hdis x (by simp only [inodesOf, List.mem_append]; exact Or.inl hx1) h

theorem newFile_inode (g : griveFS) (parse : String → Option Time) (f : DriveFile)
    (p : grvNode) :
    (g.newFile parse f p).1.nodeId = wrapUint64 ((g.nodeId : Int) + 1) ∧
    (g.newFile parse f p).2.asNode.inodes = [wrapUint64 ((g.nodeId : Int) + 1)] := by
  refine ⟨rfl, ?_⟩
  simp only [griveFS.newFile, grvFile.asNode, Node.inodes, grvNode.attr, griveFS.nextId]
  split_ifs <;> rfl

theorem newDirRecord_inode (g : griveFS) (parse : String → Option Time) (f : DriveFile)
    (p : Option grvNode) :
    (g.newDirRecord parse f p).1.nodeId = wrapUint64 ((g.nodeId : Int) + 1) ∧
    (g.newDirRecord parse f p).2.node.attr.Inode = wrapUint64 ((g.nodeId : Int) + 1) :=
  ⟨rfl, rfl⟩

/-- One round of the loop of `loadDirContent`, seen from the identifier counter. -/
theorem loadEntry_inodes
    (mkDir : griveFS → DriveFile → Option grvNode → Option (griveFS × grvDir))
    (L : String → Except Err (List DriveFile)) (cnt : DriveFile → Nat)
    (hin : InodeSpec mkDir L cnt) (parse : String → Option Time) (g : griveFS) (d : grvDir)
    (f : DriveFile) (g1 : griveFS) (d1 : grvDir) (hL : g.remote.listing = L)
    (h : loadEntry mkDir parse (g, d) f = some (g1, d1))
    (hw : g.nodeId + entryCount cnt f < 18446744073709551616) :
    g1.nodeId = g.nodeId + entryCount cnt f ∧
    (f.visible = false → d1.nodes = d.nodes) ∧
    (f.visible = true →
      ∃ n, d1.nodes = GoMap.set d.nodes f.Title n ∧ n.inodes.Nodup ∧
        ∀ x ∈ n.inodes, g.nodeId < x ∧ x ≤ g1.nodeId) := by
  unfold loadEntry at h
  unfold entryCount at hw ⊢
  by_cases hv : f.visible = true
  · have hv2 : (!(f.Labels.Trashed || f.Labels.Hidden)) = true := hv
    simp only [hv2, if_true] at h
    simp only [hv, if_true] at hw ⊢
    by_cases hd : RemoteIsDir f = true
    · simp only [hd, if_true] at h hw ⊢
      cases hm : mkDir g f (some d.node) with
      | none => rw [hm] at h; cases h
      | some r =>
        obtain ⟨g2, sub⟩ := r
        rw [hm] at h
        simp only [Option.some.injEq, Prod.mk.injEq] at h
        obtain ⟨rfl, rfl⟩ := h
        obtain ⟨s1, s2, s3, s4, s5⟩ := hin g f (some d.node) g2 sub hL hm hw
        refine ⟨s1, fun hx => (by cases hx), fun _ => ⟨sub.asNode, rfl, ?_, ?_⟩⟩
        · simp only [grvDir.asNode, Node.inodes, List.nodup_cons]
          refine ⟨fun hmem => ?_, s3⟩
          have := (s4 _ hmem).1
          omega
        · intro x hx
          simp only [grvDir.asNode, Node.inodes, List.mem_cons] at hx
          rcases hx with hx | hx
          · omega
          · have := s4 x hx
            omega
    · have hd2 : RemoteIsDir f = false := by simpa using hd
      simp only [hd2, Bool.false_eq_true, if_false, Option.some.injEq, Prod.mk.injEq] at h hw ⊢
      obtain ⟨rfl, rfl⟩ := h
      obtain ⟨e1, e2⟩ := newFile_inode g parse f d.node
      have hwr := wrapUint64_succ g.nodeId hw
      refine ⟨by rw [e1, hwr], fun hx => (by cases hx), fun _ => ⟨_, rfl, ?_, ?_⟩⟩
      · rw [e2]; simp
      · intro x hx
        rw [e2, hwr] at hx
        simp only [List.mem_singleton] at hx
        rw [e1, hwr]
        omega
  · have hv1 : f.visible = false := by simpa using hv
    have hv2 : (!(f.Labels.Trashed || f.Labels.Hidden)) = false := hv1
    simp only [hv2, Bool.false_eq_true, if_false, Option.some.injEq, Prod.mk.injEq] at h
    obtain ⟨rfl, rfl⟩ := h
    rw [hv1]
    exact ⟨rfl, fun _ => rfl, fun hx => (by cases hx)⟩

/-- The loop of `loadDirContent`, seen from the identifier counter: it advances by the
number of nodes created, and the identifiers below the child mapping stay distinct and
within the values handed out so far. -/
theorem foldlM_loadEntry_inodes
    (mkDir : griveFS → DriveFile → Option grvNode → Option (griveFS × grvDir))
    (hmk : MkDirSpec mkDir) (L : String → Except Err (List DriveFile))
    (cnt : DriveFile → Nat) (hin : InodeSpec mkDir L cnt) (parse : String → Option Time)
    (lo : Nat) (fs : List DriveFile) :
    ∀ (g : griveFS) (d : grvDir) (g1 : griveFS) (d1 : grvDir),
      g.remote.listing = L → fs.foldlM (loadEntry mkDir parse) (g, d) = some (g1, d1) →
      g.nodeId + (fs.map (entryCount cnt)).sum < 18446744073709551616 → lo ≤ g.nodeId →
      (inodesOf d.nodes).Nodup → (∀ x ∈ inodesOf d.nodes, lo < x ∧ x ≤ g.nodeId) →
      g1.nodeId = g.nodeId + (fs.map (entryCount cnt)).sum ∧ (inodesOf d1.nodes).Nodup ∧
      ∀ x ∈ inodesOf d1.nodes, lo < x ∧ x ≤ g1.nodeId := by
  induction fs with
  | nil =>
    intro g d g1 d1 _ h _ _ hn hr
    simp only [List.foldlM_nil, Option.pure_def, Option.some.injEq, Prod.mk.injEq] at h
    obtain ⟨rfl, rfl⟩ := h
    exact ⟨by simp, hn, hr⟩
  | cons f rest ih =>
    intro g d g1 d1 hL h hw hlo hn hr
    simp only [List.map_cons, List.sum_cons] at hw ⊢
    simp only [List.foldlM_cons, Option.bind_eq_bind] at h
    cases h0 : loadEntry mkDir parse (g, d) f with
    | none => rw [h0] at h; cases h
    | some r =>
      obtain ⟨g0, d0⟩ := r
      rw [h0] at h
      simp only [Option.some_bind] at h
      obtain ⟨-, a2, -, -, -, -⟩ := loadEntry_spec mkDir hmk parse g d f g0 d0 h0
      obtain ⟨b1, b2, b3⟩ := loadEntry_inodes mkDir L cnt hin parse g d f g0 d0 hL h0
        (by omega)
      have hn0 : (inodesOf d0.nodes).Nodup ∧ ∀ x ∈ inodesOf d0.nodes, lo < x ∧ x ≤ g0.nodeId := by
        by_cases hv : f.visible = true
        · obtain ⟨n, e1, e2, e3⟩ := b3 hv
          rw [e1]
          constructor
          · apply inodesOf_set_nodup _ _ _ hn e2
            intro x hx hx2
            have := hr x hx
            have := e3 x hx2
            omega
          · intro x hx
            rcases inodesOf_set_mem _ _ _ x hx with h1 | h1
            · have := hr x h1
              omega
            · have := e3 x h1
              omega
        · rw [b2 (by simpa using hv)]
          refine ⟨hn, fun x hx => ?_⟩
          have := hr x hx
          omega
      obtain ⟨c1, c2, c3⟩ := ih g0 d0 g1 d1 (a2.trans hL) h (by omega) (by omega) hn0.1 hn0.2
      exact ⟨by omega, c2, c3⟩

theorem createdCount_pos (L : String → Except Err (List DriveFile)) (fuel : Nat)
    (f : DriveFile) : 1 ≤ createdCount L (fuel + 1) f := by
  simp only [createdCount]
  split <;> omega

/-- `newDir` keeps its promises about identifiers for every bound on the depth of its
calls. -/
theorem newDir_inodes (parse : String → Option Time)
    (L : String → Except Err (List DriveFile)) :
    ∀ fuel, InodeSpec (griveFS.newDir parse fuel) L (createdCount L fuel) := by
  intro fuel
  induction fuel with
  | zero =>
    intro g f p g1 sub _ h
    simp [griveFS.newDir] at h
  | succ fuel ih =>
    intro g f p g1 sub hL h hw
    obtain ⟨hc, hr, hdn, hrf, hnm, hpa⟩ := newDirRecord_spec g parse f p
    obtain ⟨i1, i2⟩ := newDirRecord_inode g parse f p
    have hpos := createdCount_pos L fuel f
    have hwr := wrapUint64_succ g.nodeId (by omega)
    rw [hwr] at i1 i2
    simp only [griveFS.newDir] at h
    generalize (g.newDirRecord parse f p).1 = g2 at h hc hr i1
    generalize (g.newDirRecord parse f p).2 = dir at h hdn hrf hnm hpa i2
    cases heq : loadDirContentWith (griveFS.newDir parse fuel) parse g2 dir with
    | none => rw [heq] at h; cases h
    | some r =>
      obtain ⟨g3, d3, err⟩ := r
      rw [heq] at h
      simp only [Option.some.injEq, Prod.mk.injEq] at h
      obtain ⟨rfl, rfl⟩ := h
      have hLf : g2.remote.listing dir.node.rf.Id = L f.Id := by rw [hr, hrf, hL]
      cases hls : L f.Id with
      | error e =>
        rw [hls] at hLf
        rw [loadDirContentWith_error _ parse g2 dir hdn e hLf] at heq
        simp only [Option.some.injEq, Prod.mk.injEq] at heq
        obtain ⟨rfl, rfl, -⟩ := heq
        have hcnt : createdCount L (fuel + 1) f = 1 := by simp only [createdCount, hls]
        rw [hcnt]
        refine ⟨i1, i2, by rw [hdn]; simp [inodesOf], ?_, by omega⟩
        intro x hx
        rw [hdn] at hx
        simp [inodesOf] at hx
      | ok fs =>
        rw [hls] at hLf
        have hcnt : createdCount L (fuel + 1) f =
            1 + (fs.map (entryCount (createdCount L fuel))).sum := by
          simp only [createdCount, hls]
        rw [hcnt] at hw ⊢
        rw [loadDirContentWith_ok _ parse g2 dir hdn fs hLf] at heq
        cases hf : fs.foldlM (loadEntry (griveFS.newDir parse fuel) parse)
            ({ g2 with remote := { g2.remote with
                 listDirCalls := g2.remote.listDirCalls ++ [dir.node.rf.Id] } }, dir) with
        | none => rw [hf] at heq; cases heq
        | some r2 =>
          obtain ⟨g4, d4⟩ := r2
          rw [hf] at heq
          simp only [Option.some.injEq, Prod.mk.injEq] at heq
          obtain ⟨rfl, rfl, -⟩ := heq
          obtain ⟨c1, c2, c3⟩ := foldlM_loadEntry_inodes _ (newDir_spec parse fuel) L
            (createdCount L fuel) ih parse (g.nodeId + 1) fs _ _ _ _
            (by simp only; rw [hr]; exact hL) hf
            (by simp only; rw [i1]; omega) (by simp only; rw [i1])
            (by rw [hdn]; simp [inodesOf])
            (by intro x hx; rw [hdn] at hx; simp [inodesOf] at hx)
          obtain ⟨-, -, -, a4, -, -⟩ :=
            foldlM_loadEntry_spec _ (newDir_spec parse fuel) parse fs _ _ _ _ hf
          simp only at c1 c3
          rw [i1] at c1
          refine ⟨by rw [c1]; omega, by rw [a4]; exact i2, c2, c3, by omega⟩


/-- C14: for every remote hierarchy of finite depth whose nodes the 64-bit counter can
number without wrapping around, `nextId` returns the counter plus one and stores it, so
every identifier handed out is greater than all those handed out before, and `newFile`
and `newDir` take the identifier of the node they create from `nextId`; `newDir` returns
a tree whose top directory has the first identifier handed out, which is 1 when the
counter of the session starts at 0; the identifiers (`attr.Inode`) of the nodes of the
tree are pairwise distinct, were all handed out during the call, and below the top
directory are greater than its own; and `Lookup`, `ReadDirAll`, `Attr`, `Create`,
`Mkdir`, `Rename`, `Remove`, `Write` and `Setattr` leave the identifiers of the nodes
they are applied to as they were. -/
theorem node_identifiers_distinct_increasing_immutable (parse : String → Option Time)
    (fuel : Nat) (g : griveFS) (f : DriveFile) (p : Option grvNode)
    (hfin : finiteDepth g.remote.listing fuel f)
    (hw : g.nodeId + createdCount g.remote.listing fuel f < 18446744073709551616) :
    (∀ g0 : griveFS, g0.nodeId + 1 < 18446744073709551616 →
      g0.nextId.2 = g0.nodeId + 1 ∧ g0.nextId.1.nodeId = g0.nextId.2 ∧
      (∀ f0 p0, (g0.newFile parse f0 p0).2.node.attr.Inode = g0.nextId.2 ∧
        (g0.newFile parse f0 p0).1.nodeId = g0.nextId.2) ∧
      (∀ f0 p0, (g0.newDirRecord parse f0 p0).2.node.attr.Inode = g0.nextId.2 ∧
        (g0.newDirRecord parse f0 p0).1.nodeId = g0.nextId.2)) ∧
    (∃ g1 d1, griveFS.newDir parse fuel g f p = some (g1, d1) ∧
      d1.node.attr.Inode = g.nodeId + 1 ∧
      (g.nodeId = 0 → d1.node.attr.Inode = 1) ∧
      g1.nodeId = g.nodeId + createdCount g.remote.listing fuel f ∧
      d1.asNode.inodes.Nodup ∧
      (∀ x ∈ d1.asNode.inodes, g.nodeId < x ∧ x ≤ g1.nodeId) ∧
      (∀ x ∈ inodesOf d1.nodes, d1.node.attr.Inode < x)) ∧
    (∀ (g0 : griveFS) (d : grvDir) (fl : grvFile) (n : grvNode),
      (∀ name, (d.Lookup g0 name).1.2.asNode.inodes = d.asNode.inodes ∧
        (d.Lookup g0 name).2.1 = GoMap.get d.nodes name) ∧
      (∃ r, d.ReadDirAll g0 = some r ∧ r.1.2.asNode.inodes = d.asNode.inodes) ∧
      (∀ o, (n.Attr o).1.attr.Inode = n.attr.Inode) ∧
      (∀ req resp, (d.Create g0 req resp).1.2.1.asNode.inodes = d.asNode.inodes) ∧
      (∀ req, (d.Mkdir g0 req).1.2.asNode.inodes = d.asNode.inodes) ∧
      (∀ req newDir, (d.Rename g0 req newDir).1.2.asNode.inodes = d.asNode.inodes) ∧
      (∀ req, (d.Remove g0 req).1.2.asNode.inodes = d.asNode.inodes) ∧
      (∀ req resp, (fl.Write g0 req resp).1.2.1.asNode.inodes = fl.asNode.inodes) ∧
      (∀ req resp, (fl.Setattr g0 req resp).1.2.1.asNode.inodes = fl.asNode.inodes)) := by
  refine ⟨?_, ?_, ?_⟩
  · intro g0 h0
    have hwr := wrapUint64_succ g0.nodeId h0
    refine ⟨hwr, rfl, fun f0 p0 => ⟨?_, rfl⟩, fun f0 p0 => ⟨rfl, rfl⟩⟩
    have h2 := (newFile_inode g0 parse f0 p0).2
    simp only [grvFile.asNode, Node.inodes, List.cons.injEq, and_true] at h2
    exact h2
  · obtain ⟨⟨g1, d1⟩, h⟩ := newDir_total parse g.remote.listing fuel f hfin g p rfl
    obtain ⟨s1, s2, s3, s4, s5⟩ :=
      newDir_inodes parse g.remote.listing fuel g f p g1 d1 rfl h hw
    refine ⟨g1, d1, h, s2, fun h0 => by rw [s2, h0], s1, ?_, ?_, ?_⟩
    · simp only [grvDir.asNode, Node.inodes, List.nodup_cons]
      refine ⟨fun hmem => ?_, s3⟩
      have := (s4 _ hmem).1
      omega
    · intro x hx
      simp only [grvDir.asNode, Node.inodes, List.mem_cons] at hx
      rcases hx with hx | hx
      · omega
      · have := s4 x hx
        omega
    · intro x hx
      have := s4 x hx
      omega
  · intro g0 d fl n
    refine ⟨fun name => ?_, ?_, fun _ => rfl, fun _ _ => rfl, fun _ => rfl, fun _ _ => rfl,
      fun _ => rfl, fun _ _ => rfl, fun _ _ => rfl⟩
    · unfold grvDir.Lookup
      cases GoMap.get d.nodes name <;> exact ⟨rfl, rfl⟩
    · obtain ⟨dirs, hd⟩ := readDirAll_returns g0 d
      exact ⟨_, hd, rfl⟩

theorem node_identifiers_distinct_increasing_immutable_witness :
    finiteDepth (freshSession sampleRemote).remote.listing (0 + 1) sampleRoot ∧
    (freshSession sampleRemote).nodeId +
      createdCount (freshSession sampleRemote).remote.listing (0 + 1) sampleRoot <
        18446744073709551616 ∧
    (∀ g0 : griveFS, g0.nodeId + 1 < 18446744073709551616 →
      g0.nextId.2 = g0.nodeId + 1 ∧ g0.nextId.1.nodeId = g0.nextId.2 ∧
      (∀ f0 p0, (g0.newFile sampleParse f0 p0).2.node.attr.Inode = g0.nextId.2 ∧
        (g0.newFile sampleParse f0 p0).1.nodeId = g0.nextId.2) ∧
      (∀ f0 p0, (g0.newDirRecord sampleParse f0 p0).2.node.attr.Inode = g0.nextId.2 ∧
        (g0.newDirRecord sampleParse f0 p0).1.nodeId = g0.nextId.2)) ∧
    (∃ g1 d1, griveFS.newDir sampleParse (0 + 1) (freshSession sampleRemote) sampleRoot none =
        some (g1, d1) ∧
      d1.node.attr.Inode = (freshSession sampleRemote).nodeId + 1 ∧
      ((freshSession sampleRemote).nodeId = 0 → d1.node.attr.Inode = 1) ∧
      g1.nodeId = (freshSession sampleRemote).nodeId +
        createdCount (freshSession sampleRemote).remote.listing (0 + 1) sampleRoot ∧
      d1.asNode.inodes.Nodup ∧
      (∀ x ∈ d1.asNode.inodes, (freshSession sampleRemote).nodeId < x ∧ x ≤ g1.nodeId) ∧
      (∀ x ∈ inodesOf d1.nodes, d1.node.attr.Inode < x)) ∧
    (∀ (g0 : griveFS) (d : grvDir) (fl : grvFile) (n : grvNode),
      (∀ name, (d.Lookup g0 name).1.2.asNode.inodes = d.asNode.inodes ∧
        (d.Lookup g0 name).2.1 = GoMap.get d.nodes name) ∧
      (∃ r, d.ReadDirAll g0 = some r ∧ r.1.2.asNode.inodes = d.asNode.inodes) ∧
      (∀ o, (n.Attr o).1.attr.Inode = n.attr.Inode) ∧
      (∀ req resp, (d.Create g0 req resp).1.2.1.asNode.inodes = d.asNode.inodes) ∧
      (∀ req, (d.Mkdir g0 req).1.2.asNode.inodes = d.asNode.inodes) ∧
      (∀ req newDir, (d.Rename g0 req newDir).1.2.asNode.inodes = d.asNode.inodes) ∧
      (∀ req, (d.Remove g0 req).1.2.asNode.inodes = d.asNode.inodes) ∧
      (∀ req resp, (fl.Write g0 req resp).1.2.1.asNode.inodes = fl.asNode.inodes) ∧
      (∀ req resp, (fl.Setattr g0 req resp).1.2.1.asNode.inodes = fl.asNode.inodes)) :=
  ⟨sampleRoot_finiteDepth, by decide,
    node_identifiers_distinct_increasing_immutable sampleParse (0 + 1)
      (freshSession sampleRemote) sampleRoot none sampleRoot_finiteDepth (by decide)⟩

/-- The sample root is numbered 1 and its one file 2. -/
theorem sampleRoot_inodes :
    (griveFS.newDir sampleParse (0 + 1) (freshSession sampleRemote) sampleRoot none).map
      (fun r => (r.1.nodeId, r.2.asNode.inodes)) = some (2, [1, 2]) := by
  rfl

end GriveFS
